import Mathlib

/-!
Verification of the d64lib disk-image engine (C++ sources `d64.h`, `d64_types.h`
and the implementation files) against its natural-language specification.

The model is a shallow embedding of the most-refactored variant of the library
(the implementation file that defines `d64::addFile` with a `recordSize`
parameter, together with `d64_types.h` and its class header).  The C++ engine
owns one contiguous byte buffer and accesses it through `#pragma pack(1)`
overlay structures (`BAM`, `Sector`, `Directory_Sector`, `SideSector`), so the
buffer is modelled sector-by-sector: a state carries, for every
(track, sector) coordinate, the 256-byte content of that sector, and every
structure field access is translated to the byte offset fixed by the packed
layout.  Machine bytes are `Nat` values; every store truncates with `% 256`
exactly where the C++ `uint8_t` assignment would.
-/

/-- Disk type of the image, `enum diskType` of `d64_types.h`. -/
inductive diskType where
  | thirty_five_track
  | forty_track
deriving DecidableEq, Repr

def TRACKS_35 : Nat := 35

def TRACKS_40 : Nat := 40

def SECTOR_SIZE : Nat := 256

def DISK_NAME_SZ : Nat := 16

def FILE_NAME_SZ : Nat := 16

def DIRECTORY_TRACK : Nat := 18

def DIRECTORY_SECTOR : Nat := 1

def BAM_SECTOR : Nat := 0

def FILES_PER_SECTOR : Nat := 8

def D64_DISK35_SZ : Nat := 174848

def D64_DISK40_SZ : Nat := 196608

def SIDE_SECTOR_ENTRY_SIZE : Nat := 6

def SIDE_SECTOR_CHAIN_SZ : Nat := (SECTOR_SIZE - 15) / 2

def A0_VALUE : Nat := 0xA0

def DOS_VERSION : Nat := 65

def DOS_TYPE : Nat := 50

def INTERLEAVE : Nat := 10

/-- Table `SECTORS_PER_TRACK` of the class header (40 entries, track 1 first). -/
def SECTORS_PER_TRACK : List Nat :=
  [21, 21, 21, 21, 21, 21, 21, 21, 21, 21, 21, 21, 21, 21, 21, 21, 21,
   19, 19, 19, 19, 19, 19, 19,
   18, 18, 18, 18, 18, 18,
   17, 17, 17, 17, 17,
   17, 17, 17, 17, 17]

/-- Table `TRACK_OFFSETS` of the class header (byte offset of each track). -/
def TRACK_OFFSETS : List Nat :=
  [0x00000, 0x01500, 0x02A00, 0x03F00, 0x05400, 0x06900, 0x07E00, 0x09300, 0x0A800, 0x0BD00,
   0x0D200, 0x0E700, 0x0FC00, 0x11100, 0x12600, 0x13B00, 0x15000, 0x16500, 0x17800, 0x18B00,
   0x19E00, 0x1B100, 0x1C400, 0x1D700, 0x1EA00, 0x1FC00, 0x20E00, 0x22000, 0x23200, 0x24400,
   0x25600, 0x26700, 0x27800, 0x28900, 0x29A00, 0x2AB00, 0x2BC00, 0x2CD00, 0x2DE00, 0x2EF00]

/-- The expression `SECTORS_PER_TRACK[track - 1]` that the C++ indexes with a 1-based track. -/
def sptrack (track : Nat) : Nat := SECTORS_PER_TRACK.getD (track - 1) 0

/-- State of one `d64` engine instance: the disk type, the image buffer
(viewed sector-by-sector: 256 bytes per (track, sector) coordinate), and the
in-memory per-track cursor array `lastSectorUsed`. -/
structure D64 where
  disktype : diskType
  sectors : Nat × Nat → List Nat
  lastSectorUsed : List Nat

/-- The member `TRACKS`, set from the disk type by `init_disk`. -/
def TRACKS (d : D64) : Nat :=
  match d.disktype with
  | diskType.thirty_five_track => TRACKS_35
  | diskType.forty_track => TRACKS_40

/-- Validity check `d64::isValidTrackSector` (the `sector >= 0` conjunct of the
C++ is vacuous for `Nat` coordinates). -/
def isValidTrackSector (d : D64) (track sector : Nat) : Bool :=
  decide (1 ≤ track) && decide (track ≤ TRACKS d) && decide (sector < sptrack track)

/-- Offset computation `d64::calcOffset` (used by the load/validate path where
the flat buffer index matters). -/
def calcOffset (track sector : Nat) : Nat :=
  TRACK_OFFSETS.getD (track - 1) 0 + sector * SECTOR_SIZE

/-- Reading byte `i` of sector (t, s) of the buffer. -/
def getByte (d : D64) (t s i : Nat) : Nat := (d.sectors (t, s)).getD i 0

/-- Replacing the whole 256-byte content of sector (t, s). -/
def setSectorRaw (d : D64) (t s : Nat) (l : List Nat) : D64 :=
  { d with sectors := fun p => if p = (t, s) then l else d.sectors p }

/-- Writing byte `i` of sector (t, s); the store truncates to a `uint8_t`. -/
def setByte (d : D64) (t s i v : Nat) : D64 :=
  setSectorRaw d t s ((d.sectors (t, s)).set i (v % 256))

/-- Contiguous byte run `vs` written into list `l` at position `i`, the effect
of the `std::copy_n` / `std::fill_n` runs of the source on the packed overlay
structures; each stored byte truncates to a `uint8_t`.  A run that would
extend past the end of the list is cut at the end (the cross-sector overflow
of a packed overlay is modelled separately where the source can produce it,
see `writeEntryRaw`). -/
def spliceBytes (l : List Nat) (i : Nat) (vs : List Nat) : List Nat :=
  if l.length ≤ i then l
  else l.take i ++ (vs.take (l.length - i)).map (· % 256) ++ l.drop (i + vs.length)

/-- Writing a run of bytes starting at offset `i` of sector (t, s). -/
def setBytes (d : D64) (t s i : Nat) (vs : List Nat) : D64 :=
  setSectorRaw d t s (spliceBytes (d.sectors (t, s)) i vs)

/-- Byte offset, inside the BAM sector (18,0), of the 4-byte `BAM_TRACK_ENTRY`
for 0-based track index `t0`: `bam_track` starts at offset 4 and
`bam_extra` (DolphinDOS tracks 36-40) at offset 0xAC, as in `d64::bamtrack`
and `initBAMPtr`. -/
def bamOffset (t0 : Nat) : Nat :=
  if t0 < TRACKS_35 then 4 + 4 * t0 else 0xAC + 4 * (t0 - TRACKS_35)

/-- The `free` byte of the BAM entry of 0-based track `t0`. -/
def bamFree (d : D64) (t0 : Nat) : Nat := getByte d DIRECTORY_TRACK BAM_SECTOR (bamOffset t0)

/-- Store of the `free` byte of the BAM entry of 0-based track `t0`. -/
def bamSetFree (d : D64) (t0 v : Nat) : D64 :=
  setByte d DIRECTORY_TRACK BAM_SECTOR (bamOffset t0) v

/-- Bitmap byte `b` (0, 1 or 2) of the BAM entry of 0-based track `t0`. -/
def bamBitByte (d : D64) (t0 b : Nat) : Nat :=
  getByte d DIRECTORY_TRACK BAM_SECTOR (bamOffset t0 + 1 + b)

/-- Test `BAM_TRACK_ENTRY::test`: bit `sector % 8` of bitmap byte `sector / 8`;
true means the sector is free. -/
def bamTest (d : D64) (t0 s : Nat) : Bool :=
  Nat.testBit (bamBitByte d t0 (s / 8)) (s % 8)

/-- Mark free, `BAM_TRACK_ENTRY::set`: set bit `s % 8` of bitmap byte `s / 8`. -/
def bamSet (d : D64) (t0 s : Nat) : D64 :=
  setByte d DIRECTORY_TRACK BAM_SECTOR (bamOffset t0 + 1 + s / 8)
    (bamBitByte d t0 (s / 8) ||| (1 <<< (s % 8)))

/-- Mark used, `BAM_TRACK_ENTRY::reset`: clear bit `s % 8` of bitmap byte `s / 8`
(`255 - (1 <<< k)` is the 8-bit complement of the mask, as the `std::bitset<8>`
of the source computes it). -/
def bamReset (d : D64) (t0 s : Nat) : D64 :=
  setByte d DIRECTORY_TRACK BAM_SECTOR (bamOffset t0 + 1 + s / 8)
    (bamBitByte d t0 (s / 8) &&& (255 - (1 <<< (s % 8))))

/-- Outcome of an operation that can throw a C++ exception.  A thrown exception
is modelled by `threw`; the state at the throw point is returned alongside. -/
inductive FRes (α : Type) where
  | threw (msg : String)
  | ok (a : α)
deriving DecidableEq, Repr

instance : Monad FRes where
  pure := FRes.ok
  bind x f := match x with | .threw m => .threw m | .ok a => f a

/-- Allocation `d64::allocateSector`: invalid coordinates throw; an
already-allocated sector returns false; otherwise the bit is cleared and the
track's free count decremented (a `uint8_t` decrement, hence the `+ 255`
before the modulo applied by the store). -/
def allocateSector (d : D64) (track sector : Nat) : FRes Bool × D64 :=
  if ¬ isValidTrackSector d track sector then (.threw "Invalid Tack and Sector", d)
  else if ¬ bamTest d (track - 1) sector then (.ok false, d)
  else
    let d1 := bamReset d (track - 1) sector
    let d2 := bamSetFree d1 (track - 1) (bamFree d1 (track - 1) + 255)
    (.ok true, d2)

/-- Release `d64::freeSector`: invalid coordinates throw; freeing (18,1) or
(18,0) is refused (warning only); freeing an already-free sector returns
false; otherwise the bit is set and the free count incremented. -/
def freeSector (d : D64) (track sector : Nat) : FRes Bool × D64 :=
  if ¬ isValidTrackSector d track sector then (.threw "Invalid Tack and Sector", d)
  else if track = DIRECTORY_TRACK ∧ sector = DIRECTORY_SECTOR then (.ok false, d)
  else if track = DIRECTORY_TRACK ∧ sector = BAM_SECTOR then (.ok false, d)
  else if bamTest d (track - 1) sector then (.ok false, d)
  else
    let d1 := bamSet d (track - 1) sector
    let d2 := bamSetFree d1 (track - 1) (bamFree d1 (track - 1) + 1)
    (.ok true, d2)

/-- Search `d64::findAndAllocateFreeOnTrack`: skip the track when its free
count is below 1, otherwise scan forward with wraparound from
`(lastSectorUsed[track-1] + INTERLEAVE) % n`, allocate the first free sector
found and record it in `lastSectorUsed`. -/
def findAndAllocateFreeOnTrack (d : D64) (track : Nat) : FRes (Option Nat) × D64 :=
  if ¬ (decide (1 ≤ track) && decide (track ≤ TRACKS d)) then (.threw "Invalid Tack", d)
  else if bamFree d (track - 1) < 1 then (.ok none, d)
  else
    let n := sptrack track
    let start := (d.lastSectorUsed.getD (track - 1) 0 + INTERLEAVE) % n
    match (List.range n).find? (fun i => bamTest d (track - 1) ((start + i) % n)) with
    | none => (.ok none, d)
    | some i =>
      let s := (start + i) % n
      let d1 := (allocateSector d track s).2
      let d2 := { d1 with lastSectorUsed := d1.lastSectorUsed.set (track - 1) s }
      (.ok (some s), d2)

/-- Constant array `TRACK_40_SEARCH_ORDER` of `d64::findAndAllocateFreeSector`. -/
def TRACK_40_SEARCH_ORDER : List Nat :=
  [18, 17, 19, 16, 20, 15, 21, 14, 22, 13, 23, 12, 24, 11, 25, 10, 26, 9,
   27, 8, 28, 7, 29, 6, 30, 5, 31, 4, 32, 3, 33, 2, 34, 1, 35, 36, 37, 38, 39, 40]

/-- The loop body of `d64::findAndAllocateFreeSector` over the remaining search
order: entries above 35 are skipped on a 35-track image. -/
def faLoop (d : D64) (order : List Nat) : FRes (Option (Nat × Nat)) × D64 :=
  match order with
  | [] => (.ok none, d)
  | t :: rest =>
    if d.disktype = diskType.thirty_five_track ∧ t > TRACKS_35 then faLoop d rest
    else
      match findAndAllocateFreeOnTrack d t with
      | (.threw m, d1) => (.threw m, d1)
      | (.ok none, d1) => faLoop d1 rest
      | (.ok (some s), d1) => (.ok (some (t, s)), d1)

/-- Allocator `d64::findAndAllocateFreeSector`. -/
def findAndAllocateFreeSector (d : D64) : FRes (Option (Nat × Nat)) × D64 :=
  faLoop d TRACK_40_SEARCH_ORDER

/-- Count `d64::getFreeSectorCount`: sum of the per-track free bytes over all
tracks except the directory track 18. -/
def getFreeSectorCount (d : D64) : Nat :=
  (List.range (TRACKS d)).foldl
    (fun acc t0 => if t0 + 1 = DIRECTORY_TRACK then acc else acc + bamFree d t0) 0

/-- A name padded (or truncated) to `sz` bytes with the 0xA0 pad, the common
fill-after-copy pattern of `initializeBAMFields`, `rename_disk`,
`createDirectoryEntry` and `renameFile`. -/
def padName (name : List Nat) (sz : Nat) : List Nat :=
  name.take sz ++ List.replicate (sz - (name.take sz).length) A0_VALUE

/-- Header initialisation `d64::initializeBAMFields`: directory start (18,1),
DOS version 'A', the 0xA0-padded disk name at offset 0x90, the fixed 0xA0 and
"2A" bytes, and zeroed reserved areas (`unused3` at 0xA7, `unused4` at 0xAC). -/
def initializeBAMFields (d : D64) (name : List Nat) : D64 :=
  let d := setBytes d DIRECTORY_TRACK BAM_SECTOR 0 [DIRECTORY_TRACK, DIRECTORY_SECTOR, DOS_VERSION, 0]
  let d := setBytes d DIRECTORY_TRACK BAM_SECTOR 0x90 (padName name DISK_NAME_SZ)
  let d := setBytes d DIRECTORY_TRACK BAM_SECTOR 0xA0 [A0_VALUE, A0_VALUE, A0_VALUE, A0_VALUE, A0_VALUE]
  let d := setBytes d DIRECTORY_TRACK BAM_SECTOR 0xA5 [DOS_TYPE, DOS_VERSION]
  let d := setBytes d DIRECTORY_TRACK BAM_SECTOR 0xA7 (List.replicate 5 0)
  let d := setBytes d DIRECTORY_TRACK BAM_SECTOR 0xAC (List.replicate 84 0)
  d

/-- Accumulated bitmap value of the mark-all-free loop of `d64::initBAM`: the
loop clears the three bitmap bytes (`bam->clear()`) and then sets bit `b` for
every `b < n` (`bam->set(b)`), with no interleaved reads, so its net effect on
the 24-bit little-endian bitmap is this fold. -/
def trackBits (n : Nat) : Nat :=
  (List.range n).foldl (fun acc b => acc ||| (1 <<< b)) 0

/-- One iteration of the mark-all-free loop of `d64::initBAM`: set the track's
free count to its sector count and store the all-valid-sectors-free bitmap
(`trackBits`, split into its three little-endian bytes). -/
def initBAMtrack (d : D64) (t0 : Nat) : D64 :=
  let n := sptrack (t0 + 1)
  let d := bamSetFree d t0 n
  setBytes d DIRECTORY_TRACK BAM_SECTOR (bamOffset t0 + 1)
    [trackBits n % 256, trackBits n / 256 % 256, trackBits n / 65536 % 256]

/-- Setup `d64::initBAM`: initialise the header fields, mark every sector of
every track free, zero the first directory sector and give it the terminal
link (0, 0xFF), then allocate (18,0) and (18,1). -/
def initBAM (d : D64) (name : List Nat) : D64 :=
  let d := initializeBAMFields d name
  let d := (List.range (TRACKS d)).foldl initBAMtrack d
  let d := setSectorRaw d DIRECTORY_TRACK DIRECTORY_SECTOR (List.replicate SECTOR_SIZE 0)
  let d := setByte d DIRECTORY_TRACK DIRECTORY_SECTOR 1 0xFF
  let d := (allocateSector d DIRECTORY_TRACK BAM_SECTOR).2
  (allocateSector d DIRECTORY_TRACK DIRECTORY_SECTOR).2

/-- Formatting `d64::formatDisk`: fill the whole buffer with 0x01 and
initialise the BAM (the cursor array is left as it is). -/
def formatDisk (d : D64) (name : List Nat) : D64 :=
  initBAM { d with sectors := fun _ => List.replicate SECTOR_SIZE 1 } name

/-- The byte string "NEW DISK", the default disk name. -/
def NEW_DISK : List Nat := [78, 69, 87, 32, 68, 73, 83, 75]

/-- Construction `d64::init_disk`: a buffer of the right size filled 0x01, the
cursor array filled with 1, then `formatDisk "NEW DISK"`. -/
def init_disk (dt : diskType) : D64 :=
  formatDisk
    { disktype := dt, sectors := fun _ => List.replicate SECTOR_SIZE 1,
      lastSectorUsed := List.replicate TRACKS_40 1 }
    NEW_DISK

/-- A freshly constructed 35-track engine (`d64::d64()`). -/
def fresh35 : D64 := init_disk diskType.thirty_five_track

/-- A freshly constructed 40-track engine. -/
def fresh40 : D64 := init_disk diskType.forty_track

/-- The four BAM bytes of a track on which all `n` sectors are free: the free
count followed by the three bitmap bytes with the low `n` bits set.  Used only
to state the explicit characterisation of a freshly formatted disk. -/
def bamEntryBytes (n : Nat) : List Nat :=
  [n, 2 ^ min n 8 - 1, 2 ^ min (n - 8) 8 - 1, 2 ^ min (n - 16) 8 - 1]

/-- Explicit content of the BAM sector (18,0) of a freshly formatted disk:
header (18,1,'A',0), the 35 track entries (track 18 with sectors 0 and 1
allocated), the padded name "NEW DISK", the 0xA0 and "2A" bytes, and either
zeros or the five DolphinDOS entries in the tail. -/
def freshBamSector (forty : Bool) : List Nat :=
  [18, 1, 65, 0]
  ++ (List.range TRACKS_35).bind
       (fun t0 => if t0 = 17 then [17, 252, 255, 7] else bamEntryBytes (sptrack (t0 + 1)))
  ++ NEW_DISK ++ List.replicate 13 A0_VALUE ++ [50, 65] ++ List.replicate 5 0
  ++ (if forty then (List.range 5).bind (fun _ => bamEntryBytes 17) ++ List.replicate 64 0
      else List.replicate 84 0)

/-- Explicit content of sector (18,1) of a freshly formatted disk: zeroed, with
the terminal directory link (0, 0xFF). -/
def freshDirSector : List Nat := 0 :: 255 :: List.replicate 254 0

/-- Explicit form of a freshly formatted disk, proved equal to `init_disk`
below; it exists so that concrete runs evaluate quickly. -/
def freshE (dt : diskType) : D64 :=
  { disktype := dt,
    sectors := fun p =>
      if p = (DIRECTORY_TRACK, BAM_SECTOR) then
        freshBamSector (decide (dt = diskType.forty_track))
      else if p = (DIRECTORY_TRACK, DIRECTORY_SECTOR) then freshDirSector
      else List.replicate SECTOR_SIZE 1,
    lastSectorUsed := List.replicate TRACKS_40 1 }

/-- Write of `d64::writeDataToSector`: the data region (bytes 2..255) receives
`min 254 |rest|` payload bytes followed by a zero fill, and when this exhausts
the payload the link header is set to `(0, len + 1)` (the loop had already
stored that same value).  `rest` is the not-yet-written payload suffix, the
C++ `fileData` from `offset` on, with `bytesLeft = |rest|`; the guard throws of
the source cannot fire on this call shape and carry no state change. -/
def writeDataToSector (d : D64) (t s : Nat) (rest : List Nat) : D64 :=
  let len := min 254 rest.length
  let d1 := setBytes d t s 2 (rest.take 254 ++ List.replicate (254 - len) 0)
  if rest.length ≤ 254 then setBytes d1 t s 0 [0, len + 1] else d1

/-- Loop of `d64::writeFileDataToSectors`: while payload remains, allocate the
next sector when more than 254 bytes are left (else mark the terminal link),
store the link header of the current sector, write its data, and continue on
the freshly allocated sector.  The accumulator collects the visited
(track, sector) pairs in reverse.  Each iteration consumes at least 254
payload bytes, so the C++ loop runs at most `|fileData|` times; the `fuel`
parameter (passed as `|fileData|` by the entry point, which therefore never
exhausts it) makes the recursion structural. -/
def writeChainLoop (fuel : Nat) (d : D64) (track sector : Nat) (rest : List Nat)
    (acc : List (Nat × Nat)) : FRes (List (Nat × Nat)) × D64 :=
  match fuel with
  | 0 => if rest.length = 0 then (.ok acc.reverse, d) else (.threw "fuel", d)
  | fuel + 1 =>
    if rest.length = 0 then (.ok acc.reverse, d)
    else
      if 254 < rest.length then
        match findAndAllocateFreeSector d with
        | (.threw m, d1) => (.threw m, d1)
        | (.ok none, d1) => (.threw "Disk full. Unable to add file data", d1)
        | (.ok (some (nt, ns)), d1) =>
          let d2 := setBytes d1 track sector 0 [nt, ns]
          let d3 := writeDataToSector d2 track sector rest
          writeChainLoop fuel d3 nt ns (rest.drop 254) ((track, sector) :: acc)
      else
        let d2 := setBytes d track sector 0 [0, rest.length + 1]
        let d3 := writeDataToSector d2 track sector rest
        (.ok (((track, sector) :: acc).reverse), d3)

/-- Entry point `d64::writeFileDataToSectors` (the first sector was already
allocated by the caller). -/
def writeFileDataToSectors (d : D64) (t s : Nat) (fileData : List Nat) :
    FRes (List (Nat × Nat)) × D64 :=
  writeChainLoop fileData.length d t s fileData []

/-- Read loop of `d64::readFile`: follow the sector chain until the next-track
byte is 0, emitting all 254 data bytes of a non-terminal sector and
`next_sector - 1` bytes of the terminal one (note the C++ subtraction is on
`int`; a corrupt terminal byte 0 would make it read -1 bytes, undefined there
and 0 here).  `getSectorPtr` throws on invalid coordinates; the loop itself
can diverge on a cyclic chain, hence the fuel. -/
def readChain (d : D64) (track sector fuel : Nat) (acc : List Nat) : FRes (List Nat) :=
  match fuel with
  | 0 => .threw "fuel"
  | fuel + 1 =>
    if track = 0 then .ok acc
    else if ¬ isValidTrackSector d track sector then .threw "Invalid Track and Sector"
    else
      let nt := getByte d track sector 0
      let ns := getByte d track sector 1
      let bytes := if nt ≠ 0 then 254 else ns - 1
      readChain d nt ns fuel (acc ++ ((d.sectors (track, sector)).drop 2).take bytes)

/-- Byte offset of directory slot `j` inside a directory sector: the packed
`Directory_Sector` is a 2-byte link followed by 8 entries of 32 bytes. -/
def entryOff (j : Nat) : Nat := 2 + 32 * j

/-- The `file_type` byte of slot `j` of directory sector (t, s). -/
def entryTypeByte (d : D64) (t s j : Nat) : Nat := getByte d t s (entryOff j)

/-- Bit 7 of the file-type byte: the closed/in-use flag. -/
def entryClosed (d : D64) (t s j : Nat) : Bool := Nat.testBit (entryTypeByte d t s j) 7

/-- Low nibble of the file-type byte: the type code (4 = REL). -/
def entryTypeCode (d : D64) (t s j : Nat) : Nat := entryTypeByte d t s j % 16

/-- The `start` track/sector field of slot `j` (bytes 1-2 of the entry). -/
def entryStart (d : D64) (t s j : Nat) : Nat × Nat :=
  (getByte d t s (entryOff j + 1), getByte d t s (entryOff j + 2))

/-- The 16 name bytes of slot `j` (bytes 3-18 of the entry). -/
def entryNameBytes (d : D64) (t s j : Nat) : List Nat :=
  ((d.sectors (t, s)).drop (entryOff j + 3)).take FILE_NAME_SZ

/-- The `side` track/sector field of slot `j` (bytes 19-20, REL only). -/
def entrySide (d : D64) (t s j : Nat) : Nat × Nat :=
  (getByte d t s (entryOff j + 19), getByte d t s (entryOff j + 20))

/-- The raw 32 bytes of slot `j`, the value a `Directory_Entry` copy reads. -/
def entryBytes (d : D64) (t s j : Nat) : List Nat :=
  ((d.sectors (t, s)).drop (entryOff j)).take 32

/-- Physically following sector in the flat buffer: `calcOffset (t, s) + 256`
is `(t, s+1)`, or sector 0 of the next track past the last sector (the
`TRACK_OFFSETS` table is the prefix sum of the sector counts). -/
def succTS (t s : Nat) : Nat × Nat :=
  if s + 1 < sptrack t then (t, s + 1) else (t + 1, 0)

/-- Whole-entry write (a 32-byte `Directory_Entry` assignment or `memset`).
The packed `Directory_Sector` overlay is 258 bytes long, so the two `padd`
bytes of slot 7 land on the first two bytes of the physically following
sector; slot 7 of the very last sector of the disk would write past the
buffer (undefined in C++), modelled as a write to the nonexistent next track. -/
def writeEntryRaw (d : D64) (t s j : Nat) (e : List Nat) : D64 :=
  if j = 7 then
    let d1 := setBytes d t s (entryOff 7) (e.take 30)
    let nx := succTS t s
    setBytes d1 nx.1 nx.2 0 (e.drop 30)
  else setBytes d t s (entryOff j) e

/-- Name comparison of `d64::findFile`: the stored 16-byte name is cut at the
first 0xA0 byte. -/
def findFileName (l : List Nat) : List Nat := l.takeWhile (fun c => decide (c ≠ A0_VALUE))

/-- Trailing-pad trim `d64::Trim`: the trailing run of 0xA0 bytes is removed. -/
def Trim (l : List Nat) : List Nat :=
  (l.reverse.dropWhile (fun c => decide (c = A0_VALUE))).reverse

/-- Walk of `d64::findFile`: scan each directory sector's slots for a closed
entry whose cut name equals the query; all exceptions (including the invalid
coordinates of a corrupt link) are caught and give "not found".  The fuel
bounds the walk: the C++ loop never exits a cyclic chain. -/
def findFileLoop (d : D64) (t s : Nat) (filename : List Nat) (fuel : Nat) :
    FRes (Option (Nat × Nat × Nat)) :=
  match fuel with
  | 0 => .threw "fuel"
  | fuel + 1 =>
    if t = 0 then .ok none
    else if ¬ isValidTrackSector d t s then .ok none
    else
      match (List.range FILES_PER_SECTOR).find? (fun j =>
          entryClosed d t s j && decide (findFileName (entryNameBytes d t s j) = filename)) with
      | some j => .ok (some (t, s, j))
      | none => findFileLoop d (getByte d t s 0) (getByte d t s 1) filename fuel

/-- Lookup `d64::findFile` from the directory head (18,1). -/
def findFile (d : D64) (filename : List Nat) (fuel : Nat) : FRes (Option (Nat × Nat × Nat)) :=
  findFileLoop d DIRECTORY_TRACK DIRECTORY_SECTOR filename fuel

/-- Read `d64::readFile`: resolve the entry (a missing file throws), then
follow its chain from the entry's start field. -/
def readFile (d : D64) (filename : List Nat) (dirFuel chainFuel : Nat) : FRes (List Nat) :=
  match findFile d filename dirFuel with
  | .threw m => .threw m
  | .ok none => .threw "File not found"
  | .ok (some (t, s, j)) =>
    readChain d (entryStart d t s j).1 (entryStart d t s j).2 chainFuel []

/-- Walk of `d64::findEmptyDirectorySlot` with `allocateNewDirectorySector`
inlined: return the first slot whose closed bit is clear; on a terminal or
out-of-range link, allocate a fresh sector, link it from the current sector,
zero it and mark it terminal (0, 0xFF), then continue into it.  Note the
source accepts a link whose sector equals the track's sector count (its guard
uses `>`), and then throws on the next iteration. -/
def findEmptyDirectorySlot (d : D64) (t s fuel : Nat) :
    FRes (Option (Nat × Nat × Nat)) × D64 :=
  match fuel with
  | 0 => (.threw "fuel", d)
  | fuel + 1 =>
    if t = 0 then (.ok none, d)
    else if ¬ isValidTrackSector d t s then (.threw "Invalid Track and Sector", d)
    else
      match (List.range FILES_PER_SECTOR).find? (fun j => ¬ entryClosed d t s j) with
      | some j => (.ok (some (t, s, j)), d)
      | none =>
        let nt := getByte d t s 0
        let ns := getByte d t s 1
        if nt = 0 ∨ nt > TRACKS d ∨ ns > sptrack nt then
          match findAndAllocateFreeSector d with
          | (.threw m, d1) => (.threw m, d1)
          | (.ok none, d1) => (.threw "Disk full. Unable to find directory slot", d1)
          | (.ok (some (nt2, ns2)), d1) =>
            let d2 := setBytes d1 t s 0 [nt2, ns2]
            let d3 := setSectorRaw d2 nt2 ns2 (List.replicate SECTOR_SIZE 0)
            let d4 := setBytes d3 nt2 ns2 0 [0, 0xFF]
            findEmptyDirectorySlot d4 nt2 ns2 fuel
        else findEmptyDirectorySlot d nt ns fuel

/-- Byte offset of group-table entry `i` of a side sector (field
`side_sectors`, bytes 4-15). -/
def ssTableOff (i : Nat) : Nat := 4 + 2 * i

/-- Byte offset of chain entry `i` of a side sector (field `chain`, bytes
16-255).  For `i = 6` the `ssTableOff` of the packed layout coincides with
`ssChainOff 0`: a seventh group-table store overlaps the first chain entry. -/
def ssChainOff (i : Nat) : Nat := 16 + 2 * i

/-- Allocation `d64::allocateSideSector`: find-and-allocate a sector and zero
all 256 bytes of it. -/
def allocateSideSector (d : D64) : FRes (Option (Nat × Nat)) × D64 :=
  match findAndAllocateFreeSector d with
  | (.threw m, d1) => (.threw m, d1)
  | (.ok none, d1) => (.ok none, d1)
  | (.ok (some (t, s)), d1) =>
    (.ok (some (t, s)), setSectorRaw d1 t s (List.replicate SECTOR_SIZE 0))

/-- Failure modes of `d64::createSideSectors`: a failed allocation makes it
return `nullopt` (`diskFull`), and the guard on the maximum group size throws
(`relTooLarge`). -/
inductive CSSErr where
  | diskFull
  | relTooLarge
deriving DecidableEq, Repr

/-- Loop state of `d64::createSideSectors`: the disk, the current and first
side sectors, the `sideSectorList` vector (of sector coordinates), and the
`block`, `sideCount` and `chainCount` counters. -/
structure CSS where
  d : D64
  cur : Nat × Nat
  first : Nat × Nat
  list : List (Nat × Nat)
  block : Nat
  sideCount : Nat
  chainCount : Nat

/-- One iteration of the `createSideSectors` loop over the data sectors.  With
room in the current side sector, append the chain entry and bump the terminal
link byte.  Otherwise: the guard compares `sideSectorList.size()` (the vector
is never grown after the first push, so the guard compares 1) against 6, a new
side sector is allocated, recorded in the first sector's group table at index
`sideCount` (for `sideCount = 6` that store lands on the first sector's
chain entry 0, see `ssTableOff`), linked from `sideSectorList.back()` (the
first sector), and initialised. -/
def cssStep (record_size : Nat) (st : CSS) (ts : Nat × Nat) : Except (CSSErr × D64) CSS :=
  if st.chainCount < SIDE_SECTOR_CHAIN_SZ then
    let d1 := setBytes st.d st.cur.1 st.cur.2 (ssChainOff st.chainCount) [ts.1, ts.2]
    let d2 := setByte d1 st.cur.1 st.cur.2 1 (getByte d1 st.cur.1 st.cur.2 1 + 2)
    .ok { st with d := d2, chainCount := st.chainCount + 1 }
  else if st.list.length ≥ SIDE_SECTOR_ENTRY_SIZE then
    .error (.relTooLarge, st.d)
  else
    match allocateSideSector st.d with
    | (.threw _, d1) => .error (.diskFull, d1)
    | (.ok none, d1) => .error (.diskFull, d1)
    | (.ok (some (t, s)), d1) =>
      let d2 := setBytes d1 st.first.1 st.first.2 (ssTableOff st.sideCount) [t, s]
      let back := st.list.getLastD (0, 0)
      let d3 := setBytes d2 back.1 back.2 0 [t, s]
      let d4 := setByte d3 t s 2 st.block
      let d5 := setByte d4 t s 3 record_size
      let d6 := setBytes d5 t s (ssChainOff 0) [ts.1, ts.2]
      let d7 := setBytes d6 t s 0 [0, 16 + 2]
      .ok { d := d7, cur := (t, s), first := st.first, list := st.list,
            block := st.block + 1, sideCount := st.sideCount + 1, chainCount := 1 }

/-- Final copy loop of `createSideSectors`: the first sector's group table
(2 * sideCount bytes) is copied into every member of `sideSectorList`. -/
def cssFinish (st : CSS) : D64 :=
  let table := ((st.d.sectors st.first).drop 4).take (2 * st.sideCount)
  st.list.foldl (fun d m => setBytes d m.1 m.2 4 table) st.d

/-- Builder `d64::createSideSectors`: allocate side sector 0, record the record
size, the provisional terminal link (0, 16), block number 0 and its own
address in the group table, then walk the data sectors with `cssStep` and
finish with the group-table copy.  Returns the `sideSectorList` (which never
receives the later side sectors, see `cssStep`) and the final state. -/
def createSideSectors (d : D64) (allocatedSectors : List (Nat × Nat)) (record_size : Nat) :
    Except (CSSErr × D64) (List (Nat × Nat) × D64) :=
  match allocateSideSector d with
  | (.threw _, d1) => .error (.diskFull, d1)
  | (.ok none, d1) => .error (.diskFull, d1)
  | (.ok (some (t, s)), d1) =>
    let d2 := setByte d1 t s 3 record_size
    let d3 := setBytes d2 t s 0 [0, 16]
    let d4 := setByte d3 t s 2 0
    let d5 := setBytes d4 t s (ssTableOff 0) [t, s]
    let st0 : CSS :=
      { d := d5, cur := (t, s), first := (t, s), list := [(t, s)],
        block := 1, sideCount := 1, chainCount := 0 }
    match allocatedSectors.foldlM (cssStep record_size) st0 with
    | .error e => .error e
    | .ok st => .ok (st.list, cssFinish st)

/-- Entry population `d64::createDirectoryEntry`: find (or create) an empty
slot, store the type byte, start and padded name; for a REL type build the
side sectors, store the record length and the first side sector's address
(read back from its own group table); finally store the replace link (a copy
of the stored start) and the allocated-sector count, little-endian. -/
def createDirectoryEntry (d : D64) (filename : List Nat) (typeByte : Nat)
    (start : Nat × Nat) (allocatedSectors : List (Nat × Nat)) (record_size : Nat)
    (fuel : Nat) : FRes Bool × D64 :=
  match findEmptyDirectorySlot d DIRECTORY_TRACK DIRECTORY_SECTOR fuel with
  | (.threw m, d1) => (.threw m, d1)
  | (.ok none, d1) => (.ok false, d1)
  | (.ok (some (t, s, j)), d1) =>
    let d2 := setByte d1 t s (entryOff j) typeByte
    let d3 := setBytes d2 t s (entryOff j + 1) [start.1, start.2]
    let d4 := setBytes d3 t s (entryOff j + 3) (padName filename FILE_NAME_SZ)
    match (if typeByte % 16 = 4 then createSideSectors d4 allocatedSectors record_size
           else .ok ([], d4)) with
    | .error (.relTooLarge, d5) =>
      (.threw "Exceeded maximum number of side sectors (6)", d5)
    | .error (.diskFull, d5) => (.threw "Error: Unable to create side sector list", d5)
    | .ok (ssl, d5) =>
      let d6 :=
        if typeByte % 16 = 4 then
          let d6a := setByte d5 t s (entryOff j + 21) record_size
          let fst := ssl.headD (0, 0)
          setBytes d6a t s (entryOff j + 19)
            [getByte d6a fst.1 fst.2 (ssTableOff 0), getByte d6a fst.1 fst.2 (ssTableOff 0 + 1)]
        else
          let d6a := setByte d5 t s (entryOff j + 21) 0
          setBytes d6a t s (entryOff j + 19) [0, 0]
      let d7 := setBytes d6 t s (entryOff j + 26)
        [getByte d6 t s (entryOff j + 1), getByte d6 t s (entryOff j + 2)]
      let d8 := setBytes d7 t s (entryOff j + 28)
        [allocatedSectors.length % 256, allocatedSectors.length / 256 % 256]
      (.ok true, d8)

/-- Add `d64::addFile`: reject an empty name or payload (throws), allocate the
first sector (`findAndAllocateFirstSector` throws when the disk is full),
stream the payload, then create the directory entry. -/
def addFile (d : D64) (filename : List Nat) (typeByte : Nat) (fileData : List Nat)
    (recordSize : Nat) (dirFuel : Nat) : FRes Bool × D64 :=
  if filename.isEmpty || fileData.isEmpty then
    (.threw "Error: Filename or file data cannot be empty", d)
  else
    match findAndAllocateFreeSector d with
    | (.threw m, d1) => (.threw m, d1)
    | (.ok none, d1) => (.threw "Disk full. Unable to find free sector", d1)
    | (.ok (some (t0, s0)), d1) =>
      match writeFileDataToSectors d1 t0 s0 fileData with
      | (.threw m, d2) => (.threw m, d2)
      | (.ok ss, d2) =>
        createDirectoryEntry d2 filename typeByte (t0, s0) ss recordSize dirFuel

/-- Chain-freeing loop of `d64::removeFile`: read the link of the current
sector (`getTrackSectorPtr` throws on invalid coordinates, caught by the
caller), free the sector (result ignored; (18,0) and (18,1) are refused by
`freeSector`), and follow the link. -/
def removeChainLoop (d : D64) (t s fuel : Nat) : FRes Unit × D64 :=
  match fuel with
  | 0 => (.threw "fuel", d)
  | fuel + 1 =>
    if t = 0 then (.ok (), d)
    else if ¬ isValidTrackSector d t s then (.threw "Invalid Track and Sector", d)
    else
      let nt := getByte d t s 0
      let ns := getByte d t s 1
      let d1 := (freeSector d t s).2
      removeChainLoop d1 nt ns fuel

/-- Removal `d64::removeFile`: resolve the entry (not found throws, caught:
false), free the chain (a mid-walk exception is caught: false, with the
sectors already freed left freed), then zero the 32-byte slot (`memset` over
`sizeof(Directory_Entry)`, with the slot-7 spill of `writeEntryRaw`). -/
def removeFile (d : D64) (filename : List Nat) (dirFuel chainFuel : Nat) :
    FRes Bool × D64 :=
  match findFile d filename dirFuel with
  | .threw m => (.threw m, d)
  | .ok none => (.ok false, d)
  | .ok (some (t, s, j)) =>
    match removeChainLoop d (entryStart d t s j).1 (entryStart d t s j).2 chainFuel with
    | (.threw "fuel", d1) => (.threw "fuel", d1)
    | (.threw _, d1) => (.ok false, d1)
    | (.ok _, d1) => (.ok true, writeEntryRaw d1 t s j (List.replicate 32 0))

/-- Rename `d64::renameFile`: resolve the entry (not found throws, uncaught)
and overwrite the 16-byte name field, 0xA0-padded. -/
def renameFile (d : D64) (oldfilename newfilename : List Nat) (dirFuel : Nat) :
    FRes Bool × D64 :=
  match findFile d oldfilename dirFuel with
  | .threw m => (.threw m, d)
  | .ok none => (.threw "File not found", d)
  | .ok (some (t, s, j)) =>
    (.ok true, setBytes d t s (entryOff j + 3) (padName newfilename FILE_NAME_SZ))

/-- Lock toggle `d64::lockfile`: set or clear bit 6 of the file-type byte. -/
def lockfile (d : D64) (filename : List Nat) (lock : Bool) (dirFuel : Nat) :
    FRes Bool × D64 :=
  match findFile d filename dirFuel with
  | .threw m => (.threw m, d)
  | .ok none => (.threw "File not found", d)
  | .ok (some (t, s, j)) =>
    let b := entryTypeByte d t s j
    let b1 := if lock then (b &&& (255 - 64)) ||| 64 else b &&& (255 - 64)
    (.ok true, setByte d t s (entryOff j) b1)

/-- Disk rename `d64::rename_disk`: overwrite the 16-byte disk-name field of
the BAM sector (offset 0x90), 0xA0-padded. -/
def rename_disk (d : D64) (name : List Nat) : Bool × D64 :=
  (true, setBytes d DIRECTORY_TRACK BAM_SECTOR 0x90 (padName name DISK_NAME_SZ))

/-- Name accessor `d64::diskname`: the disk-name bytes up to the first 0xA0. -/
def diskname (d : D64) : List Nat :=
  findFileName (((d.sectors (DIRECTORY_TRACK, BAM_SECTOR)).drop 0x90).take DISK_NAME_SZ)

/-- Walk of `d64::directory`: collect the raw 32-byte images of all closed
entries in traversal order (`getDirectory_SectorPtr` throws on a corrupt
link; the walk does not terminate on a cyclic chain, hence the fuel). -/
def directoryLoop (d : D64) (t s fuel : Nat) (acc : List (List Nat)) :
    FRes (List (List Nat)) :=
  match fuel with
  | 0 => .threw "fuel"
  | fuel + 1 =>
    if t = 0 then .ok acc
    else if ¬ isValidTrackSector d t s then .threw "Invalid Track and Sector"
    else
      let here := (List.range FILES_PER_SECTOR).filterMap
        (fun j => if entryClosed d t s j then some (entryBytes d t s j) else none)
      directoryLoop d (getByte d t s 0) (getByte d t s 1) fuel (acc ++ here)

/-- Listing `d64::directory` from the directory head. -/
def directory (d : D64) (fuel : Nat) : FRes (List (List Nat)) :=
  directoryLoop d DIRECTORY_TRACK DIRECTORY_SECTOR fuel []

/-- The trimmed names of the current listing (the view `Trim (entry.fileName)`
that `reorderDirectory` and `movefileFirst` compare; name bytes are entry
bytes 3-18). -/
def directoryNames (d : D64) (fuel : Nat) : FRes (List (List Nat)) :=
  match directory d fuel with
  | .threw m => .threw m
  | .ok es => .ok (es.map (fun e => Trim ((e.drop 3).take FILE_NAME_SZ)))

/-- Rewrite loop of `d64::reorderDirectory(files)`: zero the current sector,
copy up to 8 whole entries into it (slot 7 spills, `writeEntryRaw`), then read
the link — which the zeroing just cleared, so the loop always stops after the
first sector (the directory-chain tail is cut off; flagged in the spec as the
reorder defect). -/
def reorderWriteLoop (d : D64) (t s : Nat) (files : List (List Nat)) (index fuel : Nat) :
    FRes Bool × D64 :=
  match fuel with
  | 0 => (.threw "fuel", d)
  | fuel + 1 =>
    if t = 0 ∨ files.length ≤ index then (.ok true, d)
    else
      let d1 := setSectorRaw d t s (List.replicate SECTOR_SIZE 0)
      let len := min FILES_PER_SECTOR (files.length - index)
      let d2 := (List.range len).foldl
        (fun dd i => writeEntryRaw dd t s i ((files.getD (index + i) []).take 32)) d1
      let nt := getByte d2 t s 0
      let ns := getByte d2 t s 1
      if nt = 0 then (.ok true, d2)
      else if ¬ isValidTrackSector d2 nt ns then (.threw "Invalid Track and Sector", d2)
      else reorderWriteLoop d2 nt ns files (index + len) fuel

/-- Reorder `d64::reorderDirectory(std::vector<Directory_Entry>&)`: compare the
given order to the current listing; when equal return false without writing,
else rewrite the chain with `reorderWriteLoop`. -/
def reorderDirectory (d : D64) (files : List (List Nat)) (fuel : Nat) : FRes Bool × D64 :=
  match directory d fuel with
  | .threw m => (.threw m, d)
  | .ok current =>
    if current = files then (.ok false, d)
    else reorderWriteLoop d DIRECTORY_TRACK DIRECTORY_SECTOR files 0 fuel

/-- Move-to-front `d64::movefileFirst`: swap the entry matching the trimmed
name with position 0 and rewrite. -/
def movefileFirst (d : D64) (file : List Nat) (fuel : Nat) : FRes Bool × D64 :=
  match directory d fuel with
  | .threw m => (.threw m, d)
  | .ok files =>
    match files.findIdx? (fun e => Trim ((e.drop 3).take FILE_NAME_SZ) = file) with
    | none => (.ok false, d)
    | some 0 => (.ok false, d)
    | some i =>
      let swapped := (files.set 0 (files.getD i [])).set i (files.getD 0 [])
      reorderDirectory d swapped fuel

/-- Free-tail loop of `d64::compactDirectory` (step 3): free the remaining
chain sectors, never (18,1); the link is read from the sector that the
rewrite loop has just zeroed. -/
def compactFreeLoop (d : D64) (t s fuel : Nat) : FRes Unit × D64 :=
  match fuel with
  | 0 => (.threw "fuel", d)
  | fuel + 1 =>
    if t = 0 then (.ok (), d)
    else
      let nt := getByte d t s 0
      let ns := getByte d t s 1
      let d1 := if t ≠ DIRECTORY_TRACK ∨ s ≠ DIRECTORY_SECTOR then (freeSector d t s).2 else d
      if nt = 0 then (.ok (), d1)
      else if ¬ isValidTrackSector d1 nt ns then (.threw "Invalid Track and Sector", d1)
      else compactFreeLoop d1 nt ns fuel

/-- Rewrite loop of `d64::compactDirectory` (step 2): zero the sector, copy up
to 8 collected entries, and if the collection is exhausted free the remaining
chain; as in `reorderWriteLoop` the link is read after the zeroing, so the
loop stops after the first sector. -/
def compactWriteLoop (d : D64) (t s : Nat) (files : List (List Nat)) (index fuel : Nat) :
    FRes Bool × D64 :=
  match fuel with
  | 0 => (.threw "fuel", d)
  | fuel + 1 =>
    if t = 0 then (.ok true, d)
    else if ¬ isValidTrackSector d t s then (.threw "Invalid Track and Sector", d)
    else
      let d1 := setSectorRaw d t s (List.replicate SECTOR_SIZE 0)
      let len := min FILES_PER_SECTOR (files.length - index)
      let d2 := (List.range len).foldl
        (fun dd i => writeEntryRaw dd t s i ((files.getD (index + i) []).take 32)) d1
      let index1 := index + len
      if files.length ≤ index1 then
        match compactFreeLoop d2 t s fuel with
        | (.threw m, d3) => (.threw m, d3)
        | (.ok _, d3) => (.ok true, d3)
      else
        let nt := getByte d2 t s 0
        let ns := getByte d2 t s 1
        if nt = 0 then (.ok true, d2)
        else compactWriteLoop d2 nt ns files index1 fuel

/-- Compaction `d64::compactDirectory`: collect all live entries, return false
on an empty collection, else rewrite from (18,1). -/
def compactDirectory (d : D64) (fuel : Nat) : FRes Bool × D64 :=
  match directory d fuel with
  | .threw m => (.threw m, d)
  | .ok files =>
    if files.isEmpty then (.ok false, d)
    else compactWriteLoop d DIRECTORY_TRACK DIRECTORY_SECTOR files 0 fuel

/-- Raw write `d64::writeSector` (whole sector): invalid coordinates or a
byte count other than 256 throw; otherwise the sector is replaced. -/
def writeSector (d : D64) (t s : Nat) (bytes : List Nat) : FRes Bool × D64 :=
  if ¬ isValidTrackSector d t s ∨ bytes.length ≠ SECTOR_SIZE then
    (.threw "Invalid track, sector, or byte size", d)
  else (.ok true, setSectorRaw d t s (bytes.map (· % 256)))

/-- Raw write `d64::writeByte`: out-of-range coordinates or offset return
false; otherwise the byte is stored. -/
def writeByte (d : D64) (t s i v : Nat) : FRes Bool × D64 :=
  if ¬ isValidTrackSector d t s ∨ SECTOR_SIZE ≤ i then (.ok false, d)
  else (.ok true, setByte d t s i v)

/-- Raw read `d64::readSector`: an optional copy of the 256 bytes. -/
def readSector (d : D64) (t s : Nat) : Option (List Nat) :=
  if ¬ isValidTrackSector d t s then none else some (d.sectors (t, s))

/-- Raw read `d64::readByte`. -/
def readByte (d : D64) (t s i : Nat) : Option Nat :=
  if ¬ isValidTrackSector d t s ∨ SECTOR_SIZE ≤ i then none else some (getByte d t s i)

/-- Mark one (track, sector) pair in the usage map of the verifier (the C++
writes `sectorUsage[track-1][sector] = true`; corrupt coordinates overflow
that array, here they are just marked). -/
def markUsed (u : Nat × Nat → Bool) (t s : Nat) : Nat × Nat → Bool :=
  fun p => if p = (t, s) then true else u p

/-- Chain walk of `verifyBAMIntegrity` for a non-REL entry: mark every sector
reached from the start by the links (`getTrackSectorPtr` throws on invalid
coordinates and the exception leaves `verifyBAMIntegrity`). -/
def vChainLoop (d : D64) (t s fuel : Nat) (u : Nat × Nat → Bool) :
    FRes (Nat × Nat → Bool) :=
  match fuel with
  | 0 => .threw "fuel"
  | fuel + 1 =>
    if t = 0 then .ok u
    else if ¬ isValidTrackSector d t s then .threw "Invalid Track and Sector"
    else vChainLoop d (getByte d t s 0) (getByte d t s 1) fuel (markUsed u t s)

/-- Chain-entry scan of one side sector in the verifier: mark the chain
entries up to the first zero-track sentinel. -/
def vRelChain (d : D64) (side : Nat × Nat) (u : Nat × Nat → Bool) :
    List Nat → Nat × Nat → Bool
  | [] => u
  | k :: rest =>
    let ct := getByte d side.1 side.2 (ssChainOff k)
    let cs := getByte d side.1 side.2 (ssChainOff k + 1)
    if ct = 0 then u
    else vRelChain d side (markUsed u ct cs) rest

/-- Group-table scan of the verifier for a REL entry: iterate over the first
side sector's 6-entry table (the C++ range is bound to that array even though
the `side` pointer is reassigned inside the loop), reload each listed side
sector (throwing on invalid coordinates), mark it, and mark its chain. -/
def vRelTable (d : D64) (first : Nat × Nat) (u : Nat × Nat → Bool) :
    List Nat → FRes (Nat × Nat → Bool)
  | [] => .ok u
  | i :: rest =>
    let tt := getByte d first.1 first.2 (ssTableOff i)
    let ts := getByte d first.1 first.2 (ssTableOff i + 1)
    if tt = 0 then .ok u
    else if ¬ isValidTrackSector d tt ts then .threw "Invalid Track and Sector"
    else
      let u1 := vRelChain d (tt, ts) (markUsed u tt ts) (List.range SIDE_SECTOR_CHAIN_SZ)
      vRelTable d first u1 rest

/-- Per-entry usage marking of the verifier: skip deleted entries, mark the
start sector, then walk the REL side-sector structure or the plain chain. -/
def vEntry (d : D64) (t s j chainFuel : Nat) (u : Nat × Nat → Bool) :
    FRes (Nat × Nat → Bool) :=
  if ¬ entryClosed d t s j then .ok u
  else
    let st := entryStart d t s j
    let u1 := markUsed u st.1 st.2
    if entryTypeCode d t s j = 4 then
      let side := entrySide d t s j
      if ¬ isValidTrackSector d side.1 side.2 then .threw "Invalid Track and Sector"
      else vRelTable d side u1 (List.range SIDE_SECTOR_ENTRY_SIZE)
    else vChainLoop d st.1 st.2 chainFuel u1

/-- Directory walk of `verifyBAMIntegrity` (step 2): mark each directory
sector and the sectors of each live entry. -/
def vDirLoop (d : D64) (t s dirFuel chainFuel : Nat) (u : Nat × Nat → Bool) :
    FRes (Nat × Nat → Bool) :=
  match dirFuel with
  | 0 => .threw "fuel"
  | dirFuel + 1 =>
    if t = 0 then .ok u
    else if ¬ isValidTrackSector d t s then .threw "Invalid Track and Sector"
    else
      let u1 := markUsed u t s
      match (List.range FILES_PER_SECTOR).foldlM (fun uu j => vEntry d t s j chainFuel uu) u1 with
      | .threw m => .threw m
      | .ok u2 => vDirLoop d (getByte d t s 0) (getByte d t s 1) dirFuel chainFuel u2

/-- One sector's comparison in step 3 of `verifyBAMIntegrity`: compare the BAM
bit with the usage map, report (and with `fix` repair) a mismatch, and count
the unused sectors.  The folded state is (errors-found, image, unused-count). -/
def vFixStep (fix : Bool) (u : Nat × Nat → Bool) (track : Nat)
    (st : Bool × D64 × Nat) (sector : Nat) : Bool × D64 × Nat :=
  let isFreeInBAM := bamTest st.2.1 (track - 1) sector
  let isUsedInDirectory := u (track, sector)
  let (errs1, d1) :=
    if ¬ isUsedInDirectory ∧ isFreeInBAM = false then
      (true, if fix then bamSet st.2.1 (track - 1) sector else st.2.1)
    else if isUsedInDirectory ∧ isFreeInBAM = true then
      (true, if fix then bamReset st.2.1 (track - 1) sector else st.2.1)
    else (st.1, st.2.1)
  (st.1 || errs1, d1, if ¬ isUsedInDirectory then st.2.2 + 1 else st.2.2)

/-- Comparison and repair of one track (step 3 of `verifyBAMIntegrity`): fold
`vFixStep` over the track's valid sectors, then compare (and with `fix`
correct) the free-count byte.  Returns whether an error was found. -/
def vFixTrack (fix : Bool) (u : Nat × Nat → Bool) (acc : Bool × D64) (track : Nat) :
    Bool × D64 :=
  let r := (List.range (sptrack track)).foldl (vFixStep fix u track) (acc.1, acc.2, 0)
  if bamFree r.2.1 (track - 1) ≠ r.2.2 then
    (true, if fix then bamSetFree r.2.1 (track - 1) r.2.2 else r.2.1)
  else (r.1, r.2.1)

/-- Verifier `d64::verifyBAMIntegrity` (the log output is dropped): mark
(18,0), walk the directory building the usage map, then compare and optionally
repair every track.  An exception during the walk leaves the image untouched;
the result is true when no error was found. -/
def verifyBAMIntegrity (d : D64) (fix : Bool) (dirFuel chainFuel : Nat) :
    FRes Bool × D64 :=
  let u0 := markUsed (fun _ => false) DIRECTORY_TRACK BAM_SECTOR
  match vDirLoop d DIRECTORY_TRACK DIRECTORY_SECTOR dirFuel chainFuel u0 with
  | .threw m => (.threw m, d)
  | .ok u =>
    let (errs, d1) := (List.range (TRACKS d)).foldl
      (fun acc t0 => vFixTrack fix u acc (t0 + 1)) (false, d)
    (.ok (¬ errs), d1)

/-- Validation `d64::validateD64` of the loaded buffer: every failed check
throws (the caller's `if (!validateD64())` can therefore never see `false`).
The size recheck always passes after `load` resized the buffer. -/
def validateD64 (d : D64) : FRes Bool :=
  if ¬ (getByte d DIRECTORY_TRACK BAM_SECTOR 0 = DIRECTORY_TRACK ∧
        getByte d DIRECTORY_TRACK BAM_SECTOR 1 = DIRECTORY_SECTOR) then
    .threw "Error: BAM structure is invalid (Incorrect directory track/sector)"
  else if ¬ (getByte d DIRECTORY_TRACK DIRECTORY_SECTOR 0 = DIRECTORY_TRACK ∨
             (getByte d DIRECTORY_TRACK DIRECTORY_SECTOR 0 = 0 ∧
              getByte d DIRECTORY_TRACK DIRECTORY_SECTOR 1 = 0xFF)) then
    .threw "Error: Directory sector does not match expected values"
  else .ok true

/-- Sector view of a flat image file: sector (t, s) is the 256-byte slice at
`calcOffset t s` (the C++ `read` fills the whole buffer from the file). -/
def bufferToSectors (file : List Nat) : Nat × Nat → List Nat :=
  fun p => ((file.drop (calcOffset p.1 p.2)).take SECTOR_SIZE)

/-- Loader `d64::load` over the host file's bytes: a size other than the two
disk sizes throws before `init_disk` runs (caught: failure, engine unchanged).
Otherwise the engine is re-initialised and the buffer filled from the file;
`validateD64` then either succeeds (success), throws (caught: failure, with
the loaded buffer left in the engine), or — dead code, since `validateD64`
never returns false — would reformat with "NEW DISK" and succeed. -/
def load (d : D64) (file : List Nat) : Bool × D64 :=
  if file.length = D64_DISK35_SZ ∨ file.length = D64_DISK40_SZ then
    let dt := if file.length = D64_DISK35_SZ then diskType.thirty_five_track
              else diskType.forty_track
    let dL : D64 :=
      { disktype := dt, sectors := bufferToSectors file,
        lastSectorUsed := List.replicate TRACKS_40 1 }
    match validateD64 dL with
    | .ok true => (true, dL)
    | .ok false => (true, formatDisk dL NEW_DISK)
    | .threw _ => (false, dL)
  else (false, d)

/-- A 35-track-sized image file consisting of zero bytes: its BAM dir-start
bytes are (0,0), so `validateD64` rejects it after a successful size check. -/
def zeroFile35 : List Nat := List.replicate D64_DISK35_SZ 0

/-- Consistency of one track: the BAM free-count byte equals the number of
set bitmap bits over the track's valid sector range. -/
def countFree (d : D64) (track : Nat) : Nat :=
  (List.range (sptrack track)).countP (fun s => bamTest d (track - 1) s)

/-- Consistency of the whole BAM: every track's free byte matches its bitmap,
and additionally the BAM sector (18,0) and first directory sector (18,1) are
marked allocated (their free bits clear). -/
def bamConsistent (d : D64) : Prop :=
  (∀ track, 1 ≤ track → track ≤ TRACKS d → bamFree d (track - 1) = countFree d track) ∧
  bamTest d 17 0 = false ∧ bamTest d 17 1 = false

instance (d : D64) : Decidable (bamConsistent d) :=
  decidable_of_iff
    ((∀ track < TRACKS d + 1, 1 ≤ track → bamFree d (track - 1) = countFree d track) ∧
     bamTest d 17 0 = false ∧ bamTest d 17 1 = false)
    (by
      unfold bamConsistent
      constructor
      · rintro ⟨h1, h2⟩
        exact ⟨fun track ht1 ht2 => h1 track (by omega) ht1, h2⟩
      · rintro ⟨h1, h2⟩
        exact ⟨fun track hlt h1t => h1 track h1t (by omega), h2⟩)

/-- Abbreviated hypothesis: the BAM sector holds 256 bytes (true in every
state built by the engine). -/
def len180 (d : D64) : Prop :=
  (d.sectors (DIRECTORY_TRACK, BAM_SECTOR)).length = SECTOR_SIZE

instance (d : D64) : Decidable (len180 d) := by
  unfold len180
  infer_instance

/-- Abbreviated hypothesis: every sector of the buffer holds 256 bytes (true
in every state built by the engine, whose buffer is a fixed-size array). -/
def secLen (d : D64) : Prop :=
  ∀ p : Nat × Nat, (d.sectors p).length = SECTOR_SIZE

/-- Sum of the free-count bytes of all tracks, the directory track included
(unlike `getFreeSectorCount`). -/
def totalFree (d : D64) : Nat :=
  (List.range (TRACKS d)).foldl (fun acc t0 => acc + bamFree d t0) 0

/-- Allocation driver of the exhaustion scenario: call
`findAndAllocateFreeSector` repeatedly until it fails, collecting the results
in order. -/
def allocLoop (d : D64) (fuel : Nat) : List (Nat × Nat) × D64 :=
  match fuel with
  | 0 => ([], d)
  | fuel + 1 =>
    match findAndAllocateFreeSector d with
    | (.ok (some ts), d1) =>
      let (rest, d2) := allocLoop d1 fuel
      (ts :: rest, d2)
    | (_, d1) => ([], d1)

/-- Modelled from the spec: the preferred track order "radiates outward from
the directory track, alternating above/below: 18, 17, 19, 16, 20, 15, 21, …,
finally 1, then 35, and for 40-track images continue 36, 37, 38, 39, 40". -/
def specTrackOrder : List Nat :=
  18 :: (List.range 17).flatMap (fun k => [17 - k, 19 + k]) ++ [36, 37, 38, 39, 40]

/-- Modelled from the spec: within a track "start at (cursor + 10) mod n, scan
forward wrapping once through all sectors", returning the first free sector. -/
def specScanTrack (d : D64) (track : Nat) : Option Nat :=
  let n := sptrack track
  let start := (d.lastSectorUsed.getD (track - 1) 0 + 10) % n
  ((List.range n).find? (fun i => bamTest d (track - 1) ((start + i) % n))).map
    (fun i => (start + i) % n)

/-- Modelled from the spec: the effect of allocating sector `s` of track `t` —
clear the free bit, add 255 (the uint8 decrement) to the track's free count,
and move the track's cursor to `s`. -/
def specAllocEffect (d : D64) (t s : Nat) : D64 :=
  let d1 := bamReset d (t - 1) s
  let d2 := bamSetFree d1 (t - 1) (bamFree d1 (t - 1) + 255)
  { d2 with lastSectorUsed := d2.lastSectorUsed.set (t - 1) s }

/-- Modelled from the spec: visit the tracks in the preferred order (skipping
entries above 35 on a 35-track image), pick the first track holding a free
sector with `specScanTrack`, allocate that sector with `specAllocEffect` and
update the track's cursor to it. -/
def specFindAndAllocate (d : D64) : Option (Nat × Nat) × D64 :=
  let order := specTrackOrder.filter (fun t => t ≤ TRACKS d)
  match order.findSome? (fun t => (specScanTrack d t).map (fun s => (t, s))) with
  | none => (none, d)
  | some (t, s) => (some (t, s), specAllocEffect d t s)

/-- One public mutating operation of the engine, with arbitrary arguments.
Raw sector/byte writes into the BAM sector (18,0) and `load` are excluded
(each of them can overwrite the BAM bytes wholesale); every other public
operation of the façade appears, the purely-reading ones (`readFile`,
`readSector`, `readByte`, `diskname`, `directory`, `getFreeSectorCount`,
`extractFile`, `save`) being identities on the image.  The fuels stand for
how far the C++ loops have run, so every intermediate state of a hung or
thrown walk is reachable too. -/
inductive Step : D64 → D64 → Prop where
  | format (d : D64) (name : List Nat) : Step d (formatDisk d name)
  | renameDisk (d : D64) (name : List Nat) : Step d (rename_disk d name).2
  | allocate (d : D64) (t s : Nat) : Step d (allocateSector d t s).2
  | free (d : D64) (t s : Nat) : Step d (freeSector d t s).2
  | findAllocOnTrack (d : D64) (t : Nat) : Step d (findAndAllocateFreeOnTrack d t).2
  | findAlloc (d : D64) : Step d (findAndAllocateFreeSector d).2
  | add (d : D64) (filename : List Nat) (typeByte : Nat) (fileData : List Nat)
      (recordSize dirFuel : Nat) :
      Step d (addFile d filename typeByte fileData recordSize dirFuel).2
  | remove (d : D64) (filename : List Nat) (dirFuel chainFuel : Nat) :
      Step d (removeFile d filename dirFuel chainFuel).2
  | rename (d : D64) (o n : List Nat) (dirFuel : Nat) : Step d (renameFile d o n dirFuel).2
  | lock (d : D64) (filename : List Nat) (lk : Bool) (dirFuel : Nat) :
      Step d (lockfile d filename lk dirFuel).2
  | reorder (d : D64) (files : List (List Nat)) (fuel : Nat) :
      Step d (reorderDirectory d files fuel).2
  | movefirst (d : D64) (file : List Nat) (fuel : Nat) : Step d (movefileFirst d file fuel).2
  | compact (d : D64) (fuel : Nat) : Step d (compactDirectory d fuel).2
  | verify (d : D64) (fix : Bool) (dirFuel chainFuel : Nat) :
      Step d (verifyBAMIntegrity d fix dirFuel chainFuel).2
  | rawSector (d : D64) (t s : Nat) (bytes : List Nat)
      (h : ¬ (t = DIRECTORY_TRACK ∧ s = BAM_SECTOR)) : Step d (writeSector d t s bytes).2
  | rawByte (d : D64) (t s i v : Nat)
      (h : ¬ (t = DIRECTORY_TRACK ∧ s = BAM_SECTOR)) : Step d (writeByte d t s i v).2

/-- States reachable from a freshly formatted image by the operations of
`Step`. -/
inductive Reach : D64 → Prop where
  | init (dt : diskType) : Reach (init_disk dt)
  | step {d d' : D64} : Reach d → Step d d' → Reach d'

/-- Modelled from the spec (C5): the property claimed of a chain write of a
`fileLen`-byte payload — when it succeeds, the chain holds ceil(fileLen/254)
sectors, and the terminal sector has link header `(0, used + 1)` (where
`used = fileLen - 254 * (sectors - 1)` is the payload bytes placed in it)
and a zero-filled unused payload tail. -/
def terminalHeaderSpec (fileLen : Nat) (r : FRes (List (Nat × Nat)) × D64) : Prop :=
  match r with
  | (.threw _, _) => True
  | (.ok L, d') =>
    L.length = (fileLen + 253) / 254 ∧
    ∀ tl sl, L.getLast? = some (tl, sl) →
      getByte d' tl sl 0 = 0 ∧
      getByte d' tl sl 1 = (fileLen - 254 * (L.length - 1)) + 1 ∧
      ∀ k, fileLen - 254 * (L.length - 1) ≤ k → k < 254 → getByte d' tl sl (2 + k) = 0

/-- Proof-infrastructure invariant of the `createSideSectors` loop relative to
the state `dstart` it was entered in: the BAM stays consistent, the
`sideSectorList` holds exactly the first side sector, the current and first
side sectors are not the BAM sector, and every valid allocated-and-protected
sector `p` (marked used in `dstart`, not the BAM sector) is untouched, still
marked used, and distinct from the loop's write targets. -/
def cssInv (dstart : D64) (st : CSS) : Prop :=
  bamConsistent st.d ∧ len180 st.d ∧ TRACKS st.d = TRACKS dstart ∧
  st.list = [st.first] ∧
  st.cur ≠ (DIRECTORY_TRACK, BAM_SECTOR) ∧ st.first ≠ (DIRECTORY_TRACK, BAM_SECTOR) ∧
  ∀ p : Nat × Nat, p.1 - 1 < 40 → p.2 < 24 → p ≠ (DIRECTORY_TRACK, BAM_SECTOR) →
    bamTest dstart (p.1 - 1) p.2 = false →
    st.d.sectors p = dstart.sectors p ∧ bamTest st.d (p.1 - 1) p.2 = false ∧
    p ≠ st.cur ∧ p ≠ st.first

/-- Observer on a `createSideSectors` result: did it throw the "Exceeded
maximum number of side sectors (6)" error? -/
def cssIsRelTooLarge : Except (CSSErr × D64) (List (Nat × Nat) × D64) → Bool
  | .error (.relTooLarge, _) => true
  | _ => false

/-- Observer on a `createSideSectors` result: the length of the returned
`sideSectorList`, if it succeeded. -/
def cssListLen : Except (CSSErr × D64) (List (Nat × Nat) × D64) → Option Nat
  | .ok (L, _) => some L.length
  | .error _ => none

/-!
Theorems.  The development below first establishes the frame and index lemmas
of the byte model, then the characterisation of a fresh disk, the core BAM
lemmas, and finally the claims.
-/

set_option maxRecDepth 40000

theorem length_spliceBytes (l vs : List Nat) (i : Nat) :
    (spliceBytes l i vs).length = l.length := by
  unfold spliceBytes
  split
  · rfl
  · rename_i h
    simp only [List.length_append, List.length_take, List.length_map, List.length_drop]
    omega

theorem getD_spliceBytes (l vs : List Nat) (i k : Nat) :
    (spliceBytes l i vs).getD k 0 =
      if i ≤ k ∧ k < i + vs.length ∧ k < l.length then vs.getD (k - i) 0 % 256
      else l.getD k 0 := by
  unfold spliceBytes
  split
  · rename_i h
    have : ¬ (i ≤ k ∧ k < i + vs.length ∧ k < l.length) := by omega
    simp [this]
  · rename_i h
    simp only [List.getD_eq_getElem?_getD, List.getElem?_append, List.length_append,
      List.length_take, List.length_map, List.getElem?_take, List.getElem?_map,
      List.getElem?_drop]
    split_ifs
    all_goals first
      | rfl
      | (exfalso; omega)
      | (have hmin : i ⊓ l.length = i := by omega
         rw [hmin]
         have h4 : k - i < vs.length := by omega
         rw [List.getElem?_eq_getElem h4]
         simp)
      | (rcases Nat.le_total vs.length (l.length - i) with hc | hc
         · have heq : i + vs.length + (k - (i ⊓ l.length + (l.length - i) ⊓ vs.length)) = k := by
             omega
           rw [heq]
         · rw [List.getElem?_eq_none (by omega), List.getElem?_eq_none (by omega)])

theorem getD_set (l : List Nat) (i k v : Nat) :
    (l.set i v).getD k 0 = if i = k ∧ i < l.length then v else l.getD k 0 := by
  simp only [List.getD_eq_getElem?_getD, List.getElem?_set]
  by_cases hik : i = k
  · subst hik
    by_cases hl : i < l.length
    · simp [hl]
    · rw [List.getElem?_eq_none (by omega)]
      simp [hl]
  · simp [hik]

theorem disktype_setSectorRaw (d : D64) (t s : Nat) (l : List Nat) :
    (setSectorRaw d t s l).disktype = d.disktype := rfl

theorem lastSectorUsed_setSectorRaw (d : D64) (t s : Nat) (l : List Nat) :
    (setSectorRaw d t s l).lastSectorUsed = d.lastSectorUsed := rfl

theorem TRACKS_setSectorRaw (d : D64) (t s : Nat) (l : List Nat) :
    TRACKS (setSectorRaw d t s l) = TRACKS d := rfl

theorem sectors_setSectorRaw (d : D64) (t s : Nat) (l : List Nat) (p : Nat × Nat) :
    (setSectorRaw d t s l).sectors p = if p = (t, s) then l else d.sectors p := rfl

theorem disktype_setByte (d : D64) (t s i v : Nat) :
    (setByte d t s i v).disktype = d.disktype := rfl

theorem lastSectorUsed_setByte (d : D64) (t s i v : Nat) :
    (setByte d t s i v).lastSectorUsed = d.lastSectorUsed := rfl

theorem disktype_setBytes (d : D64) (t s i : Nat) (vs : List Nat) :
    (setBytes d t s i vs).disktype = d.disktype := rfl

theorem lastSectorUsed_setBytes (d : D64) (t s i : Nat) (vs : List Nat) :
    (setBytes d t s i vs).lastSectorUsed = d.lastSectorUsed := rfl

theorem length_sectors_setByte (d : D64) (t s i v : Nat) (p : Nat × Nat) :
    ((setByte d t s i v).sectors p).length = (d.sectors p).length := by
  unfold setByte
  rw [sectors_setSectorRaw]
  split
  · rename_i hp
    rw [List.length_set, hp]
  · rfl

theorem length_sectors_setBytes (d : D64) (t s i : Nat) (vs : List Nat) (p : Nat × Nat) :
    ((setBytes d t s i vs).sectors p).length = (d.sectors p).length := by
  unfold setBytes
  rw [sectors_setSectorRaw]
  split
  · rename_i hp
    rw [length_spliceBytes, hp]
  · rfl

theorem getByte_setSectorRaw (d : D64) (t s : Nat) (l : List Nat) (t' s' k : Nat) :
    getByte (setSectorRaw d t s l) t' s' k =
      if (t', s') = (t, s) then l.getD k 0 else getByte d t' s' k := by
  unfold getByte
  rw [sectors_setSectorRaw]
  split <;> rfl

theorem getByte_setByte (d : D64) (t s i v : Nat) (t' s' k : Nat) :
    getByte (setByte d t s i v) t' s' k =
      if (t', s') = (t, s) ∧ i = k ∧ i < (d.sectors (t, s)).length then v % 256
      else getByte d t' s' k := by
  unfold setByte
  rw [getByte_setSectorRaw]
  by_cases hp : ((t' : Nat), (s' : Nat)) = (t, s)
  · rw [if_pos hp, getD_set]
    unfold getByte
    rw [hp]
    by_cases hik : i = k ∧ i < (d.sectors (t, s)).length
    · simp [hik, hp]
    · simp [hik, hp]
  · simp [hp]

theorem getByte_setBytes (d : D64) (t s i : Nat) (vs : List Nat) (t' s' k : Nat) :
    getByte (setBytes d t s i vs) t' s' k =
      if (t', s') = (t, s) ∧ i ≤ k ∧ k < i + vs.length ∧ k < (d.sectors (t, s)).length then
        vs.getD (k - i) 0 % 256
      else getByte d t' s' k := by
  unfold setBytes
  rw [getByte_setSectorRaw]
  by_cases hp : ((t' : Nat), (s' : Nat)) = (t, s)
  · rw [if_pos hp, getD_spliceBytes]
    unfold getByte
    rw [hp]
    by_cases hik : i ≤ k ∧ k < i + vs.length ∧ k < (d.sectors (t, s)).length
    · simp [hik, hp]
    · simp [hik, hp]
  · simp [hp]

theorem bamOffset_bounds {t0 : Nat} (h : t0 < 40) : 4 ≤ bamOffset t0 ∧ bamOffset t0 + 3 < 256 := by
  unfold bamOffset TRACKS_35
  split <;> omega

theorem bamOffset_mod4 {t0 : Nat} : bamOffset t0 % 4 = 0 := by
  unfold bamOffset TRACKS_35
  split <;> omega

theorem bamOffset_sep {t0 t1 : Nat} (h0 : t0 < 40) (h1 : t1 < 40) (hne : t0 ≠ t1) :
    bamOffset t0 + 4 ≤ bamOffset t1 ∨ bamOffset t1 + 4 ≤ bamOffset t0 := by
  unfold bamOffset TRACKS_35
  split <;> split <;> omega

theorem bamOffset_name_sep {t0 : Nat} (h : t0 < 40) :
    bamOffset t0 + 3 < 0x90 ∨ 0xAC ≤ bamOffset t0 := by
  unfold bamOffset TRACKS_35
  split <;> omega

theorem testBit_mask255 : ∀ k < 8, ∀ j < 8,
    Nat.testBit (255 - (1 <<< k)) j = decide (j ≠ k) := by decide

theorem testBit_or_mod256 (b k j : Nat) (hk : k < 8) (hj : j < 8) :
    Nat.testBit ((b ||| (1 <<< k)) % 256) j = (Nat.testBit b j || decide (j = k)) := by
  have h256 : (256 : Nat) = 2 ^ 8 := by norm_num
  rw [h256, Nat.testBit_mod_two_pow, Nat.shiftLeft_eq, one_mul, Nat.testBit_or]
  by_cases h : j = k
  · subst h; simp [Nat.testBit_two_pow_self, hj]
  · simp [Nat.testBit_two_pow_of_ne (Ne.symm h), h, hj]

theorem testBit_and_mod256 (b k j : Nat) (hk : k < 8) (hj : j < 8) :
    Nat.testBit ((b &&& (255 - (1 <<< k))) % 256) j = (Nat.testBit b j && decide (j ≠ k)) := by
  have h256 : (256 : Nat) = 2 ^ 8 := by norm_num
  rw [h256, Nat.testBit_mod_two_pow, Nat.testBit_and, testBit_mask255 k hk j hj]
  simp [hj]

theorem sptrack_le (track : Nat) : sptrack track ≤ 21 := by
  unfold sptrack
  by_cases h : track - 1 < 40
  · have hall : ∀ i < 40, SECTORS_PER_TRACK.getD i 0 ≤ 21 := by decide
    exact hall (track - 1) h
  · rw [List.getD_eq_getElem?_getD, List.getElem?_eq_none (by simp [SECTORS_PER_TRACK]; omega)]
    simp

theorem sptrack_pos {track : Nat} (h1 : 1 ≤ track) (h2 : track ≤ 40) : 17 ≤ sptrack track := by
  unfold sptrack
  have hall : ∀ i < 40, 17 ≤ SECTORS_PER_TRACK.getD i 0 := by decide
  exact hall (track - 1) (by omega)

theorem TRACKS_le (d : D64) : TRACKS d ≤ 40 := by
  unfold TRACKS
  split <;> simp [TRACKS_35, TRACKS_40]

theorem TRACKS_pos (d : D64) : 35 ≤ TRACKS d := by
  unfold TRACKS
  split <;> simp [TRACKS_35, TRACKS_40]

theorem isValidTrackSector_facts {d : D64} {t s : Nat}
    (h : isValidTrackSector d t s = true) :
    1 ≤ t ∧ t ≤ TRACKS d ∧ s < sptrack t ∧ t - 1 < 40 ∧ s < 24 := by
  unfold isValidTrackSector at h
  simp only [Bool.and_eq_true, decide_eq_true_eq] at h
  have h40 := TRACKS_le d
  have h21 := sptrack_le t
  exact ⟨h.1.1, h.1.2, h.2, by omega, by omega⟩

theorem bamFree_bamSetFree {d : D64} (hlen : len180 d) {t0 t1 : Nat}
    (h0 : t0 < 40) (h1 : t1 < 40) (v : Nat) :
    bamFree (bamSetFree d t1 v) t0 = if t0 = t1 then v % 256 else bamFree d t0 := by
  unfold len180 SECTOR_SIZE at hlen
  unfold bamFree bamSetFree
  rw [getByte_setByte]
  by_cases he : t0 = t1
  · subst he
    have hb := bamOffset_bounds h0
    rw [if_pos ⟨rfl, rfl, by rw [hlen]; omega⟩, if_pos rfl]
  · have hsep := bamOffset_sep h0 h1 he
    rw [if_neg (fun hx => absurd hx.2.1 (by omega)), if_neg he]

theorem bamFree_bamSet {d : D64} {t0 t1 s : Nat}
    (h0 : t0 < 40) (h1 : t1 < 40) (hs : s < 24) :
    bamFree (bamSet d t1 s) t0 = bamFree d t0 := by
  unfold bamFree bamSet
  rw [getByte_setByte]
  have hm0 : bamOffset t0 % 4 = 0 := bamOffset_mod4
  have hm1 : bamOffset t1 % 4 = 0 := bamOffset_mod4
  rw [if_neg (fun hx => absurd hx.2.1 (by omega))]

theorem bamFree_bamReset {d : D64} {t0 t1 s : Nat}
    (h0 : t0 < 40) (h1 : t1 < 40) (hs : s < 24) :
    bamFree (bamReset d t1 s) t0 = bamFree d t0 := by
  unfold bamFree bamReset
  rw [getByte_setByte]
  have hm0 : bamOffset t0 % 4 = 0 := bamOffset_mod4
  have hm1 : bamOffset t1 % 4 = 0 := bamOffset_mod4
  rw [if_neg (fun hx => absurd hx.2.1 (by omega))]

theorem bamTest_bamSetFree {d : D64} {t0 t1 s : Nat}
    (h0 : t0 < 40) (h1 : t1 < 40) (hs : s < 24) (v : Nat) :
    bamTest (bamSetFree d t1 v) t0 s = bamTest d t0 s := by
  unfold bamTest bamSetFree bamBitByte
  rw [getByte_setByte]
  have hm0 : bamOffset t0 % 4 = 0 := bamOffset_mod4
  have hm1 : bamOffset t1 % 4 = 0 := bamOffset_mod4
  rw [if_neg (fun hx => absurd hx.2.1 (by omega))]

theorem bamTest_bamSet {d : D64} (hlen : len180 d) {t0 t1 s s1 : Nat}
    (h0 : t0 < 40) (h1 : t1 < 40) (hs : s < 24) (hs1 : s1 < 24) :
    bamTest (bamSet d t1 s1) t0 s = (bamTest d t0 s || decide (t0 = t1 ∧ s = s1)) := by
  unfold len180 SECTOR_SIZE at hlen
  unfold bamTest bamSet bamBitByte
  rw [getByte_setByte]
  by_cases hsame : t0 = t1 ∧ s / 8 = s1 / 8
  · obtain ⟨het, heb⟩ := hsame
    subst het
    have hb := bamOffset_bounds h0
    rw [if_pos ⟨rfl, by rw [heb], by rw [hlen]; omega⟩]
    rw [heb, testBit_or_mod256 _ _ _ (by omega) (by omega)]
    by_cases hss : s = s1
    · subst hss
      simp
    · have hm : ¬ (s % 8 = s1 % 8) := by omega
      simp [hm, hss]
  · have hdiff : ¬ (bamOffset t0 + 1 + s / 8 = bamOffset t1 + 1 + s1 / 8) := by
      by_cases het : t0 = t1
      · subst het
        intro hx
        exact hsame ⟨rfl, by omega⟩
      · have hsep := bamOffset_sep h0 h1 het
        intro hx
        omega
    rw [if_neg (fun hx => absurd hx.2.1.symm hdiff)]
    have hno : ¬ (t0 = t1 ∧ s = s1) := by
      intro ⟨ha, hb⟩
      exact hsame ⟨ha, by rw [hb]⟩
    simp [hno]

theorem bamTest_bamReset {d : D64} (hlen : len180 d) {t0 t1 s s1 : Nat}
    (h0 : t0 < 40) (h1 : t1 < 40) (hs : s < 24) (hs1 : s1 < 24) :
    bamTest (bamReset d t1 s1) t0 s = (bamTest d t0 s && decide (¬ (t0 = t1 ∧ s = s1))) := by
  unfold len180 SECTOR_SIZE at hlen
  unfold bamTest bamReset bamBitByte
  rw [getByte_setByte]
  by_cases hsame : t0 = t1 ∧ s / 8 = s1 / 8
  · obtain ⟨het, heb⟩ := hsame
    subst het
    have hb := bamOffset_bounds h0
    rw [if_pos ⟨rfl, by rw [heb], by rw [hlen]; omega⟩]
    rw [heb, testBit_and_mod256 _ _ _ (by omega) (by omega)]
    by_cases hss : s = s1
    · subst hss
      simp
    · have hm : ¬ (s % 8 = s1 % 8) := by omega
      simp [hm, hss]
  · have hdiff : ¬ (bamOffset t0 + 1 + s / 8 = bamOffset t1 + 1 + s1 / 8) := by
      by_cases het : t0 = t1
      · subst het
        intro hx
        exact hsame ⟨rfl, by omega⟩
      · have hsep := bamOffset_sep h0 h1 het
        intro hx
        omega
    rw [if_neg (fun hx => absurd hx.2.1.symm hdiff)]
    have hno : ¬ (t0 = t1 ∧ s = s1) := by
      intro ⟨ha, hb⟩
      exact hsame ⟨ha, by rw [hb]⟩
    simp [hno]

theorem len180_bamSetFree {d : D64} (hlen : len180 d) (t0 v : Nat) :
    len180 (bamSetFree d t0 v) := by
  unfold len180 bamSetFree at *
  rw [length_sectors_setByte]
  exact hlen

theorem len180_bamSet {d : D64} (hlen : len180 d) (t0 s : Nat) : len180 (bamSet d t0 s) := by
  unfold len180 bamSet at *
  rw [length_sectors_setByte]
  exact hlen

theorem len180_bamReset {d : D64} (hlen : len180 d) (t0 s : Nat) : len180 (bamReset d t0 s) := by
  unfold len180 bamReset at *
  rw [length_sectors_setByte]
  exact hlen

theorem sectors_setByte_ne {d : D64} {t s : Nat} {p : Nat × Nat} (hp : p ≠ (t, s)) (i v : Nat) :
    (setByte d t s i v).sectors p = d.sectors p := by
  unfold setByte
  rw [sectors_setSectorRaw, if_neg hp]

theorem sectors_setBytes_ne {d : D64} {t s : Nat} {p : Nat × Nat} (hp : p ≠ (t, s))
    (i : Nat) (vs : List Nat) : (setBytes d t s i vs).sectors p = d.sectors p := by
  unfold setBytes
  rw [sectors_setSectorRaw, if_neg hp]

theorem sectors_foldl_preserved {α : Type} (f : D64 → α → D64) (p : Nat × Nat)
    (h : ∀ d x, (f d x).sectors p = d.sectors p) (l : List α) (d : D64) :
    ((l.foldl f d).sectors p) = d.sectors p := by
  induction l generalizing d with
  | nil => rfl
  | cons x xs ih => rw [List.foldl_cons, ih, h]

theorem sectors_bamSet_ne {d : D64} {p : Nat × Nat}
    (hp : p ≠ (DIRECTORY_TRACK, BAM_SECTOR)) (t0 s : Nat) :
    (bamSet d t0 s).sectors p = d.sectors p := sectors_setByte_ne hp _ _

theorem sectors_bamReset_ne {d : D64} {p : Nat × Nat}
    (hp : p ≠ (DIRECTORY_TRACK, BAM_SECTOR)) (t0 s : Nat) :
    (bamReset d t0 s).sectors p = d.sectors p := sectors_setByte_ne hp _ _

theorem sectors_bamSetFree_ne {d : D64} {p : Nat × Nat}
    (hp : p ≠ (DIRECTORY_TRACK, BAM_SECTOR)) (t0 v : Nat) :
    (bamSetFree d t0 v).sectors p = d.sectors p := sectors_setByte_ne hp _ _

theorem sectors_allocateSector_ne {d : D64} {p : Nat × Nat}
    (hp : p ≠ (DIRECTORY_TRACK, BAM_SECTOR)) (t s : Nat) :
    (allocateSector d t s).2.sectors p = d.sectors p := by
  unfold allocateSector
  split
  · rfl
  · split
    · rfl
    · show (bamSetFree _ _ _).sectors p = _
      rw [sectors_bamSetFree_ne hp, sectors_bamReset_ne hp]

theorem sectors_freeSector_ne {d : D64} {p : Nat × Nat}
    (hp : p ≠ (DIRECTORY_TRACK, BAM_SECTOR)) (t s : Nat) :
    (freeSector d t s).2.sectors p = d.sectors p := by
  unfold freeSector
  split
  · rfl
  · split
    · rfl
    · split
      · rfl
      · split
        · rfl
        · show (bamSetFree _ _ _).sectors p = _
          rw [sectors_bamSetFree_ne hp, sectors_bamSet_ne hp]

theorem sectors_initBAM_ne {d : D64} {p : Nat × Nat}
    (hp0 : p ≠ (DIRECTORY_TRACK, BAM_SECTOR)) (hp1 : p ≠ (DIRECTORY_TRACK, DIRECTORY_SECTOR))
    (name : List Nat) : (initBAM d name).sectors p = d.sectors p := by
  unfold initBAM initializeBAMFields
  rw [sectors_allocateSector_ne hp0, sectors_allocateSector_ne hp0, sectors_setByte_ne hp1,
    sectors_setSectorRaw, if_neg hp1,
    sectors_foldl_preserved initBAMtrack p
      (fun d x => by
        unfold initBAMtrack
        rw [sectors_setBytes_ne hp0, sectors_bamSetFree_ne hp0])]
  rw [sectors_setBytes_ne hp0, sectors_setBytes_ne hp0, sectors_setBytes_ne hp0,
    sectors_setBytes_ne hp0, sectors_setBytes_ne hp0, sectors_setBytes_ne hp0]

theorem D64ext {a b : D64} (h1 : a.disktype = b.disktype) (h2 : a.sectors = b.sectors)
    (h3 : a.lastSectorUsed = b.lastSectorUsed) : a = b := by
  cases a
  cases b
  cases h1
  cases h2
  cases h3
  rfl

theorem fresh_eq_freshE (dt : diskType) : init_disk dt = freshE dt := by
  apply D64ext
  · cases dt <;> rfl
  · funext p
    by_cases hp0 : p = (DIRECTORY_TRACK, BAM_SECTOR)
    · subst hp0
      cases dt <;> decide
    · by_cases hp1 : p = (DIRECTORY_TRACK, DIRECTORY_SECTOR)
      · subst hp1
        cases dt <;> decide
      · show (init_disk dt).sectors p = (freshE dt).sectors p
        unfold init_disk formatDisk
        rw [sectors_initBAM_ne hp0 hp1]
        show _ = if p = (DIRECTORY_TRACK, BAM_SECTOR) then _ else
          if p = (DIRECTORY_TRACK, DIRECTORY_SECTOR) then _ else _
        rw [if_neg hp0, if_neg hp1]
  · cases dt <;> rfl

theorem vFixStep_nofix (u : Nat × Nat → Bool) (track : Nat) (st : Bool × D64 × Nat)
    (sector : Nat) : (vFixStep false u track st sector).2.1 = st.2.1 := by
  unfold vFixStep
  simp only [Bool.false_eq_true, if_false]
  split
  · rfl
  · split <;> rfl

theorem vFix_foldl_nofix (u : Nat × Nat → Bool) (track : Nat) (l : List Nat)
    (st : Bool × D64 × Nat) : (l.foldl (vFixStep false u track) st).2.1 = st.2.1 := by
  induction l generalizing st with
  | nil => rfl
  | cons x xs ih => rw [List.foldl_cons, ih, vFixStep_nofix]

theorem vFixTrack_nofix (u : Nat × Nat → Bool) (acc : Bool × D64) (track : Nat) :
    (vFixTrack false u acc track).2 = acc.2 := by
  simp only [vFixTrack, vFix_foldl_nofix]
  split <;> simp

/-- Claim C10: for every disk state, `verifyBAMIntegrity` with `fix = false`
leaves the image (and the whole engine state) unchanged: in report-only mode
the verifier reads the directory, chains, side sectors and BAM, but performs
no write.  (All repairing writes of the source are guarded by `if (fix)`; the
usage-map construction is read-only and its exceptions propagate before any
write.) -/
theorem C10_verify_report_only (d : D64) (dirFuel chainFuel : Nat) :
    (verifyBAMIntegrity d false dirFuel chainFuel).2 = d := by
  simp only [verifyBAMIntegrity]
  split
  · rfl
  · rename_i u hu
    have h : ∀ (l : List Nat) (acc : Bool × D64),
        (l.foldl (fun acc t0 => vFixTrack false u acc (t0 + 1)) acc).2 = acc.2 := by
      intro l
      induction l with
      | nil => intro acc; rfl
      | cons x xs ih =>
        intro acc
        rw [List.foldl_cons, ih, vFixTrack_nofix]
    exact h (List.range (TRACKS d)) (false, d)

/-- Claim C8: `freeSector` on an already-free sector returns false and changes
nothing; freeing (18,0) or (18,1) is always refused, returning false with no
change (so the BAM and first directory sector stay allocated); on any other
allocated sector it returns true, sets the free bit, increments the track's
free-count byte and touches no other BAM entry. -/
theorem C8_freeSector (d : D64) (t s : Nat) (hv : isValidTrackSector d t s = true)
    (hlen : len180 d) :
    ((t = DIRECTORY_TRACK ∧ (s = BAM_SECTOR ∨ s = DIRECTORY_SECTOR)) →
      freeSector d t s = (.ok false, d)) ∧
    (bamTest d (t - 1) s = true → freeSector d t s = (.ok false, d)) ∧
    (bamTest d (t - 1) s = false → ¬ (t = DIRECTORY_TRACK ∧ (s = BAM_SECTOR ∨ s = DIRECTORY_SECTOR)) →
      (freeSector d t s).1 = .ok true ∧
      bamTest (freeSector d t s).2 (t - 1) s = true ∧
      bamFree (freeSector d t s).2 (t - 1) = (bamFree d (t - 1) + 1) % 256 ∧
      (∀ t0, t0 < 40 → t0 ≠ t - 1 → bamFree (freeSector d t s).2 t0 = bamFree d t0) ∧
      (∀ t0 s1, t0 < 40 → s1 < 24 → (t0, s1) ≠ (t - 1, s) →
        bamTest (freeSector d t s).2 t0 s1 = bamTest d t0 s1) ∧
      (∀ p, p ≠ (DIRECTORY_TRACK, BAM_SECTOR) → (freeSector d t s).2.sectors p = d.sectors p)) := by
  obtain ⟨ht1, _, hsp, ht40, hs24⟩ := isValidTrackSector_facts hv
  refine ⟨?_, ?_, ?_⟩
  · rintro ⟨rfl, hs⟩
    unfold freeSector
    rw [if_neg (by rw [hv]; simp)]
    rcases hs with rfl | rfl
    · rw [if_neg (by unfold DIRECTORY_SECTOR BAM_SECTOR; omega), if_pos ⟨rfl, rfl⟩]
    · rw [if_pos ⟨rfl, rfl⟩]
  · intro hbit
    unfold freeSector
    rw [if_neg (by rw [hv]; simp)]
    split_ifs with h1 h2 h3 <;> rfl
  · intro hbit hprot
    have hnot1 : ¬ (t = DIRECTORY_TRACK ∧ s = DIRECTORY_SECTOR) := by
      intro ⟨ha, hb⟩; exact hprot ⟨ha, Or.inr hb⟩
    have hnot0 : ¬ (t = DIRECTORY_TRACK ∧ s = BAM_SECTOR) := by
      intro ⟨ha, hb⟩; exact hprot ⟨ha, Or.inl hb⟩
    have hres : freeSector d t s =
        (.ok true, bamSetFree (bamSet d (t - 1) s) (t - 1) (bamFree (bamSet d (t - 1) s) (t - 1) + 1)) := by
      unfold freeSector
      rw [if_neg (by rw [hv]; simp), if_neg hnot1, if_neg hnot0, if_neg (by rw [hbit]; simp)]
    rw [hres]
    have hlen1 : len180 (bamSet d (t - 1) s) := len180_bamSet hlen _ _
    refine ⟨rfl, ?_, ?_, ?_, ?_, ?_⟩
    · show bamTest (bamSetFree _ _ _) (t - 1) s = true
      rw [bamTest_bamSetFree ht40 ht40 hs24, bamTest_bamSet hlen ht40 ht40 hs24 hs24]
      simp
    · show bamFree (bamSetFree _ _ _) (t - 1) = _
      rw [bamFree_bamSetFree hlen1 ht40 ht40, if_pos rfl, bamFree_bamSet ht40 ht40 hs24]
    · intro t0 h40 hne
      show bamFree (bamSetFree _ _ _) t0 = _
      rw [bamFree_bamSetFree hlen1 h40 ht40, if_neg hne, bamFree_bamSet h40 ht40 hs24]
    · intro t0 s1 h40 h24 hne
      show bamTest (bamSetFree _ _ _) t0 s1 = _
      rw [bamTest_bamSetFree h40 ht40 h24, bamTest_bamSet hlen h40 ht40 h24 hs24]
      have : ¬ (t0 = t - 1 ∧ s1 = s) := by
        intro ⟨ha, hb⟩; exact hne (by rw [ha, hb])
      simp [this]
    · intro p hp
      show (bamSetFree _ _ _).sectors p = _
      rw [sectors_bamSetFree_ne hp, sectors_bamSet_ne hp]

theorem C8_freeSector_witness :
    (freeSector (freshE diskType.thirty_five_track) 18 1 =
      (.ok false, freshE diskType.thirty_five_track)) ∧
    (freeSector (freshE diskType.thirty_five_track) 5 3 =
      (.ok false, freshE diskType.thirty_five_track)) ∧
    ((freeSector (allocateSector (freshE diskType.thirty_five_track) 5 3).2 5 3).1 = .ok true ∧
     bamTest (freeSector (allocateSector (freshE diskType.thirty_five_track) 5 3).2 5 3).2 4 3 = true ∧
     bamFree (freeSector (allocateSector (freshE diskType.thirty_five_track) 5 3).2 5 3).2 4 =
       (bamFree (allocateSector (freshE diskType.thirty_five_track) 5 3).2 4 + 1) % 256) := by
  refine ⟨?_, ?_, ?_⟩
  · exact (C8_freeSector _ 18 1 (by decide) (by decide)).1 ⟨rfl, Or.inr rfl⟩
  · exact (C8_freeSector _ 5 3 (by decide) (by decide)).2.1 (by decide)
  · have h := (C8_freeSector ((allocateSector (freshE diskType.thirty_five_track) 5 3).2) 5 3
      (by decide) (by decide)).2.2 (by decide) (by decide)
    exact ⟨h.1, h.2.1, h.2.2.1⟩

theorem bufferToSectors_zeroFile35 (p : Nat × Nat) (h : calcOffset p.1 p.2 + 256 ≤ D64_DISK35_SZ) :
    bufferToSectors zeroFile35 p = List.replicate 256 0 := by
  unfold bufferToSectors zeroFile35
  rw [List.drop_replicate, List.take_replicate]
  unfold SECTOR_SIZE
  unfold D64_DISK35_SZ at h ⊢
  congr 1
  omega


/-- Claim C7 (load behaviour).  The size gate holds: a host file whose size is
neither 174848 nor 196608 bytes makes `load` fail with the engine unchanged.
But on a valid-size image that fails the structural validation (here the
all-zero 35-track file, whose BAM dir-start is (0,0)), `validateD64` throws
instead of returning false, `load` catches the exception and returns
failure — it does not reformat to "NEW DISK", does not return success, and
leaves the invalid loaded buffer in the engine.  The `formatDisk("NEW DISK")`
branch of the source is dead code, contrary to the claim (and to the earlier
variant of `load` bundled in the same sources, whose `validateD64` returns
false). -/
theorem C7_load (d : D64) (file : List Nat)
    (hsz : file.length ≠ D64_DISK35_SZ ∧ file.length ≠ D64_DISK40_SZ) :
    load d file = (false, d) ∧
    (load d zeroFile35).1 = false ∧
    (load d zeroFile35).2 =
      { disktype := diskType.thirty_five_track, sectors := bufferToSectors zeroFile35,
        lastSectorUsed := List.replicate TRACKS_40 1 } ∧
    diskname (load d zeroFile35).2 ≠ NEW_DISK := by
  have hb : bufferToSectors zeroFile35 (DIRECTORY_TRACK, BAM_SECTOR) = List.replicate 256 0 := by
    apply bufferToSectors_zeroFile35
    decide
  have h1b : getByte
      { disktype := diskType.thirty_five_track, sectors := bufferToSectors zeroFile35,
        lastSectorUsed := List.replicate TRACKS_40 1 } DIRECTORY_TRACK BAM_SECTOR 0 = 0 := by
    unfold getByte
    dsimp only
    rw [hb]
    decide
  have hload0 : load d zeroFile35 =
      (false, { disktype := diskType.thirty_five_track, sectors := bufferToSectors zeroFile35,
                lastSectorUsed := List.replicate TRACKS_40 1 }) := by
    unfold load
    rw [if_pos (Or.inl (by unfold zeroFile35; simp))]
    rw [if_pos (by unfold zeroFile35; simp)]
    have hv : validateD64
        { disktype := diskType.thirty_five_track, sectors := bufferToSectors zeroFile35,
          lastSectorUsed := List.replicate TRACKS_40 1 } =
        .threw "Error: BAM structure is invalid (Incorrect directory track/sector)" := by
      unfold validateD64
      rw [if_pos]
      intro hAB
      have h1 := hAB.1
      rw [h1b] at h1
      exact absurd h1 (by decide)
    dsimp only
    rw [hv]
  refine ⟨?_, by rw [hload0], by rw [hload0], ?_⟩
  · unfold load
    rw [if_neg (by intro h; rcases h with h | h; exact hsz.1 h; exact hsz.2 h)]
  · rw [hload0]
    unfold diskname
    dsimp only
    rw [hb, List.drop_replicate, List.take_replicate]
    decide

theorem C7_load_witness :
    load (freshE diskType.thirty_five_track) [0, 1, 2] = (false, freshE diskType.thirty_five_track) ∧
    (load (freshE diskType.thirty_five_track) zeroFile35).1 = false ∧
    diskname (load (freshE diskType.thirty_five_track) zeroFile35).2 ≠ NEW_DISK := by
  have h := C7_load (freshE diskType.thirty_five_track) [0, 1, 2] (by decide)
  exact ⟨h.1, h.2.1, h.2.2.2⟩


theorem cssStep_ok_list (rs : Nat) (st : CSS) (ts : Nat × Nat) (st' : CSS)
    (h : cssStep rs st ts = .ok st') : st'.list = st.list := by
  unfold cssStep at h
  split at h
  · cases h; rfl
  · split at h
    · exact absurd h (by simp)
    · split at h
      · exact absurd h (by simp)
      · exact absurd h (by simp)
      · cases h; rfl

theorem cssStep_err_notRel (rs : Nat) (st : CSS) (ts : Nat × Nat) (e : CSSErr) (d' : D64)
    (hlen : st.list.length < SIDE_SECTOR_ENTRY_SIZE)
    (h : cssStep rs st ts = .error (e, d')) : e = CSSErr.diskFull := by
  unfold cssStep at h
  split at h
  · exact absurd h (by simp)
  · split at h
    · rename_i hge
      exact absurd hge (by omega)
    · split at h
      · cases h; rfl
      · cases h; rfl
      · exact absurd h (by simp)

theorem foldlM_cons_err {E β α : Type} (f : β → α → Except E β) (b : β) (a : α) (l : List α)
    (e : E) (hc : f b a = .error e) : (a :: l).foldlM f b = .error e := by
  rw [List.foldlM_cons, hc]
  rfl

theorem foldlM_cons_ok {E β α : Type} (f : β → α → Except E β) (b : β) (a : α) (l : List α)
    (b' : β) (hc : f b a = .ok b') : (a :: l).foldlM f b = l.foldlM f b' := by
  rw [List.foldlM_cons, hc]
  rfl

theorem cssFold (rs : Nat) (l : List (Nat × Nat)) (st : CSS)
    (hlen : st.list.length < SIDE_SECTOR_ENTRY_SIZE) :
    (∀ d', l.foldlM (cssStep rs) st ≠ Except.error (CSSErr.relTooLarge, d')) ∧
    (∀ st', l.foldlM (cssStep rs) st = Except.ok st' → st'.list = st.list) := by
  induction l generalizing st with
  | nil =>
    refine ⟨fun d' h => ?_, fun st' h => ?_⟩
    · rw [List.foldlM_nil] at h
      exact Except.noConfusion h
    · rw [List.foldlM_nil] at h
      injection h with h
      rw [← h]
  | cons a l ih =>
    cases hc : cssStep rs st a with
    | error e =>
      obtain ⟨e1, ed⟩ := e
      have hfe : (a :: l).foldlM (cssStep rs) st = .error (e1, ed) :=
        foldlM_cons_err _ _ _ _ _ hc
      have he1 : e1 = CSSErr.diskFull := cssStep_err_notRel rs st a e1 ed hlen hc
      refine ⟨fun d' h => ?_, fun st' h => ?_⟩
      · rw [hfe, he1] at h
        simp at h
      · rw [hfe] at h
        exact Except.noConfusion h
    | ok st1 =>
      have hfo : (a :: l).foldlM (cssStep rs) st = l.foldlM (cssStep rs) st1 :=
        foldlM_cons_ok _ _ _ _ _ hc
      have hl1 : st1.list = st.list := cssStep_ok_list rs st a st1 hc
      have hlen1 : st1.list.length < SIDE_SECTOR_ENTRY_SIZE := by rw [hl1]; exact hlen
      obtain ⟨ihA, ihB⟩ := ih st1 hlen1
      refine ⟨fun d' h => ?_, fun st' h => ?_⟩
      · rw [hfo] at h
        exact ihA d' h
      · rw [hfo] at h
        rw [ihB st' h, hl1]

/-- Claim C6 (REL side-sector construction).  The claim says building side
sectors yields ceil(n/120) side sectors in the returned list and throws
`RelTooLarge` exactly when more than 6 would be needed (721 data sectors
fail, 720 succeed).  In the code the `sideSectorList` vector is pushed to
only once — the overflow branch allocates a new side sector but never
pushes it — so `sideSectorList.size()` stays 1 forever: the guard
`size() >= 6` never fires, `RelTooLarge` is unreachable for every input
(721 data sectors included), and a successful call always returns a
one-element side-sector list, not ceil(n/120) elements. -/
theorem C6_side_sectors (d : D64) (allocatedSectors : List (Nat × Nat)) (record_size : Nat) :
    cssIsRelTooLarge (createSideSectors d allocatedSectors record_size) = false ∧
    (cssListLen (createSideSectors d allocatedSectors record_size) = none ∨
     cssListLen (createSideSectors d allocatedSectors record_size) = some 1) := by
  unfold createSideSectors
  split
  · exact ⟨rfl, Or.inl rfl⟩
  · exact ⟨rfl, Or.inl rfl⟩
  · rename_i t s d1 heq
    dsimp only
    obtain ⟨hA, hB⟩ := cssFold record_size allocatedSectors
      ⟨setBytes (setByte (setBytes (setByte d1 t s 3 record_size) t s 0 [0, 16]) t s 2 0)
         t s (ssTableOff 0) [t, s],
       (t, s), (t, s), [(t, s)], 1, 1, 0⟩ (by simp [SIDE_SECTOR_ENTRY_SIZE])
    cases hf : allocatedSectors.foldlM (cssStep record_size)
      ⟨setBytes (setByte (setBytes (setByte d1 t s 3 record_size) t s 0 [0, 16]) t s 2 0)
         t s (ssTableOff 0) [t, s],
       (t, s), (t, s), [(t, s)], 1, 1, 0⟩ with
    | error e =>
      obtain ⟨e1, ed⟩ := e
      cases e1 with
      | diskFull => exact ⟨rfl, Or.inl rfl⟩
      | relTooLarge => exact absurd hf (hA ed)
    | ok st =>
      have h2 : st.list = [(t, s)] := hB st hf
      refine ⟨rfl, Or.inr ?_⟩
      show some st.list.length = some 1
      rw [h2]
      rfl

theorem faOnTrack_none (d : D64) (t : Nat) (h1 : 1 ≤ t) (h2 : t ≤ TRACKS d)
    (hn : specScanTrack d t = none) :
    findAndAllocateFreeOnTrack d t = (.ok none, d) := by
  unfold specScanTrack at hn
  dsimp only at hn
  rw [Option.map_eq_none'] at hn
  unfold findAndAllocateFreeOnTrack
  rw [if_neg (by simp [h1, h2])]
  by_cases hf : bamFree d (t - 1) < 1
  · rw [if_pos hf]
  · rw [if_neg hf]
    dsimp only
    simp only [INTERLEAVE]
    rw [hn]

theorem faOnTrack_some (d : D64) (t s : Nat) (h1 : 1 ≤ t) (h2 : t ≤ TRACKS d)
    (hc : bamFree d (t - 1) = countFree d t)
    (hs : specScanTrack d t = some s) :
    findAndAllocateFreeOnTrack d t = (.ok (some s), specAllocEffect d t s) := by
  unfold specScanTrack at hs
  dsimp only at hs
  rw [Option.map_eq_some'] at hs
  obtain ⟨i, hfind, hsi⟩ := hs
  have hts : t ≤ 40 := le_trans h2 (TRACKS_le d)
  have hnpos : 17 ≤ sptrack t := sptrack_pos h1 hts
  have hbt : bamTest d (t - 1)
      (((d.lastSectorUsed.getD (t - 1) 0 + 10) % sptrack t + i) % sptrack t) = true := by
    have := List.find?_some hfind
    simpa using this
  have hbts : bamTest d (t - 1) s = true := by rw [← hsi]; exact hbt
  have hslt : s < sptrack t := by
    rw [← hsi]
    exact Nat.mod_lt _ (by omega)
  have hcp : 0 < countFree d t := by
    unfold countFree
    rw [List.countP_pos]
    refine ⟨s, List.mem_range.2 hslt, by simpa using hbts⟩
  have hvalid : isValidTrackSector d t s = true := by
    unfold isValidTrackSector
    simp [h1, h2, hslt]
  have halloc : allocateSector d t s =
      (.ok true, bamSetFree (bamReset d (t - 1) s) (t - 1)
        (bamFree (bamReset d (t - 1) s) (t - 1) + 255)) := by
    unfold allocateSector
    rw [if_neg (by simp [hvalid]), if_neg (by simp [hbts])]
  unfold findAndAllocateFreeOnTrack
  rw [if_neg (by simp [h1, h2])]
  rw [if_neg (by omega)]
  dsimp only
  simp only [INTERLEAVE]
  rw [hfind]
  dsimp only
  rw [hsi, halloc]
  unfold specAllocEffect
  rfl

theorem faLoop_spec (d : D64) (order : List Nat)
    (hC : ∀ t, 1 ≤ t → t ≤ TRACKS d → bamFree d (t - 1) = countFree d t)
    (hall : ∀ t ∈ order, 1 ≤ t ∧ t ≤ TRACKS_40) :
    faLoop d order =
      match (order.filter (fun t => t ≤ TRACKS d)).findSome?
              (fun t => (specScanTrack d t).map (fun s => (t, s))) with
      | none => (FRes.ok none, d)
      | some (t, s) => (FRes.ok (some (t, s)), specAllocEffect d t s) := by
  induction order with
  | nil => rfl
  | cons t rest ih =>
    have ht := hall t (by simp)
    have ihr := ih (fun x hx => hall x (by simp [hx]))
    by_cases hsk : d.disktype = diskType.thirty_five_track ∧ t > TRACKS_35
    · have htle : ¬ (t ≤ TRACKS d) := by
        have h35 : TRACKS d = TRACKS_35 := by
          unfold TRACKS
          rw [hsk.1]
        rw [h35]
        have := hsk.2
        omega
      have hunf : faLoop d (t :: rest) = faLoop d rest := by
        conv_lhs => rw [faLoop]
        rw [if_pos hsk]
      rw [hunf, List.filter_cons_of_neg (by simpa using htle)]
      exact ihr
    · have htle : t ≤ TRACKS d := by
        by_cases hd : d.disktype = diskType.thirty_five_track
        · have h35 : TRACKS d = TRACKS_35 := by
            unfold TRACKS
            rw [hd]
          rw [h35]
          have hng : ¬ t > TRACKS_35 := fun hgt => hsk ⟨hd, hgt⟩
          omega
        · have h40 : TRACKS d = TRACKS_40 := by
            unfold TRACKS
            cases hdt : d.disktype
            · exact absurd hdt hd
            · rfl
          rw [h40]
          exact ht.2
      rw [List.filter_cons_of_pos (by simpa using htle)]
      rw [List.findSome?_cons]
      cases hscan : specScanTrack d t with
      | none =>
        have hnone := faOnTrack_none d t ht.1 htle hscan
        have hunf : faLoop d (t :: rest) = faLoop d rest := by
          conv_lhs => rw [faLoop]
          rw [if_neg hsk, hnone]
        rw [hunf]
        exact ihr
      | some s =>
        have hsome := faOnTrack_some d t s ht.1 htle (hC t ht.1 htle) hscan
        have hunf : faLoop d (t :: rest) = (.ok (some (t, s)), specAllocEffect d t s) := by
          conv_lhs => rw [faLoop]
          rw [if_neg hsk, hsome]
        rw [hunf]
        rfl

/-- Claim C4 (allocation search order).  `findAndAllocateFreeSector` visits
the tracks in exactly the fixed priority order 18, 17, 19, 16, 20, …, 1, 35,
36-40 claimed by the spec (skipping entries above 35 on a 35-track image),
and — provided each track's BAM free byte agrees with its bitmap — returns
the first free sector found by scanning from (cursor + 10) mod n forward
with wraparound, allocating it (bit cleared, free byte decremented mod 256)
and moving that track's cursor to the allocated sector, as the spec-modelled
`specFindAndAllocate` prescribes. -/
theorem C4_find_and_allocate (d : D64) (h : bamConsistent d) :
    specTrackOrder = TRACK_40_SEARCH_ORDER ∧
    findAndAllocateFreeSector d =
      (FRes.ok (specFindAndAllocate d).1, (specFindAndAllocate d).2) := by
  refine ⟨by decide, ?_⟩
  unfold findAndAllocateFreeSector specFindAndAllocate
  dsimp only
  rw [show specTrackOrder = TRACK_40_SEARCH_ORDER from by decide]
  rw [faLoop_spec d TRACK_40_SEARCH_ORDER h.1 (by decide)]
  cases hfs : (TRACK_40_SEARCH_ORDER.filter (fun t => t ≤ TRACKS d)).findSome?
      (fun t => (specScanTrack d t).map (fun s => (t, s))) with
  | none => rfl
  | some p =>
    obtain ⟨t, s⟩ := p
    rfl

theorem C4_find_and_allocate_witness :
    bamConsistent (freshE diskType.thirty_five_track) ∧
    findAndAllocateFreeSector (freshE diskType.thirty_five_track) =
      (FRes.ok (specFindAndAllocate (freshE diskType.thirty_five_track)).1,
       (specFindAndAllocate (freshE diskType.thirty_five_track)).2) :=
  ⟨by decide, (C4_find_and_allocate (freshE diskType.thirty_five_track) (by decide)).2⟩

theorem secLen_setByte {d : D64} (hs : secLen d) (t s i v : Nat) :
    secLen (setByte d t s i v) := by
  intro p
  rw [length_sectors_setByte]
  exact hs p

theorem secLen_setBytes {d : D64} (hs : secLen d) (t s i : Nat) (vs : List Nat) :
    secLen (setBytes d t s i vs) := by
  intro p
  rw [length_sectors_setBytes]
  exact hs p

theorem secLen_allocateSector {d : D64} (hs : secLen d) (t s : Nat) :
    secLen (allocateSector d t s).2 := by
  unfold allocateSector
  split
  · exact hs
  · split
    · exact hs
    · exact secLen_setByte (secLen_setByte hs _ _ _ _) _ _ _ _

theorem secLen_faOnTrack {d : D64} (hs : secLen d) (t : Nat) :
    secLen (findAndAllocateFreeOnTrack d t).2 := by
  unfold findAndAllocateFreeOnTrack
  split
  · exact hs
  · split
    · exact hs
    · dsimp only
      split
      · exact hs
      · exact fun p => secLen_allocateSector hs t _ p

theorem secLen_faLoop {d : D64} (hs : secLen d) (order : List Nat) :
    secLen (faLoop d order).2 := by
  induction order generalizing d with
  | nil => exact hs
  | cons t rest ih =>
    unfold faLoop
    split
    · exact ih hs
    · split
      · rename_i m d1 heq
        have h := secLen_faOnTrack hs t
        rw [heq] at h
        exact h
      · rename_i d1 heq
        have h := secLen_faOnTrack hs t
        rw [heq] at h
        exact ih h
      · rename_i sv d1 heq
        have h := secLen_faOnTrack hs t
        rw [heq] at h
        exact h

theorem secLen_findAlloc {d : D64} (hs : secLen d) :
    secLen (findAndAllocateFreeSector d).2 :=
  secLen_faLoop hs TRACK_40_SEARCH_ORDER

theorem secLen_writeDataToSector {d : D64} (hs : secLen d) (t s : Nat) (rest : List Nat) :
    secLen (writeDataToSector d t s rest) := by
  unfold writeDataToSector
  dsimp only
  split
  · exact secLen_setBytes (secLen_setBytes hs _ _ _ _) _ _ _ _
  · exact secLen_setBytes hs _ _ _ _

theorem secLen_freshE (dt : diskType) : secLen (freshE dt) := by
  intro p
  unfold freshE
  dsimp only
  split
  · cases dt <;> decide
  · split
    · decide
    · decide

theorem terminal_content (d : D64) (t s : Nat) (rest : List Nat)
    (hu1 : 0 < rest.length) (hu2 : rest.length ≤ 254) (hs : secLen d) :
    getByte (writeDataToSector (setBytes d t s 0 [0, rest.length + 1]) t s rest) t s 0 = 0 ∧
    getByte (writeDataToSector (setBytes d t s 0 [0, rest.length + 1]) t s rest) t s 1 =
      rest.length + 1 ∧
    ∀ k, rest.length ≤ k → k < 254 →
      getByte (writeDataToSector (setBytes d t s 0 [0, rest.length + 1]) t s rest) t s (2 + k)
        = 0 := by
  have h2 : secLen (setBytes d t s 0 [0, rest.length + 1]) := secLen_setBytes hs _ _ _ _
  unfold writeDataToSector
  dsimp only
  rw [if_pos hu2]
  have hmid : secLen (setBytes (setBytes d t s 0 [0, rest.length + 1]) t s 2
      (rest.take 254 ++ List.replicate (254 - min 254 rest.length) 0)) :=
    secLen_setBytes h2 _ _ _ _
  have hmlen : ((setBytes (setBytes d t s 0 [0, rest.length + 1]) t s 2
      (rest.take 254 ++ List.replicate (254 - min 254 rest.length) 0)).sectors (t, s)).length
      = 256 := by
    rw [hmid (t, s)]
    rfl
  have hvl : (rest.take 254 ++ List.replicate (254 - min 254 rest.length) 0).length = 254 := by
    simp only [List.length_append, List.length_take, List.length_replicate]
    omega
  refine ⟨?_, ?_, ?_⟩
  · rw [getByte_setBytes,
      if_pos ⟨rfl, Nat.le_refl 0, by simp, by rw [hmlen]; omega⟩]
    rfl
  · rw [getByte_setBytes,
      if_pos ⟨rfl, by omega, by simp, by rw [hmlen]; omega⟩]
    show (min 254 rest.length + 1) % 256 = rest.length + 1
    rw [Nat.min_eq_right hu2]
    exact Nat.mod_eq_of_lt (by omega)
  · intro k hk1 hk2
    rw [getByte_setBytes,
      if_neg (by
        rintro ⟨-, -, hlt, -⟩
        simp only [List.length_cons, List.length_nil] at hlt
        omega)]
    rw [getByte_setBytes,
      if_pos ⟨rfl, by omega, by rw [hvl]; omega, by rw [h2 (t, s)]; unfold SECTOR_SIZE; omega⟩]
    have hidx : 2 + k - 2 = k := by omega
    rw [hidx]
    rw [List.getD_eq_getElem?_getD,
      List.getElem?_append_right (by simp only [List.length_take]; omega)]
    simp only [List.length_take, List.getElem?_replicate]
    split <;> rfl

theorem writeChain_terminal_eq (fuel : Nat) (d : D64) (t s : Nat) (rest : List Nat)
    (acc : List (Nat × Nat)) (hu1 : 0 < rest.length) (hu2 : rest.length ≤ 254) :
    writeChainLoop (fuel + 1) d t s rest acc =
      (.ok (((t, s) :: acc).reverse),
       writeDataToSector (setBytes d t s 0 [0, rest.length + 1]) t s rest) := by
  conv_lhs => rw [writeChainLoop]
  rw [if_neg (by omega), if_neg (by omega)]

theorem writeChain_step_threw (fuel : Nat) (d d1 : D64) (t s : Nat) (rest : List Nat)
    (acc : List (Nat × Nat)) (m : String) (hgt : 254 < rest.length)
    (hal : findAndAllocateFreeSector d = (.threw m, d1)) :
    writeChainLoop (fuel + 1) d t s rest acc = (.threw m, d1) := by
  conv_lhs => rw [writeChainLoop]
  rw [if_neg (by omega), if_pos hgt, hal]

theorem writeChain_step_none (fuel : Nat) (d d1 : D64) (t s : Nat) (rest : List Nat)
    (acc : List (Nat × Nat)) (hgt : 254 < rest.length)
    (hal : findAndAllocateFreeSector d = (.ok none, d1)) :
    writeChainLoop (fuel + 1) d t s rest acc =
      (.threw "Disk full. Unable to add file data", d1) := by
  conv_lhs => rw [writeChainLoop]
  rw [if_neg (by omega), if_pos hgt, hal]

theorem writeChain_step_some (fuel : Nat) (d d1 : D64) (t s nt ns : Nat) (rest : List Nat)
    (acc : List (Nat × Nat)) (hgt : 254 < rest.length)
    (hal : findAndAllocateFreeSector d = (.ok (some (nt, ns)), d1)) :
    writeChainLoop (fuel + 1) d t s rest acc =
      writeChainLoop fuel (writeDataToSector (setBytes d1 t s 0 [nt, ns]) t s rest) nt ns
        (rest.drop 254) ((t, s) :: acc) := by
  conv_lhs => rw [writeChainLoop]
  rw [if_neg (by omega), if_pos hgt, hal]

theorem writeChain_spec (n : Nat) :
    ∀ (d : D64) (t s : Nat) (rest : List Nat) (acc : List (Nat × Nat)),
    0 < rest.length → secLen d →
    (match writeChainLoop n d t s rest acc with
     | (.threw _, _) => True
     | (.ok L, d') =>
       secLen d' ∧
       ∃ chain : List (Nat × Nat), L = acc.reverse ++ chain ∧
         chain ≠ [] ∧
         chain.length = (rest.length + 253) / 254 ∧
         ∀ tl sl, chain.getLast? = some (tl, sl) →
           getByte d' tl sl 0 = 0 ∧
           getByte d' tl sl 1 = (rest.length - 254 * (chain.length - 1)) + 1 ∧
           ∀ k, rest.length - 254 * (chain.length - 1) ≤ k → k < 254 →
             getByte d' tl sl (2 + k) = 0) := by
  induction n with
  | zero =>
    intro d t s rest acc h0 hs
    unfold writeChainLoop
    rw [if_neg (by omega)]
    exact trivial
  | succ n ih =>
    intro d t s rest acc h0 hs
    by_cases hterm : rest.length ≤ 254
    · rw [writeChain_terminal_eq n d t s rest acc h0 hterm]
      have hterm_c := terminal_content d t s rest h0 hterm hs
      refine ⟨secLen_writeDataToSector (secLen_setBytes hs _ _ _ _) _ _ _,
        [(t, s)], by simp, by simp, ?_, ?_⟩
      · show 1 = (rest.length + 253) / 254
        omega
      · intro tl sl hgl
        rw [List.getLast?_singleton] at hgl
        injection hgl with h
        injection h with h1 h2
        subst h1
        subst h2
        exact ⟨hterm_c.1, hterm_c.2.1, fun k hk1 hk2 => hterm_c.2.2 k hk1 hk2⟩
    · cases hal : findAndAllocateFreeSector d with
      | mk r d1 =>
        have hd1 : secLen d1 := by
          have h := secLen_findAlloc hs
          rw [hal] at h
          exact h
        cases r with
        | threw m =>
          rw [writeChain_step_threw n d d1 t s rest acc m (by omega) hal]
          exact trivial
        | ok o =>
          cases o with
          | none =>
            rw [writeChain_step_none n d d1 t s rest acc (by omega) hal]
            exact trivial
          | some p =>
            obtain ⟨nt, ns⟩ := p
            rw [writeChain_step_some n d d1 t s nt ns rest acc (by omega) hal]
            have hs3 : secLen (writeDataToSector (setBytes d1 t s 0 [nt, ns]) t s rest) :=
              secLen_writeDataToSector (secLen_setBytes hd1 _ _ _ _) _ _ _
            have hspec := ih (writeDataToSector (setBytes d1 t s 0 [nt, ns]) t s rest) nt ns
              (rest.drop 254) ((t, s) :: acc)
              (by simp only [List.length_drop]; omega) hs3
            cases hw : writeChainLoop n (writeDataToSector (setBytes d1 t s 0 [nt, ns]) t s rest)
                nt ns (rest.drop 254) ((t, s) :: acc) with
            | mk res dfin =>
              rw [hw] at hspec
              cases res with
              | threw m => exact trivial
              | ok L =>
                obtain ⟨hsf, chain', hL, hne, hclen, hlast⟩ := hspec
                refine ⟨hsf, (t, s) :: chain', by rw [hL]; simp, by simp, ?_, ?_⟩
                · simp only [List.length_cons, hclen, List.length_drop]
                  rw [show rest.length + 253 = (rest.length - 254 + 253) + 254 from by omega,
                    Nat.add_div_right _ (by omega)]
                · intro tl sl hgl
                  obtain ⟨c, cs, rfl⟩ : ∃ c cs, chain' = c :: cs := by
                    cases chain' with
                    | nil => exact absurd rfl hne
                    | cons c cs => exact ⟨c, cs, rfl⟩
                  rw [List.getLast?_cons_cons] at hgl
                  have hc := hlast tl sl hgl
                  have hu : (rest.drop 254).length - 254 * ((c :: cs).length - 1)
                      = rest.length - 254 * (((t, s) :: c :: cs).length - 1) := by
                    simp only [List.length_drop, List.length_cons]
                    omega
                  refine ⟨hc.1, by rw [← hu]; exact hc.2.1, ?_⟩
                  intro k hk1 hk2
                  exact hc.2.2 k (hu.trans_le hk1) hk2

/-- Claim C5 (terminal sector of a payload write).  When the chain write of
`add_file` succeeds, the chain holds ceil(|P|/254) sectors, the terminal
sector's link header is `(0, used + 1)` for the `used` payload bytes placed
in it, and the unused payload tail (bytes `2 + used` to 255) is zero-filled.
In particular a 254-byte payload occupies exactly one sector with terminal
header (0, 255), and a 255-byte payload two sectors, the second's header
being (0, 2) — instances of the formula with `used = 254` resp. `used = 1`. -/
theorem C5_terminal_sector (d : D64) (t s : Nat) (fileData : List Nat)
    (hs : secLen d) (h0 : 0 < fileData.length) :
    terminalHeaderSpec fileData.length (writeFileDataToSectors d t s fileData) := by
  have h := writeChain_spec fileData.length d t s fileData [] h0 hs
  unfold writeFileDataToSectors terminalHeaderSpec
  cases hw : writeChainLoop fileData.length d t s fileData [] with
  | mk res dfin =>
    rw [hw] at h
    cases res with
    | threw m => exact trivial
    | ok L =>
      obtain ⟨hsf, chain, hL, hne, hclen, hlast⟩ := h
      simp only [List.reverse_nil, List.nil_append] at hL
      subst hL
      exact ⟨hclen, hlast⟩

theorem C5_terminal_sector_witness :
    terminalHeaderSpec (List.replicate 255 65 : List Nat).length
      (writeFileDataToSectors (freshE diskType.thirty_five_track) 17 0
        (List.replicate 255 65)) :=
  C5_terminal_sector (freshE diskType.thirty_five_track) 17 0 (List.replicate 255 65)
    (secLen_freshE diskType.thirty_five_track) (by decide)

/-- Claim C9 (directory name uniqueness).  The `addFile` of the primary API
performs no duplicate-name check (unlike the second `addFile` variant bundled
in the sources, which rejects an existing name with "File already exists"):
adding the one-byte file "A" twice to a fresh 35-track disk is accepted both
times and leaves two live directory entries in sector (18,1) whose trimmed
names are equal, violating the claimed uniqueness invariant. -/
theorem C9_add_file_duplicate :
    (addFile (freshE diskType.thirty_five_track) [65] 0x82 [65] 0 10).1 = .ok true ∧
    (addFile (addFile (freshE diskType.thirty_five_track) [65] 0x82 [65] 0 10).2
        [65] 0x82 [65] 0 10).1 = .ok true ∧
    entryClosed (addFile (addFile (freshE diskType.thirty_five_track) [65] 0x82 [65] 0 10).2
        [65] 0x82 [65] 0 10).2 18 1 0 = true ∧
    entryClosed (addFile (addFile (freshE diskType.thirty_five_track) [65] 0x82 [65] 0 10).2
        [65] 0x82 [65] 0 10).2 18 1 1 = true ∧
    Trim (entryNameBytes (addFile (addFile (freshE diskType.thirty_five_track) [65] 0x82 [65] 0 10).2
        [65] 0x82 [65] 0 10).2 18 1 0) =
      Trim (entryNameBytes (addFile (addFile (freshE diskType.thirty_five_track) [65] 0x82 [65] 0 10).2
        [65] 0x82 [65] 0 10).2 18 1 1) := by
  decide

theorem foldl_add_eq_sum (f : Nat → Nat) : ∀ (l : List Nat) (a : Nat),
    l.foldl (fun acc x => acc + f x) a = a + (l.map f).sum := by
  intro l
  induction l with
  | nil => intro a; simp
  | cons x xs ih =>
    intro a
    rw [List.foldl_cons, ih, List.map_cons, List.sum_cons]
    omega

theorem sum_map_eq_add_of_single (f g : Nat → Nat) :
    ∀ (l : List Nat), l.Nodup → ∀ i ∈ l, (∀ j ∈ l, j ≠ i → f j = g j) →
    (l.map f).sum + g i = (l.map g).sum + f i := by
  intro l
  induction l with
  | nil =>
    intro _ i hmem
    exact absurd hmem (List.not_mem_nil i)
  | cons a xs ih =>
    intro hnd i hmem hagree
    rw [List.nodup_cons] at hnd
    rw [List.mem_cons] at hmem
    rcases hmem with rfl | hmem
    · have hcong : xs.map f = xs.map g := by
        apply List.map_congr_left
        intro j hj
        exact hagree j (List.mem_cons_of_mem _ hj) (fun hji => hnd.1 (hji ▸ hj))
      simp only [List.map_cons, List.sum_cons, hcong]
      omega
    · have hane : a ≠ i := fun hai => hnd.1 (hai ▸ hmem)
      have hfa : f a = g a := hagree a (List.mem_cons_self a xs) hane
      have := ih hnd.2 i hmem (fun j hj hji => hagree j (List.mem_cons_of_mem _ hj) hji)
      simp only [List.map_cons, List.sum_cons, hfa]
      omega

theorem countP_and_ne (p : Nat → Bool) (s : Nat) :
    ∀ (l : List Nat), l.Nodup → s ∈ l → p s = true →
    l.countP (fun x => p x && decide (x ≠ s)) = l.countP p - 1 := by
  intro l
  induction l with
  | nil =>
    intro _ hmem
    exact absurd hmem (List.not_mem_nil s)
  | cons a xs ih =>
    intro hnd hmem hp
    rw [List.nodup_cons] at hnd
    rw [List.mem_cons] at hmem
    rcases hmem with rfl | hmem
    · rw [List.countP_cons, List.countP_cons]
      have h1 : (p s && decide (s ≠ s)) = false := by simp
      have h2 : p s = true := hp
      rw [h1, h2]
      have hcong : xs.countP (fun x => p x && decide (x ≠ s)) = xs.countP p := by
        apply List.countP_congr
        intro x hx
        have : x ≠ s := fun hxa => hnd.1 (hxa ▸ hx)
        simp [this]
      rw [hcong]
      simp
    · have hane : a ≠ s := fun hai => hnd.1 (hai ▸ hmem)
      have hpos : 0 < xs.countP p := by
        rw [List.countP_pos]
        exact ⟨s, hmem, hp⟩
      rw [List.countP_cons, List.countP_cons, ih hnd.2 hmem hp]
      have : (p a && decide (a ≠ s)) = p a := by simp [hane]
      rw [this]
      cases p a <;> simp <;> omega

theorem TRACKS_specAllocEffect (d : D64) (t s : Nat) :
    TRACKS (specAllocEffect d t s) = TRACKS d := rfl

theorem len180_specAllocEffect {d : D64} (hL : len180 d) (t s : Nat) :
    len180 (specAllocEffect d t s) := by
  show len180 (bamSetFree (bamReset d (t - 1) s) (t - 1)
    (bamFree (bamReset d (t - 1) s) (t - 1) + 255))
  exact len180_bamSetFree (len180_bamReset hL _ _) _ _

theorem bamFree_specAllocEffect {d : D64} (hL : len180 d) {t s : Nat}
    (h0 : t - 1 < 40) (hs24 : s < 24) {t0 : Nat} (ht0 : t0 < 40) :
    bamFree (specAllocEffect d t s) t0 =
      if t0 = t - 1 then (bamFree d (t - 1) + 255) % 256 else bamFree d t0 := by
  show bamFree (bamSetFree (bamReset d (t - 1) s) (t - 1)
    (bamFree (bamReset d (t - 1) s) (t - 1) + 255)) t0 = _
  rw [bamFree_bamSetFree (len180_bamReset hL _ _) ht0 h0]
  split
  · rw [bamFree_bamReset h0 h0 hs24]
  · rw [bamFree_bamReset ht0 h0 hs24]

theorem bamTest_specAllocEffect {d : D64} (hL : len180 d) {t s : Nat}
    (h0 : t - 1 < 40) (hs24 : s < 24) {t0 s0 : Nat} (ht0 : t0 < 40) (hs0 : s0 < 24) :
    bamTest (specAllocEffect d t s) t0 s0 =
      (bamTest d t0 s0 && decide (¬ (t0 = t - 1 ∧ s0 = s))) := by
  show bamTest (bamSetFree (bamReset d (t - 1) s) (t - 1)
    (bamFree (bamReset d (t - 1) s) (t - 1) + 255)) t0 s0 = _
  rw [bamTest_bamSetFree ht0 h0 hs0, bamTest_bamReset hL ht0 h0 hs0 hs24]

theorem specScanTrack_some {d : D64} {t s : Nat} (h1 : 1 ≤ t) (h2 : t ≤ 40)
    (hs : specScanTrack d t = some s) :
    bamTest d (t - 1) s = true ∧ s < sptrack t := by
  unfold specScanTrack at hs
  dsimp only at hs
  rw [Option.map_eq_some'] at hs
  obtain ⟨i, hfind, hsi⟩ := hs
  have hn := sptrack_pos h1 h2
  constructor
  · rw [← hsi]
    simpa using List.find?_some hfind
  · rw [← hsi]
    exact Nat.mod_lt _ (by omega)

theorem specScanTrack_none_countFree {d : D64} {t : Nat} (h1 : 1 ≤ t) (h2 : t ≤ 40)
    (hs : specScanTrack d t = none) : countFree d t = 0 := by
  unfold specScanTrack at hs
  dsimp only at hs
  rw [Option.map_eq_none'] at hs
  rw [List.find?_eq_none] at hs
  unfold countFree
  rw [List.countP_eq_zero]
  intro s0 hs0mem
  rw [List.mem_range] at hs0mem
  have hnpos : 0 < sptrack t := by have := sptrack_pos h1 h2; omega
  intro hp
  have hrlt : (d.lastSectorUsed.getD (t - 1) 0 + 10) % sptrack t % sptrack t < sptrack t :=
    Nat.mod_lt _ hnpos
  have hi : (sptrack t - (d.lastSectorUsed.getD (t - 1) 0 + 10) % sptrack t % sptrack t + s0)
      % sptrack t ∈ List.range (sptrack t) := List.mem_range.2 (Nat.mod_lt _ hnpos)
  have hnone := hs _ hi
  apply hnone
  have hidx : ((d.lastSectorUsed.getD (t - 1) 0 + 10) % sptrack t +
      (sptrack t - (d.lastSectorUsed.getD (t - 1) 0 + 10) % sptrack t % sptrack t + s0)
        % sptrack t) % sptrack t = s0 := by
    rw [Nat.add_mod_mod, Nat.mod_add_mod]
    rw [show (d.lastSectorUsed.getD (t - 1) 0 + 10) +
        (sptrack t - (d.lastSectorUsed.getD (t - 1) 0 + 10) % sptrack t % sptrack t + s0)
        = ((d.lastSectorUsed.getD (t - 1) 0 + 10) -
            (d.lastSectorUsed.getD (t - 1) 0 + 10) % sptrack t) + (sptrack t + s0) from by
      have hle : (d.lastSectorUsed.getD (t - 1) 0 + 10) % sptrack t ≤
          d.lastSectorUsed.getD (t - 1) 0 + 10 := Nat.mod_le _ _
      have := Nat.mod_mod_of_dvd ((d.lastSectorUsed.getD (t - 1) 0 + 10)) (dvd_refl (sptrack t))
      omega]
    rw [Nat.add_mod, Nat.sub_mod_eq_zero_of_mod_eq (by rw [Nat.mod_mod]),
      Nat.zero_add, Nat.mod_mod, Nat.add_mod_left]
    exact Nat.mod_eq_of_lt hs0mem
  rw [hidx]
  exact hp

theorem countFree_specAllocEffect_ne {d : D64} (hL : len180 d) {t s : Nat}
    (ht1 : 1 ≤ t) (h0 : t - 1 < 40) (hs24 : s < 24) {t' : Nat} (ht'1 : 1 ≤ t')
    (ht'40 : t' ≤ 40) (hne : t' ≠ t) :
    countFree (specAllocEffect d t s) t' = countFree d t' := by
  unfold countFree
  apply List.countP_congr
  intro s0 hs0
  rw [List.mem_range] at hs0
  have hs0' : s0 < 24 := by have := sptrack_le t'; omega
  rw [bamTest_specAllocEffect hL h0 hs24 (by omega) hs0']
  have : ¬ (t' - 1 = t - 1 ∧ s0 = s) := fun h => hne (by omega)
  simp [this]

theorem countFree_specAllocEffect_eq {d : D64} (hL : len180 d) {t s : Nat}
    (ht1 : 1 ≤ t) (h0 : t - 1 < 40) (hslt : s < sptrack t)
    (hbt : bamTest d (t - 1) s = true) :
    countFree (specAllocEffect d t s) t = countFree d t - 1 := by
  have hs24 : s < 24 := by have := sptrack_le t; omega
  unfold countFree
  have hcong : (List.range (sptrack t)).countP
      (fun s0 => bamTest (specAllocEffect d t s) (t - 1) s0) =
      (List.range (sptrack t)).countP
      (fun s0 => bamTest d (t - 1) s0 && decide (s0 ≠ s)) := by
    apply List.countP_congr
    intro s0 hs0
    rw [List.mem_range] at hs0
    have hs0' : s0 < 24 := by have := sptrack_le t; omega
    rw [bamTest_specAllocEffect hL h0 hs24 h0 hs0']
    by_cases hss : s0 = s
    · simp [hss]
    · simp [hss]
  rw [hcong]
  exact countP_and_ne _ s _ (List.nodup_range _) (List.mem_range.2 hslt) hbt

theorem countFree_le (d : D64) (t : Nat) : countFree d t ≤ 21 := by
  unfold countFree
  calc (List.range (sptrack t)).countP (fun s => bamTest d (t - 1) s)
      ≤ (List.range (sptrack t)).length := List.countP_le_length _
    _ = sptrack t := List.length_range _
    _ ≤ 21 := sptrack_le t

theorem specAllocEffect_preserves {d : D64} (hC : bamConsistent d) (hL : len180 d)
    {t s : Nat} (ht1 : 1 ≤ t) (ht2 : t ≤ TRACKS d) (hslt : s < sptrack t)
    (hbt : bamTest d (t - 1) s = true) :
    bamConsistent (specAllocEffect d t s) ∧ len180 (specAllocEffect d t s) ∧
    totalFree (specAllocEffect d t s) + 1 = totalFree d := by
  have h40 := TRACKS_le d
  have h0 : t - 1 < 40 := by omega
  have hs24 : s < 24 := by have := sptrack_le t; omega
  have hcf1 : 1 ≤ countFree d t := by
    rw [Nat.one_le_iff_ne_zero, ← Nat.pos_iff_ne_zero]
    unfold countFree
    rw [List.countP_pos]
    exact ⟨s, List.mem_range.2 hslt, by simpa using hbt⟩
  have hfree_t : bamFree d (t - 1) = countFree d t := hC.1 t ht1 ht2
  refine ⟨⟨?_, ?_, ?_⟩, len180_specAllocEffect hL t s, ?_⟩
  · intro track htr1 htr2
    rw [TRACKS_specAllocEffect] at htr2
    have htr0 : track - 1 < 40 := by omega
    by_cases htt : track = t
    · subst htt
      rw [bamFree_specAllocEffect hL h0 hs24 htr0, if_pos rfl,
        countFree_specAllocEffect_eq hL htr1 h0 hslt hbt, hfree_t]
      have := countFree_le d track
      omega
    · rw [bamFree_specAllocEffect hL h0 hs24 htr0,
        if_neg (by omega),
        countFree_specAllocEffect_ne hL ht1 h0 hs24 htr1 (by omega) htt]
      exact hC.1 track htr1 htr2
  · rw [bamTest_specAllocEffect hL h0 hs24 (by omega) (by omega), hC.2.1]
    simp
  · rw [bamTest_specAllocEffect hL h0 hs24 (by omega) (by omega), hC.2.2]
    simp
  · unfold totalFree
    rw [TRACKS_specAllocEffect]
    rw [foldl_add_eq_sum, foldl_add_eq_sum, Nat.zero_add, Nat.zero_add]
    have hmem : t - 1 ∈ List.range (TRACKS d) := List.mem_range.2 (by omega)
    have hkey := sum_map_eq_add_of_single (bamFree d) (bamFree (specAllocEffect d t s))
      (List.range (TRACKS d)) (List.nodup_range _) (t - 1) hmem
      (fun j hj hji => by
        rw [List.mem_range] at hj
        rw [bamFree_specAllocEffect hL h0 hs24 (by omega), if_neg hji])
    have hdec : bamFree (specAllocEffect d t s) (t - 1) + 1 = bamFree d (t - 1) := by
      rw [bamFree_specAllocEffect hL h0 hs24 h0, if_pos rfl, hfree_t]
      have := countFree_le d t
      omega
    omega

theorem findAlloc_step {d : D64} (hC : bamConsistent d) :
    (∃ t s, findAndAllocateFreeSector d = (.ok (some (t, s)), specAllocEffect d t s) ∧
       bamTest d (t - 1) s = true ∧ 1 ≤ t ∧ t ≤ TRACKS d ∧ s < sptrack t) ∨
    (findAndAllocateFreeSector d = (.ok none, d) ∧ totalFree d = 0) := by
  have h := faLoop_spec d TRACK_40_SEARCH_ORDER hC.1 (by decide)
  unfold findAndAllocateFreeSector
  rw [h]
  cases hfs : (TRACK_40_SEARCH_ORDER.filter (fun t => t ≤ TRACKS d)).findSome?
      (fun t => (specScanTrack d t).map (fun s => (t, s))) with
  | some p =>
    obtain ⟨t, s⟩ := p
    left
    obtain ⟨t', ht'mem, hf⟩ := List.exists_of_findSome?_eq_some hfs
    rw [Option.map_eq_some'] at hf
    obtain ⟨s', hscan, heq⟩ := hf
    injection heq with h1 h2
    subst h1
    subst h2
    have hmem := List.mem_filter.1 ht'mem
    have ht40 : t' ≤ TRACKS d := by simpa using hmem.2
    have ht1 : 1 ≤ t' := by
      have hall : ∀ x ∈ TRACK_40_SEARCH_ORDER, 1 ≤ x := by decide
      exact hall t' hmem.1
    have hsp := specScanTrack_some ht1 (le_trans ht40 (TRACKS_le d)) hscan
    exact ⟨t', s', rfl, hsp.1, ht1, ht40, hsp.2⟩
  | none =>
    right
    refine ⟨rfl, ?_⟩
    rw [List.findSome?_eq_none] at hfs
    have hall : ∀ t, 1 ≤ t → t ≤ TRACKS d → countFree d t = 0 := by
      intro t h1 h2
      have hmem : t ∈ TRACK_40_SEARCH_ORDER.filter (fun t => t ≤ TRACKS d) := by
        rw [List.mem_filter]
        refine ⟨?_, by simpa using h2⟩
        have hmem40 : ∀ x, 1 ≤ x → x ≤ 40 → x ∈ TRACK_40_SEARCH_ORDER := by decide
        exact hmem40 t h1 (le_trans h2 (TRACKS_le d))
      have := hfs t hmem
      rw [Option.map_eq_none'] at this
      exact specScanTrack_none_countFree h1 (le_trans h2 (TRACKS_le d)) this
    unfold totalFree
    rw [foldl_add_eq_sum, Nat.zero_add]
    apply List.sum_eq_zero
    intro x hx
    rw [List.mem_map] at hx
    obtain ⟨t0, hmem, rfl⟩ := hx
    rw [List.mem_range] at hmem
    have h1 : 1 ≤ t0 + 1 := by omega
    have h2 : t0 + 1 ≤ TRACKS d := by omega
    have hb := hC.1 (t0 + 1) h1 h2
    have hc := hall (t0 + 1) h1 h2
    simpa using hb.trans hc

theorem allocLoop_succ_none {d d1 : D64} {fuel : Nat}
    (hal : findAndAllocateFreeSector d = (.ok none, d1)) :
    allocLoop d (fuel + 1) = ([], d1) := by
  conv_lhs => rw [allocLoop]
  rw [hal]

theorem allocLoop_succ_some {d d1 : D64} {ts : Nat × Nat} {fuel : Nat}
    (hal : findAndAllocateFreeSector d = (.ok (some ts), d1)) :
    allocLoop d (fuel + 1) = (ts :: (allocLoop d1 fuel).1, (allocLoop d1 fuel).2) := by
  conv_lhs => rw [allocLoop]
  rw [hal]

theorem allocLoop_spec : ∀ (fuel : Nat) (d : D64), bamConsistent d → len180 d →
    totalFree d ≤ fuel →
    (allocLoop d fuel).1.length = totalFree d ∧
    (allocLoop d fuel).1.Nodup ∧
    (∀ p ∈ (allocLoop d fuel).1,
       bamTest d (p.1 - 1) p.2 = true ∧ 1 ≤ p.1 ∧ p.1 ≤ TRACKS d ∧ p.2 < sptrack p.1) ∧
    bamConsistent (allocLoop d fuel).2 ∧ len180 (allocLoop d fuel).2 ∧
    totalFree (allocLoop d fuel).2 = 0 ∧
    TRACKS (allocLoop d fuel).2 = TRACKS d := by
  intro fuel
  induction fuel with
  | zero =>
    intro d hC hL hle
    exact ⟨by show (0 : Nat) = totalFree d; omega, List.nodup_nil, by simp [allocLoop], hC, hL,
      by show totalFree d = 0; omega, rfl⟩
  | succ fuel ih =>
    intro d hC hL hle
    rcases findAlloc_step hC with ⟨t, s, hal, hbt, ht1, ht2, hslt⟩ | ⟨hnone, htot⟩
    · have h40 := TRACKS_le d
      have h0 : t - 1 < 40 := by omega
      have hs24 : s < 24 := by have := sptrack_le t; omega
      have hprev := specAllocEffect_preserves hC hL ht1 ht2 hslt hbt
      have hfuel2 : totalFree (specAllocEffect d t s) ≤ fuel := by omega
      have ih2 := ih (specAllocEffect d t s) hprev.1 hprev.2.1 hfuel2
      rw [allocLoop_succ_some hal]
      refine ⟨?_, ?_, ?_, ih2.2.2.2.1, ih2.2.2.2.2.1, ih2.2.2.2.2.2.1, ?_⟩
      · show (allocLoop (specAllocEffect d t s) fuel).1.length + 1 = totalFree d
        rw [ih2.1]
        omega
      · rw [List.nodup_cons]
        refine ⟨fun hmem => ?_, ih2.2.1⟩
        have hbit := (ih2.2.2.1 (t, s) hmem).1
        rw [bamTest_specAllocEffect hL h0 hs24 h0 hs24] at hbit
        · simp at hbit
      · intro p hp
        rw [List.mem_cons] at hp
        rcases hp with rfl | hp
        · exact ⟨hbt, ht1, ht2, hslt⟩
        · obtain ⟨hbit, hp1, hp2, hp3⟩ := ih2.2.2.1 p hp
          rw [TRACKS_specAllocEffect] at hp2
          have hp0 : p.1 - 1 < 40 := by omega
          have hp24 : p.2 < 24 := by have := sptrack_le p.1; omega
          rw [bamTest_specAllocEffect hL h0 hs24 hp0 hp24] at hbit
          rw [Bool.and_eq_true] at hbit
          exact ⟨hbit.1, hp1, hp2, hp3⟩
      · rw [ih2.2.2.2.2.2.2, TRACKS_specAllocEffect]
    · rw [allocLoop_succ_none hnone]
      exact ⟨by show (0 : Nat) = totalFree d; omega, List.nodup_nil, by simp, hC, hL,
        by show totalFree d = 0; omega, rfl⟩ 

theorem totalFree_eq_getFSC_add (d : D64) (h18 : 18 ≤ TRACKS d) :
    totalFree d = getFreeSectorCount d + bamFree d 17 := by
  unfold totalFree getFreeSectorCount
  have hbody : (fun acc t0 => if t0 + 1 = DIRECTORY_TRACK then acc else acc + bamFree d t0)
      = (fun (acc : Nat) t0 => acc + (if t0 = 17 then 0 else bamFree d t0)) := by
    funext acc t0
    by_cases h : t0 = 17
    · subst h
      simp [DIRECTORY_TRACK]
    · have hne : ¬ (t0 + 1 = DIRECTORY_TRACK) := by unfold DIRECTORY_TRACK; omega
      simp [hne, h]
  rw [hbody, foldl_add_eq_sum, foldl_add_eq_sum, Nat.zero_add, Nat.zero_add]
  have hkey := sum_map_eq_add_of_single (bamFree d)
    (fun t0 => if t0 = 17 then 0 else bamFree d t0)
    (List.range (TRACKS d)) (List.nodup_range _) 17 (List.mem_range.2 (by omega))
    (fun j hj hji => by
      show bamFree d j = if j = 17 then 0 else bamFree d j
      rw [if_neg hji])
  have hg17 : (fun t0 => if t0 = 17 then 0 else bamFree d t0) 17 = 0 := by
    show (if 17 = 17 then 0 else bamFree d 17) = 0
    rw [if_pos rfl]
  rw [hg17] at hkey
  omega

theorem bamFree_le_totalFree (d : D64) {t0 : Nat} (h : t0 < TRACKS d) :
    bamFree d t0 ≤ totalFree d := by
  unfold totalFree
  rw [foldl_add_eq_sum, Nat.zero_add]
  exact List.single_le_sum (fun x _ => Nat.zero_le x) _
    (List.mem_map_of_mem _ (List.mem_range.2 h))

/-- Claim C3 (allocation until exhaustion), amended count.  From a freshly
formatted image, repeatedly calling `findAndAllocateFreeSector` until it
fails returns pairwise-distinct (track, sector) pairs and keeps every
track's BAM free byte equal to its bitmap's free-bit count after every step;
but the number of successful calls equals the TOTAL of the per-track free
counts — `getFreeSectorCount() + bamFree(track 18)` — not the claim's
`getFreeSectorCount()`, because the allocator also serves the directory
track 18 while `getFreeSectorCount` skips it.  The final call fails with
the image exhausted. -/
theorem C3_exhaustion (dt : diskType) :
    (allocLoop (init_disk dt) (totalFree (init_disk dt) + 1)).1.length
        = totalFree (init_disk dt) ∧
    totalFree (init_disk dt)
        = getFreeSectorCount (init_disk dt) + bamFree (init_disk dt) 17 ∧
    (allocLoop (init_disk dt) (totalFree (init_disk dt) + 1)).1.Nodup ∧
    bamConsistent (allocLoop (init_disk dt) (totalFree (init_disk dt) + 1)).2 ∧
    (findAndAllocateFreeSector
        (allocLoop (init_disk dt) (totalFree (init_disk dt) + 1)).2).1 = .ok none := by
  have hC0 : bamConsistent (init_disk dt) := by
    rw [fresh_eq_freshE]
    cases dt <;> decide
  have hL0 : len180 (init_disk dt) := by
    rw [fresh_eq_freshE]
    cases dt <;> decide
  have h := allocLoop_spec (totalFree (init_disk dt) + 1) (init_disk dt) hC0 hL0 (by omega)
  refine ⟨h.1, ?_, h.2.1, h.2.2.2.1, ?_⟩
  · apply totalFree_eq_getFSC_add
    have := TRACKS_pos (init_disk dt)
    omega
  · rcases findAlloc_step h.2.2.2.1 with ⟨t, s, hal, hbt, ht1, ht2, hslt⟩ | ⟨hnone, _⟩
    · exfalso
      have hcf : 1 ≤ countFree (allocLoop (init_disk dt) (totalFree (init_disk dt) + 1)).2 t := by
        rw [Nat.one_le_iff_ne_zero, ← Nat.pos_iff_ne_zero]
        unfold countFree
        rw [List.countP_pos]
        exact ⟨s, List.mem_range.2 hslt, by simpa using hbt⟩
      have hbf := h.2.2.2.1.1 t ht1 ht2
      have hle := @bamFree_le_totalFree
        (allocLoop (init_disk dt) (totalFree (init_disk dt) + 1)).2 (t - 1) (by omega)
      have h0 := h.2.2.2.2.2.1
      omega
    · rw [hnone]

/-- Counterexample to the count of claim C3: on a fresh 35-track image the
exhaustion run makes 681 successful allocations (the 664 sectors counted by
`getFreeSectorCount` plus the 17 free sectors of the skipped directory
track 18), so the success count differs from `free_sector_count()`. -/
theorem C3_count_mismatch :
    (allocLoop (init_disk diskType.thirty_five_track)
        (totalFree (init_disk diskType.thirty_five_track) + 1)).1.length = 681 ∧
    getFreeSectorCount (init_disk diskType.thirty_five_track) = 664 ∧
    (allocLoop (init_disk diskType.thirty_five_track)
        (totalFree (init_disk diskType.thirty_five_track) + 1)).1.length ≠
      getFreeSectorCount (init_disk diskType.thirty_five_track) := by
  have h35 := fresh_eq_freshE diskType.thirty_five_track
  have hC0 : bamConsistent (init_disk diskType.thirty_five_track) := by rw [h35]; decide
  have hL0 : len180 (init_disk diskType.thirty_five_track) := by rw [h35]; decide
  have h := allocLoop_spec (totalFree (init_disk diskType.thirty_five_track) + 1)
    (init_disk diskType.thirty_five_track) hC0 hL0 (by omega)
  have htf : totalFree (init_disk diskType.thirty_five_track) = 681 := by rw [h35]; decide
  have hg : getFreeSectorCount (init_disk diskType.thirty_five_track) = 664 := by
    rw [h35]
    decide
  refine ⟨by rw [h.1, htf], hg, ?_⟩
  rw [h.1, htf, hg]
  omega

theorem slice_eq_of_getD (l : List Nat) (i n : Nat) (f : Nat → Nat) (hlen : i + n ≤ l.length)
    (h : ∀ k, k < n → l.getD (i + k) 0 = f k) :
    (l.drop i).take n = (List.range n).map f := by
  apply List.ext_getElem
  · simp only [List.length_take, List.length_drop, List.length_map, List.length_range]
    omega
  · intro k hk1 hk2
    simp only [List.length_take, List.length_drop] at hk1
    have hkn : k < n := by omega
    have hgd := h k hkn
    rw [List.getD_eq_getElem?_getD] at hgd
    rw [List.getElem_take, List.getElem_drop]
    simp only [List.getElem_map, List.getElem_range]
    have : l[i + k]? = some l[i + k] := List.getElem?_eq_getElem (by omega)
    rw [this] at hgd
    simpa using hgd

theorem padName_length (name : List Nat) (sz : Nat) : (padName name sz).length = sz := by
  unfold padName
  simp only [List.length_append, List.length_take, List.length_replicate]
  omega

theorem findFileName_pad (name : List Nat) (m : Nat) (h : ∀ b ∈ name, b ≠ A0_VALUE) :
    findFileName (name ++ List.replicate m A0_VALUE) = name := by
  unfold findFileName
  induction name with
  | nil =>
    cases m with
    | zero => rfl
    | succ m =>
      show List.takeWhile _ (A0_VALUE :: List.replicate m A0_VALUE) = []
      rw [List.takeWhile_cons_of_neg (by simp)]
  | cons b bs ih =>
    have hb : b ≠ A0_VALUE := h b (List.mem_cons_self b bs)
    show List.takeWhile _ (b :: (bs ++ List.replicate m A0_VALUE)) = b :: bs
    rw [List.takeWhile_cons_of_pos (by simpa using hb)]
    rw [ih (fun x hx => h x (List.mem_cons_of_mem _ hx))]

theorem findFileName_padName (name : List Nat) (hlen : name.length ≤ FILE_NAME_SZ)
    (h : ∀ b ∈ name, b ≠ A0_VALUE) :
    findFileName (padName name FILE_NAME_SZ) = name := by
  unfold padName
  rw [List.take_of_length_le hlen]
  exact findFileName_pad name _ h

theorem spliceBytes_zero2 (l : List Nat) (a b : Nat) (hl : 2 ≤ l.length) :
    spliceBytes l 0 [a, b] = [a % 256, b % 256] ++ l.drop 2 := by
  unfold spliceBytes
  rw [if_neg (by omega)]
  simp only [List.take_zero, List.nil_append, Nat.zero_add]
  congr 1
  rw [List.take_of_length_le (by simp; omega)]
  rfl

theorem spliceBytes_at2_full (l data : List Nat) (hl : l.length = 256) (hd : data.length = 254) :
    spliceBytes l 2 data = l.take 2 ++ data.map (· % 256) := by
  unfold spliceBytes
  rw [if_neg (by omega)]
  rw [List.take_of_length_le (show data.length ≤ l.length - 2 by omega)]
  rw [List.drop_eq_nil_of_le (show l.length ≤ 2 + data.length by omega), List.append_nil]

theorem sectors_setBytes_self (d : D64) (t s i : Nat) (vs : List Nat) :
    (setBytes d t s i vs).sectors (t, s) = spliceBytes (d.sectors (t, s)) i vs := by
  unfold setBytes
  rw [sectors_setSectorRaw, if_pos rfl]

theorem sector_write_nonterminal (d : D64) (t s nt ns : Nat) (rest : List Nat)
    (hlen : (d.sectors (t, s)).length = 256) (hgt : 254 < rest.length) :
    (writeDataToSector (setBytes d t s 0 [nt, ns]) t s rest).sectors (t, s) =
      [nt % 256, ns % 256] ++ (rest.take 254).map (· % 256) := by
  unfold writeDataToSector
  dsimp only
  rw [if_neg (by omega)]
  rw [sectors_setBytes_self, sectors_setBytes_self]
  have hmin : min 254 rest.length = 254 := Nat.min_eq_left (by omega)
  rw [hmin, Nat.sub_self, List.replicate_zero, List.append_nil]
  have h1 : spliceBytes (d.sectors (t, s)) 0 [nt, ns]
      = [nt % 256, ns % 256] ++ (d.sectors (t, s)).drop 2 :=
    spliceBytes_zero2 _ _ _ (by omega)
  have hlen1 : (spliceBytes (d.sectors (t, s)) 0 [nt, ns]).length = 256 := by
    rw [length_spliceBytes, hlen]
  have h2 : spliceBytes (spliceBytes (d.sectors (t, s)) 0 [nt, ns]) 2 (rest.take 254)
      = (spliceBytes (d.sectors (t, s)) 0 [nt, ns]).take 2 ++ (rest.take 254).map (· % 256) :=
    spliceBytes_at2_full _ _ hlen1 (by simp only [List.length_take]; omega)
  rw [h2, h1]
  rfl

theorem sector_write_terminal (d : D64) (t s : Nat) (rest : List Nat)
    (hlen : (d.sectors (t, s)).length = 256) (h0 : 0 < rest.length)
    (hle : rest.length ≤ 254) :
    (writeDataToSector (setBytes d t s 0 [0, rest.length + 1]) t s rest).sectors (t, s) =
      [0, (rest.length + 1) % 256] ++
        ((rest.take 254 ++ List.replicate (254 - rest.length) 0).map (· % 256)) := by
  unfold writeDataToSector
  dsimp only
  rw [if_pos hle]
  rw [sectors_setBytes_self, sectors_setBytes_self, sectors_setBytes_self]
  have hmin : min 254 rest.length = rest.length := Nat.min_eq_right hle
  rw [hmin]
  have h1 : spliceBytes (d.sectors (t, s)) 0 [0, rest.length + 1]
      = [0 % 256, (rest.length + 1) % 256] ++ (d.sectors (t, s)).drop 2 :=
    spliceBytes_zero2 _ _ _ (by omega)
  have hlen1 : (spliceBytes (d.sectors (t, s)) 0 [0, rest.length + 1]).length = 256 := by
    rw [length_spliceBytes, hlen]
  have hdata : (rest.take 254 ++ List.replicate (254 - rest.length) 0).length = 254 := by
    simp only [List.length_append, List.length_take, List.length_replicate]
    omega
  have h2 : spliceBytes (spliceBytes (d.sectors (t, s)) 0 [0, rest.length + 1]) 2
        (rest.take 254 ++ List.replicate (254 - rest.length) 0)
      = (spliceBytes (d.sectors (t, s)) 0 [0, rest.length + 1]).take 2 ++
        (rest.take 254 ++ List.replicate (254 - rest.length) 0).map (· % 256) :=
    spliceBytes_at2_full _ _ hlen1 hdata
  have hlen2 : (spliceBytes (spliceBytes (d.sectors (t, s)) 0 [0, rest.length + 1]) 2
      (rest.take 254 ++ List.replicate (254 - rest.length) 0)).length = 256 := by
    rw [length_spliceBytes, hlen1]
  have h3 := spliceBytes_zero2 (spliceBytes (spliceBytes (d.sectors (t, s)) 0
      [0, rest.length + 1]) 2 (rest.take 254 ++ List.replicate (254 - rest.length) 0))
    0 (rest.length + 1) (by omega)
  rw [h3, h2, h1]
  rfl

theorem bamFree_of_BAM_eq {d d' : D64}
    (hsec : d'.sectors (DIRECTORY_TRACK, BAM_SECTOR) = d.sectors (DIRECTORY_TRACK, BAM_SECTOR))
    (t0 : Nat) : bamFree d' t0 = bamFree d t0 := by
  unfold bamFree getByte
  rw [hsec]

theorem bamTest_of_BAM_eq {d d' : D64}
    (hsec : d'.sectors (DIRECTORY_TRACK, BAM_SECTOR) = d.sectors (DIRECTORY_TRACK, BAM_SECTOR))
    (t0 s : Nat) : bamTest d' t0 s = bamTest d t0 s := by
  unfold bamTest bamBitByte getByte
  rw [hsec]

theorem countFree_of_BAM_eq {d d' : D64}
    (hsec : d'.sectors (DIRECTORY_TRACK, BAM_SECTOR) = d.sectors (DIRECTORY_TRACK, BAM_SECTOR))
    (t : Nat) : countFree d' t = countFree d t := by
  unfold countFree
  apply List.countP_congr
  intro s _
  rw [bamTest_of_BAM_eq hsec]

theorem bamConsistent_of_BAM_eq {d d' : D64}
    (hsec : d'.sectors (DIRECTORY_TRACK, BAM_SECTOR) = d.sectors (DIRECTORY_TRACK, BAM_SECTOR))
    (hT : TRACKS d' = TRACKS d) (h : bamConsistent d) : bamConsistent d' := by
  refine ⟨fun track h1 h2 => ?_, ?_, ?_⟩
  · rw [bamFree_of_BAM_eq hsec, countFree_of_BAM_eq hsec]
    exact h.1 track h1 (hT ▸ h2)
  · rw [bamTest_of_BAM_eq hsec]
    exact h.2.1
  · rw [bamTest_of_BAM_eq hsec]
    exact h.2.2

theorem len180_of_BAM_eq {d d' : D64}
    (hsec : d'.sectors (DIRECTORY_TRACK, BAM_SECTOR) = d.sectors (DIRECTORY_TRACK, BAM_SECTOR))
    (h : len180 d) : len180 d' := by
  unfold len180 at *
  rw [hsec]
  exact h

theorem sectors_writeDataToSector_ne {d : D64} {t s : Nat} {p : Nat × Nat} (hp : p ≠ (t, s))
    (rest : List Nat) : (writeDataToSector d t s rest).sectors p = d.sectors p := by
  unfold writeDataToSector
  dsimp only
  split
  · rw [sectors_setBytes_ne hp, sectors_setBytes_ne hp]
  · rw [sectors_setBytes_ne hp]

theorem sectors_specAllocEffect_ne {d : D64} {p : Nat × Nat}
    (hp : p ≠ (DIRECTORY_TRACK, BAM_SECTOR)) (t s : Nat) :
    (specAllocEffect d t s).sectors p = d.sectors p := by
  show (bamSetFree (bamReset d (t - 1) s) (t - 1)
    (bamFree (bamReset d (t - 1) s) (t - 1) + 255)).sectors p = d.sectors p
  rw [sectors_bamSetFree_ne hp, sectors_bamReset_ne hp]

theorem secLen_specAllocEffect {d : D64} (hs : secLen d) (t s : Nat) :
    secLen (specAllocEffect d t s) :=
  fun p => secLen_setByte (secLen_setByte hs _ _ _ _) _ _ _ _ p

theorem disktype_writeDataToSector (d : D64) (t s : Nat) (rest : List Nat) :
    (writeDataToSector d t s rest).disktype = d.disktype := by
  unfold writeDataToSector
  dsimp only
  split <;> rfl

theorem TRACKS_writeDataToSector (d : D64) (t s : Nat) (rest : List Nat) :
    TRACKS (writeDataToSector d t s rest) = TRACKS d := by
  unfold TRACKS
  rw [disktype_writeDataToSector]

theorem writeChain_full (fuel : Nat) :
    ∀ (d : D64) (t0 s0 : Nat) (rest : List Nat) (acc : List (Nat × Nat)),
    bamConsistent d → len180 d → secLen d →
    1 ≤ t0 → t0 ≤ TRACKS d → s0 < sptrack t0 →
    bamTest d (t0 - 1) s0 = false → (t0, s0) ≠ (DIRECTORY_TRACK, BAM_SECTOR) →
    (t0, s0) ≠ (DIRECTORY_TRACK, DIRECTORY_SECTOR) →
    0 < rest.length →
    (match writeChainLoop fuel d t0 s0 rest acc with
     | (.threw _, _) => True
     | (.ok L, d2) =>
       ∃ chain : List (Nat × Nat),
         L = acc.reverse ++ chain ∧
         chain.getD 0 (0, 0) = (t0, s0) ∧
         0 < chain.length ∧
         chain.length = (rest.length + 253) / 254 ∧
         bamConsistent d2 ∧ len180 d2 ∧ secLen d2 ∧ TRACKS d2 = TRACKS d ∧
         (∀ q ∈ chain, 1 ≤ q.1 ∧ q.1 ≤ TRACKS d ∧ q.2 < sptrack q.1 ∧
            q ≠ (DIRECTORY_TRACK, BAM_SECTOR) ∧ q ≠ (DIRECTORY_TRACK, DIRECTORY_SECTOR) ∧
            bamTest d2 (q.1 - 1) q.2 = false) ∧
         (∀ p : Nat × Nat, p.1 - 1 < 40 → p.2 < 24 →
            bamTest d (p.1 - 1) p.2 = false → p ≠ (DIRECTORY_TRACK, BAM_SECTOR) →
            p ≠ (t0, s0) →
            d2.sectors p = d.sectors p ∧ bamTest d2 (p.1 - 1) p.2 = false) ∧
         (∀ j, j < chain.length →
            d2.sectors (chain.getD j (0, 0)) =
              (if j + 1 = chain.length
               then [0, (rest.length - 254 * j + 1) % 256]
               else [(chain.getD (j + 1) (0, 0)).1, (chain.getD (j + 1) (0, 0)).2])
              ++ ((rest.drop (254 * j)).take 254 ++
                  List.replicate (254 - min 254 (rest.length - 254 * j)) 0).map (· % 256))) := by
  induction fuel with
  | zero =>
    intro d t0 s0 rest acc hC hL hS h1 h2 hslt hbit hne hne1 h0
    unfold writeChainLoop
    rw [if_neg (by omega)]
    exact trivial
  | succ fuel ih =>
    intro d t0 s0 rest acc hC hL hS h1 h2 hslt hbit hne hne1 h0
    have h40 := TRACKS_le d
    by_cases hterm : rest.length ≤ 254
    · rw [writeChain_terminal_eq fuel d t0 s0 rest acc h0 hterm]
      have hsec180 : (writeDataToSector (setBytes d t0 s0 0 [0, rest.length + 1]) t0 s0
          rest).sectors (DIRECTORY_TRACK, BAM_SECTOR) =
          d.sectors (DIRECTORY_TRACK, BAM_SECTOR) := by
        rw [sectors_writeDataToSector_ne (fun h => hne h.symm),
          sectors_setBytes_ne (fun h => hne h.symm)]
      have hT : TRACKS (writeDataToSector (setBytes d t0 s0 0 [0, rest.length + 1]) t0 s0 rest)
          = TRACKS d := by
        rw [TRACKS_writeDataToSector]
        rfl
      refine ⟨[(t0, s0)], by simp, rfl, by simp, ?_, bamConsistent_of_BAM_eq hsec180 hT hC,
        len180_of_BAM_eq hsec180 hL,
        secLen_writeDataToSector (secLen_setBytes hS _ _ _ _) _ _ _, hT, ?_, ?_, ?_⟩
      · show (1 : Nat) = (rest.length + 253) / 254
        omega
      · intro q hq
        rw [List.mem_singleton] at hq
        subst hq
        refine ⟨h1, h2, hslt, hne, hne1, ?_⟩
        rw [bamTest_of_BAM_eq hsec180]
        exact hbit
      · intro p hp40 hp24 hpbit hpne hpne2
        constructor
        · rw [sectors_writeDataToSector_ne hpne2, sectors_setBytes_ne hpne2]
        · rw [bamTest_of_BAM_eq hsec180]
          exact hpbit
      · intro j hj
        have hj0 : j = 0 := by
          simp only [List.length_cons, List.length_nil] at hj
          omega
        subst hj0
        have hcontent := sector_write_terminal d t0 s0 rest (hS (t0, s0)) h0 hterm
        show (writeDataToSector (setBytes d t0 s0 0 [0, rest.length + 1]) t0 s0
            rest).sectors (t0, s0) = _
        rw [hcontent]
        rw [if_pos (show (0 : Nat) + 1 = [(t0, s0)].length from rfl)]
        have e1 : rest.length - 254 * 0 = rest.length := by omega
        have e2 : rest.drop (254 * 0) = rest := by
          rw [show 254 * 0 = 0 from rfl, List.drop_zero]
        have e3 : min 254 (rest.length - 254 * 0) = rest.length := by
          rw [e1]
          exact Nat.min_eq_right hterm
        rw [e3, e2, e1]
    · rcases findAlloc_step hC with ⟨nt, ns, hal, hbt, hnt1, hnt2, hns⟩ | ⟨hnone, _⟩
      · rw [writeChain_step_some fuel d (specAllocEffect d nt ns) t0 s0 nt ns rest acc
          (by omega) hal]
        have hnt0 : nt - 1 < 40 := by omega
        have hns24 : ns < 24 := by have := sptrack_le nt; omega
        have ht00 : t0 - 1 < 40 := by omega
        have hs024 : s0 < 24 := by have := sptrack_le t0; omega
        have hnt180 : (nt, ns) ≠ (DIRECTORY_TRACK, BAM_SECTOR) := by
          have h170 : bamTest d (DIRECTORY_TRACK - 1) BAM_SECTOR = false := hC.2.1
          intro hq
          injection hq with hq1 hq2
          rw [hq1, hq2, h170] at hbt
          exact Bool.noConfusion hbt
        have hnt181 : (nt, ns) ≠ (DIRECTORY_TRACK, DIRECTORY_SECTOR) := by
          have h171 : bamTest d (DIRECTORY_TRACK - 1) DIRECTORY_SECTOR = false := hC.2.2
          intro hq
          injection hq with hq1 hq2
          rw [hq1, hq2, h171] at hbt
          exact Bool.noConfusion hbt
        have hstart_ne : (t0, s0) ≠ (nt, ns) := by
          intro hq
          injection hq with hq1 hq2
          subst hq1
          subst hq2
          rw [hbit] at hbt
          exact Bool.noConfusion hbt
        have hprev := specAllocEffect_preserves hC hL hnt1 hnt2 hns hbt
        -- the state after allocation and after writing the current sector
        have hsecmid : (writeDataToSector (setBytes (specAllocEffect d nt ns) t0 s0 0 [nt, ns])
            t0 s0 rest).sectors (DIRECTORY_TRACK, BAM_SECTOR) =
            (specAllocEffect d nt ns).sectors (DIRECTORY_TRACK, BAM_SECTOR) := by
          rw [sectors_writeDataToSector_ne (fun h => hne h.symm),
            sectors_setBytes_ne (fun h => hne h.symm)]
        have hTmid : TRACKS (writeDataToSector (setBytes (specAllocEffect d nt ns) t0 s0 0
            [nt, ns]) t0 s0 rest) = TRACKS d := by
          rw [TRACKS_writeDataToSector]
          rfl
        have hCmid := bamConsistent_of_BAM_eq hsecmid (by rw [hTmid]; rfl) hprev.1
        have hLmid := len180_of_BAM_eq hsecmid hprev.2.1
        have hSmid : secLen (writeDataToSector (setBytes (specAllocEffect d nt ns) t0 s0 0
            [nt, ns]) t0 s0 rest) :=
          secLen_writeDataToSector (secLen_setBytes (secLen_specAllocEffect hS nt ns) _ _ _ _) _ _ _
        have hbitmid : bamTest (writeDataToSector (setBytes (specAllocEffect d nt ns) t0 s0 0
            [nt, ns]) t0 s0 rest) (nt - 1) ns = false := by
          rw [bamTest_of_BAM_eq hsecmid, bamTest_specAllocEffect hL hnt0 hns24 hnt0 hns24]
          simp
        have hspec := ih (writeDataToSector (setBytes (specAllocEffect d nt ns) t0 s0 0 [nt, ns])
            t0 s0 rest) nt ns (rest.drop 254) ((t0, s0) :: acc) hCmid hLmid hSmid hnt1
          (by rw [hTmid]; exact hnt2) hns hbitmid hnt180 hnt181
          (by simp only [List.length_drop]; omega)
        cases hw : writeChainLoop fuel (writeDataToSector (setBytes (specAllocEffect d nt ns)
            t0 s0 0 [nt, ns]) t0 s0 rest) nt ns (rest.drop 254) ((t0, s0) :: acc) with
        | mk res dfin =>
          rw [hw] at hspec
          cases res with
          | threw m => exact trivial
          | ok L =>
            obtain ⟨chain', hL0, hhead, hcpos, hclen, hCfin, hLfin, hSfin, hTfin, hmemb,
              hframe, hcontent⟩ := hspec
            -- the frame applies to the start sector (t0, s0)
            have hstart_frame := hframe (t0, s0) ht00 hs024
              (by rw [bamTest_of_BAM_eq hsecmid,
                    bamTest_specAllocEffect hL hnt0 hns24 ht00 hs024, hbit]
                  simp)
              hne hstart_ne
            refine ⟨(t0, s0) :: chain', by rw [hL0]; simp, rfl, by simp, ?_, hCfin, hLfin,
              hSfin, by rw [hTfin, hTmid], ?_, ?_, ?_⟩
            · show chain'.length + 1 = (rest.length + 253) / 254
              rw [hclen]
              simp only [List.length_drop]
              rw [show rest.length + 253 = (rest.length - 254 + 253) + 254 from by omega,
                Nat.add_div_right _ (by omega)]
            · intro q hq
              rw [List.mem_cons] at hq
              rcases hq with rfl | hq
              · refine ⟨h1, h2, hslt, hne, hne1, ?_⟩
                exact hstart_frame.2
              · obtain ⟨hq1, hq2, hq3, hq4, hq4b, hq5⟩ := hmemb q hq
                rw [hTmid] at hq2
                exact ⟨hq1, hq2, hq3, hq4, hq4b, hq5⟩
            · intro p hp40 hp24 hpbit hpne hpne2
              have hpne3 : p ≠ (nt, ns) := by
                intro hq
                subst hq
                rw [hbt] at hpbit
                exact Bool.noConfusion hpbit
              have hbit1 : bamTest (specAllocEffect d nt ns) (p.1 - 1) p.2 = false := by
                rw [bamTest_specAllocEffect hL hnt0 hns24 hp40 hp24, hpbit]
                simp
              have hbitmid2 : bamTest (writeDataToSector (setBytes (specAllocEffect d nt ns)
                  t0 s0 0 [nt, ns]) t0 s0 rest) (p.1 - 1) p.2 = false := by
                rw [bamTest_of_BAM_eq hsecmid]
                exact hbit1
              have hfr := hframe p hp40 hp24 hbitmid2 hpne hpne3
              refine ⟨?_, hfr.2⟩
              rw [hfr.1, sectors_writeDataToSector_ne hpne2, sectors_setBytes_ne hpne2,
                sectors_specAllocEffect_ne hpne]
            · intro j hj
              cases j with
              | zero =>
                have hnterm : ¬ (0 + 1 = ((t0, s0) :: chain').length) := by
                  simp only [List.length_cons]
                  omega
                rw [if_neg hnterm]
                show dfin.sectors (t0, s0) = _
                rw [hstart_frame.1]
                have hw0 := sector_write_nonterminal (specAllocEffect d nt ns) t0 s0 nt ns rest
                  (secLen_specAllocEffect hS nt ns (t0, s0)) (by omega)
                rw [hw0]
                have hmod1 : nt % 256 = nt := Nat.mod_eq_of_lt (by omega)
                have hmod2 : ns % 256 = ns := Nat.mod_eq_of_lt (by omega)
                have hnext : (((t0, s0) :: chain').getD (0 + 1) (0, 0)) = (nt, ns) := by
                  show chain'.getD 0 (0, 0) = (nt, ns)
                  exact hhead
                rw [hnext, hmod1, hmod2]
                have e2 : rest.drop (254 * 0) = rest := by
                  rw [show 254 * 0 = 0 from rfl, List.drop_zero]
                have e3 : min 254 (rest.length - 254 * 0) = 254 := by
                  rw [show 254 * 0 = 0 from rfl]
                  exact Nat.min_eq_left (by omega)
                rw [e2, e3, Nat.sub_self, List.replicate_zero, List.append_nil]
              | succ j' =>
                have hj' : j' < chain'.length := by
                  simp only [List.length_cons] at hj
                  omega
                have hcj := hcontent j' hj'
                have hgd : ((t0, s0) :: chain').getD (j' + 1) (0, 0) = chain'.getD j' (0, 0) := rfl
                have hgd2 : ((t0, s0) :: chain').getD (j' + 1 + 1) (0, 0)
                    = chain'.getD (j' + 1) (0, 0) := rfl
                rw [hgd, hgd2, hcj]
                have hdd : (rest.drop 254).drop (254 * j') = rest.drop (254 * (j' + 1)) := by
                  rw [List.drop_drop]
                  congr 1
                  ring
                have hdl : (rest.drop 254).length - 254 * j' = rest.length - 254 * (j' + 1) := by
                  simp only [List.length_drop]
                  omega
                rw [hdd, hdl]
                by_cases hcnd : j' + 1 = chain'.length
                · rw [if_pos hcnd, if_pos (show j' + 1 + 1 = ((t0, s0) :: chain').length by
                    simp only [List.length_cons]; omega)]
                · rw [if_neg hcnd, if_neg (show ¬ (j' + 1 + 1 = ((t0, s0) :: chain').length) by
                    simp only [List.length_cons]; omega)]
      · rw [writeChain_step_none fuel d d t0 s0 rest acc (by omega) hnone]
        exact trivial

theorem readChain_content (d2 : D64) (chain : List (Nat × Nat)) (P : List Nat)
    (hmemb : ∀ q ∈ chain, 1 ≤ q.1 ∧ q.1 ≤ TRACKS d2 ∧ q.2 < sptrack q.1)
    (hclen : chain.length = (P.length + 253) / 254)
    (hP : 0 < P.length)
    (hcontent : ∀ j, j < chain.length →
       d2.sectors (chain.getD j (0, 0)) =
         (if j + 1 = chain.length then [0, (P.length - 254 * j + 1) % 256]
          else [(chain.getD (j + 1) (0, 0)).1, (chain.getD (j + 1) (0, 0)).2])
         ++ ((P.drop (254 * j)).take 254 ++
             List.replicate (254 - min 254 (P.length - 254 * j)) 0).map (· % 256)) :
    ∀ (m j : Nat), j + m = chain.length → ∀ (fuel : Nat), m + 2 ≤ fuel →
    ∀ acc : List Nat,
      readChain d2 (chain.getD j (0, 0)).1 (chain.getD j (0, 0)).2 fuel acc
        = .ok (acc ++ (P.drop (254 * j)).map (· % 256)) := by
  intro m
  induction m with
  | zero =>
    intro j hj fuel hfuel acc
    have hjlen : chain.length ≤ j := by omega
    have hgd : chain.getD j (0, 0) = (0, 0) := List.getD_eq_default _ _ hjlen
    have hdrop : P.drop (254 * j) = [] := by
      apply List.drop_eq_nil_of_le
      omega
    rw [hgd, hdrop]
    obtain ⟨f, rfl⟩ : ∃ f, fuel = f + 1 := ⟨fuel - 1, by omega⟩
    rw [readChain]
    rw [if_pos rfl]
    simp
  | succ m ih =>
    intro j hj fuel hfuel acc
    have hjlt : j < chain.length := by omega
    have hmemq : chain.getD j (0, 0) ∈ chain := by
      rw [List.getD_eq_getElem?_getD, List.getElem?_eq_getElem hjlt]
      exact List.getElem_mem _
    obtain ⟨hq1, hq2, hq3⟩ := hmemb _ hmemq
    have hcj := hcontent j hjlt
    obtain ⟨f, rfl⟩ : ∃ f, fuel = f + 1 := ⟨fuel - 1, by omega⟩
    rw [readChain]
    rw [if_neg (by omega)]
    rw [if_neg (by
      simp only [isValidTrackSector, not_not]
      simp only [Bool.and_eq_true, decide_eq_true_eq]
      exact ⟨⟨hq1, hq2⟩, hq3⟩)]
    have heta : (((chain.getD j (0, 0)).1, (chain.getD j (0, 0)).2) : Nat × Nat)
        = chain.getD j (0, 0) := rfl
    cases m with
    | zero =>
      -- terminal sector
      have hterm : j + 1 = chain.length := by omega
      rw [if_pos hterm] at hcj
      have hu1 : 0 < P.length - 254 * j := by omega
      have hu2 : P.length - 254 * j ≤ 254 := by omega
      have hb0 : getByte d2 (chain.getD j (0, 0)).1 (chain.getD j (0, 0)).2 0 = 0 := by
        unfold getByte
        rw [heta, hcj]
        rfl
      have hb1 : getByte d2 (chain.getD j (0, 0)).1 (chain.getD j (0, 0)).2 1
          = P.length - 254 * j + 1 := by
        unfold getByte
        rw [heta, hcj]
        show (P.length - 254 * j + 1) % 256 = P.length - 254 * j + 1
        exact Nat.mod_eq_of_lt (by omega)
      rw [hb0, hb1]
      dsimp only
      rw [if_neg (by omega)]
      have hslice : ((d2.sectors ((chain.getD j (0, 0)).1, (chain.getD j (0, 0)).2)).drop 2).take
          (P.length - 254 * j + 1 - 1) = (P.drop (254 * j)).map (· % 256) := by
        rw [heta, hcj]
        have hdrop2 : (([0, (P.length - 254 * j + 1) % 256] ++
            ((P.drop (254 * j)).take 254 ++
              List.replicate (254 - min 254 (P.length - 254 * j)) 0).map (· % 256)).drop 2)
            = ((P.drop (254 * j)).take 254 ++
              List.replicate (254 - min 254 (P.length - 254 * j)) 0).map (· % 256) := rfl
        rw [hdrop2, List.map_append]
        have htk : (P.drop (254 * j)).take 254 = P.drop (254 * j) := by
          apply List.take_of_length_le
          simp only [List.length_drop]
          omega
        rw [htk]
        have hlenmap : ((P.drop (254 * j)).map (· % 256)).length = P.length - 254 * j + 1 - 1 := by
          simp only [List.length_map, List.length_drop]
          omega
        rw [List.take_append_of_le_length (le_of_eq hlenmap.symm)]
        rw [List.take_of_length_le (le_of_eq hlenmap)]
      rw [hslice]
      obtain ⟨f2, rfl⟩ : ∃ f2, f = f2 + 1 := ⟨f - 1, by omega⟩
      rw [readChain]
      rw [if_pos rfl]
    | succ m' =>
      have hnterm : ¬ (j + 1 = chain.length) := by omega
      rw [if_neg hnterm] at hcj
      have hj1lt : j + 1 < chain.length := by omega
      have hmemq1 : chain.getD (j + 1) (0, 0) ∈ chain := by
        rw [List.getD_eq_getElem?_getD, List.getElem?_eq_getElem hj1lt]
        exact List.getElem_mem _
      obtain ⟨hn1, hn2, hn3⟩ := hmemb _ hmemq1
      have hmin : min 254 (P.length - 254 * j) = 254 := by
        apply Nat.min_eq_left
        omega
      rw [hmin, Nat.sub_self, List.replicate_zero, List.append_nil] at hcj
      have hb0 : getByte d2 (chain.getD j (0, 0)).1 (chain.getD j (0, 0)).2 0
          = (chain.getD (j + 1) (0, 0)).1 := by
        unfold getByte
        rw [heta, hcj]
        rfl
      have hb1 : getByte d2 (chain.getD j (0, 0)).1 (chain.getD j (0, 0)).2 1
          = (chain.getD (j + 1) (0, 0)).2 := by
        unfold getByte
        rw [heta, hcj]
        rfl
      rw [hb0, hb1]
      dsimp only
      rw [if_pos (by omega)]
      have hslice : ((d2.sectors ((chain.getD j (0, 0)).1, (chain.getD j (0, 0)).2)).drop 2).take
          254 = ((P.drop (254 * j)).take 254).map (· % 256) := by
        rw [heta, hcj]
        have hdrop2 : (([(chain.getD (j + 1) (0, 0)).1, (chain.getD (j + 1) (0, 0)).2] ++
            ((P.drop (254 * j)).take 254).map (· % 256)).drop 2)
            = ((P.drop (254 * j)).take 254).map (· % 256) := rfl
        rw [hdrop2]
        apply List.take_of_length_le
        simp only [List.length_map, List.length_take, List.length_drop]
        omega
      rw [hslice]
      have hrec := ih (j + 1) (by omega) f (by omega)
        (acc ++ ((P.drop (254 * j)).take 254).map (· % 256))
      rw [hrec]
      congr 1
      rw [List.append_assoc, ← List.map_append]
      congr 2
      have harith : 254 * (j + 1) = 254 * j + 254 := by ring
      have hdd : P.drop (254 * (j + 1)) = (P.drop (254 * j)).drop 254 := by
        rw [List.drop_drop, harith]
      rw [hdd, List.take_append_drop]

theorem sectors_setSectorRaw_ne {d : D64} {t s : Nat} {p : Nat × Nat} (hp : p ≠ (t, s))
    (l : List Nat) : (setSectorRaw d t s l).sectors p = d.sectors p := by
  rw [sectors_setSectorRaw, if_neg hp]

theorem allocateSideSector_step {d : D64} (hC : bamConsistent d) :
    (∃ t s, allocateSideSector d =
        (.ok (some (t, s)),
         setSectorRaw (specAllocEffect d t s) t s (List.replicate SECTOR_SIZE 0)) ∧
      bamTest d (t - 1) s = true ∧ 1 ≤ t ∧ t ≤ TRACKS d ∧ s < sptrack t) ∨
    (allocateSideSector d = (.ok none, d) ∧ totalFree d = 0) := by
  unfold allocateSideSector
  rcases findAlloc_step hC with ⟨t, s, hal, hbt, h1, h2, h3⟩ | ⟨hnone, htot⟩
  · rw [hal]
    exact Or.inl ⟨t, s, rfl, hbt, h1, h2, h3⟩
  · rw [hnone]
    exact Or.inr ⟨rfl, htot⟩



theorem cssStep_inv {dstart : D64} (rs : Nat) (st : CSS) (ts : Nat × Nat) (st' : CSS)
    (h : cssStep rs st ts = .ok st') (hI : cssInv dstart st) : cssInv dstart st' := by
  obtain ⟨hC, hL, hT, hlist, hcur, hfirst, hfr⟩ := hI
  unfold cssStep at h
  split at h
  · cases h
    have hB : (setByte (setBytes st.d st.cur.1 st.cur.2 (ssChainOff st.chainCount)
        [ts.1, ts.2]) st.cur.1 st.cur.2 1
        (getByte (setBytes st.d st.cur.1 st.cur.2 (ssChainOff st.chainCount) [ts.1, ts.2])
          st.cur.1 st.cur.2 1 + 2)).sectors (DIRECTORY_TRACK, BAM_SECTOR)
        = st.d.sectors (DIRECTORY_TRACK, BAM_SECTOR) := by
      rw [sectors_setByte_ne (fun hx => hcur hx.symm),
        sectors_setBytes_ne (fun hx => hcur hx.symm)]
    refine ⟨bamConsistent_of_BAM_eq hB rfl hC, len180_of_BAM_eq hB hL, hT, hlist,
      hcur, hfirst, ?_⟩
    intro p hp40 hp24 hpB hpb
    obtain ⟨hsec, hbitp, hpc, hpf⟩ := hfr p hp40 hp24 hpB hpb
    refine ⟨?_, ?_, hpc, hpf⟩
    · show (setByte _ st.cur.1 st.cur.2 1 _).sectors p = dstart.sectors p
      rw [sectors_setByte_ne (fun hx => hpc hx),
        sectors_setBytes_ne (fun hx => hpc hx)]
      exact hsec
    · show bamTest (setByte _ st.cur.1 st.cur.2 1 _) (p.1 - 1) p.2 = false
      rw [bamTest_of_BAM_eq hB]
      exact hbitp
  · split at h
    · exact absurd h (by simp)
    · split at h
      · exact absurd h (by simp)
      · exact absurd h (by simp)
      · rename_i heq
        cases h
        rcases allocateSideSector_step hC with ⟨t2, s2, haleq, hbt, h1, h2, h3⟩ | ⟨hnone, _⟩
        · rw [haleq] at heq
          injection heq with heqA heqB
          injection heqA with heqA
          injection heqA with heqA
          injection heqA with heqt heqs
          subst heqt
          subst heqs
          subst heqB
          have ht2180 : (t2, s2) ≠ (DIRECTORY_TRACK, BAM_SECTOR) := by
            have h170 : bamTest st.d (DIRECTORY_TRACK - 1) BAM_SECTOR = false := hC.2.1
            intro hq
            injection hq with hq1 hq2
            rw [hq1, hq2, h170] at hbt
            exact Bool.noConfusion hbt
          have ht20 : t2 - 1 < 40 := by have := TRACKS_le st.d; omega
          have hs224 : s2 < 24 := by have := sptrack_le t2; omega
          have hprev := specAllocEffect_preserves hC hL h1 h2 h3 hbt
          have hback : st.list.getLastD (0, 0) = st.first := by
            rw [hlist]
            rfl
          rw [hback]
          have hB : ∀ (offA : Nat) (vsA vsB : List Nat) (v2 v3 offC : Nat) (vsC : List Nat)
              (offD : Nat) (vsD : List Nat),
              (setBytes (setBytes (setByte (setByte (setBytes (setBytes
                (setSectorRaw (specAllocEffect st.d t2 s2) t2 s2 (List.replicate SECTOR_SIZE 0))
                st.first.1 st.first.2 offA vsA)
                st.first.1 st.first.2 0 vsB)
                t2 s2 2 v2) t2 s2 3 v3) t2 s2 offC vsC) t2 s2 offD vsD).sectors
                (DIRECTORY_TRACK, BAM_SECTOR)
              = (specAllocEffect st.d t2 s2).sectors (DIRECTORY_TRACK, BAM_SECTOR) := by
            intro offA vsA vsB v2 v3 offC vsC offD vsD
            rw [sectors_setBytes_ne (fun hx => ht2180 hx.symm),
              sectors_setBytes_ne (fun hx => ht2180 hx.symm),
              sectors_setByte_ne (fun hx => ht2180 hx.symm),
              sectors_setByte_ne (fun hx => ht2180 hx.symm),
              sectors_setBytes_ne (fun hx => hfirst hx.symm),
              sectors_setBytes_ne (fun hx => hfirst hx.symm),
              sectors_setSectorRaw_ne (fun hx => ht2180 hx.symm)]
          refine ⟨?_, ?_, ?_, ?_, ?_, ?_, ?_⟩
          · exact bamConsistent_of_BAM_eq (hB _ _ _ _ _ _ _ _ _) rfl hprev.1
          · exact len180_of_BAM_eq (hB _ _ _ _ _ _ _ _ _) hprev.2.1
          · exact hT
          · exact hlist
          · exact ht2180
          · exact hfirst
          · intro p hp40 hp24 hpB hpb
            obtain ⟨hsec, hbitp, hpc, hpf⟩ := hfr p hp40 hp24 hpB hpb
            have hpt2 : p ≠ (t2, s2) := by
              intro hq
              subst hq
              rw [hbt] at hbitp
              exact Bool.noConfusion hbitp
            refine ⟨?_, ?_, hpt2, hpf⟩
            · rw [sectors_setBytes_ne hpt2, sectors_setBytes_ne hpt2,
                sectors_setByte_ne hpt2, sectors_setByte_ne hpt2,
                sectors_setBytes_ne (fun hx => hpf hx),
                sectors_setBytes_ne (fun hx => hpf hx),
                sectors_setSectorRaw_ne hpt2,
                sectors_specAllocEffect_ne hpB]
              exact hsec
            · rw [bamTest_of_BAM_eq (hB _ _ _ _ _ _ _ _ _),
                bamTest_specAllocEffect hL ht20 hs224 hp40 hp24, hbitp]
              simp
        · rw [hnone] at heq
          exact absurd heq (by simp)

theorem cssFoldlM_inv {dstart : D64} (rs : Nat) (l : List (Nat × Nat)) :
    ∀ st st' : CSS, l.foldlM (cssStep rs) st = .ok st' → cssInv dstart st →
    cssInv dstart st' := by
  induction l with
  | nil =>
    intro st st' h hI
    simp only [List.foldlM_nil] at h
    cases h
    exact hI
  | cons a l ih =>
    intro st st' h hI
    cases hc : cssStep rs st a with
    | error e =>
      rw [foldlM_cons_err _ _ _ _ _ hc] at h
      exact absurd h (by simp)
    | ok st1 =>
      rw [foldlM_cons_ok _ _ _ _ _ hc] at h
      exact ih st1 st' h (cssStep_inv rs st a st1 hc hI)

theorem cssFinish_frame {dstart : D64} {st : CSS} (hI : cssInv dstart st)
    {p : Nat × Nat} (hp40 : p.1 - 1 < 40) (hp24 : p.2 < 24)
    (hpB : p ≠ (DIRECTORY_TRACK, BAM_SECTOR))
    (hpb : bamTest dstart (p.1 - 1) p.2 = false) :
    (cssFinish st).sectors p = dstart.sectors p := by
  obtain ⟨hC, hL, hT, hlist, hcur, hfirst, hfr⟩ := hI
  obtain ⟨hsec, hbitp, hpc, hpf⟩ := hfr p hp40 hp24 hpB hpb
  unfold cssFinish
  rw [hlist]
  simp only [List.foldl_cons, List.foldl_nil]
  rw [sectors_setBytes_ne (show p ≠ (st.first.1, st.first.2) from hpf)]
  exact hsec

theorem createSideSectors_frame {d : D64} {ss : List (Nat × Nat)} {rs : Nat}
    {ssl : List (Nat × Nat)} {d5 : D64}
    (h : createSideSectors d ss rs = .ok (ssl, d5))
    (hC : bamConsistent d) (hL : len180 d) :
    TRACKS d5 = TRACKS d ∧
    ∀ p : Nat × Nat, p.1 - 1 < 40 → p.2 < 24 → p ≠ (DIRECTORY_TRACK, BAM_SECTOR) →
      bamTest d (p.1 - 1) p.2 = false → d5.sectors p = d.sectors p := by
  unfold createSideSectors at h
  rcases allocateSideSector_step hC with ⟨t, s, haleq, hbt, h1, h2, h3⟩ | ⟨hnone, _⟩
  · rw [haleq] at h
    dsimp only at h
    have ht180 : (t, s) ≠ (DIRECTORY_TRACK, BAM_SECTOR) := by
      have h170 : bamTest d (DIRECTORY_TRACK - 1) BAM_SECTOR = false := hC.2.1
      intro hq
      injection hq with hq1 hq2
      rw [hq1, hq2, h170] at hbt
      exact Bool.noConfusion hbt
    have ht0 : t - 1 < 40 := by have := TRACKS_le d; omega
    have hs24 : s < 24 := by have := sptrack_le t; omega
    have hprev := specAllocEffect_preserves hC hL h1 h2 h3 hbt
    have hB0 : ∀ (v3 : Nat) (l0 : List Nat) (v2 offT : Nat) (lT : List Nat),
        (setBytes (setByte (setBytes (setByte
          (setSectorRaw (specAllocEffect d t s) t s (List.replicate SECTOR_SIZE 0))
          t s 3 v3) t s 0 l0) t s 2 v2) t s offT lT).sectors
          (DIRECTORY_TRACK, BAM_SECTOR)
        = (specAllocEffect d t s).sectors (DIRECTORY_TRACK, BAM_SECTOR) := by
      intro v3 l0 v2 offT lT
      rw [sectors_setBytes_ne (fun hx => ht180 hx.symm),
        sectors_setByte_ne (fun hx => ht180 hx.symm),
        sectors_setBytes_ne (fun hx => ht180 hx.symm),
        sectors_setByte_ne (fun hx => ht180 hx.symm),
        sectors_setSectorRaw_ne (fun hx => ht180 hx.symm)]
    split at h
    · exact absurd h (by simp)
    · rename_i st heq
      injection h with h
      injection h with hA hB
      subst hB
      have hinv : cssInv d st := by
        refine cssFoldlM_inv rs ss _ st heq ?_
        unfold cssInv
        dsimp only
        refine ⟨?_, ?_, ?_, rfl, ht180, ht180, ?_⟩
        · exact bamConsistent_of_BAM_eq (hB0 _ _ _ _ _) rfl hprev.1
        · exact len180_of_BAM_eq (hB0 _ _ _ _ _) hprev.2.1
        · rfl
        · intro q hq40 hq24 hqB hqb
          have hqt : q ≠ (t, s) := by
            intro hq
            subst hq
            rw [hbt] at hqb
            exact Bool.noConfusion hqb
          refine ⟨?_, ?_, hqt, hqt⟩
          · rw [sectors_setBytes_ne hqt, sectors_setByte_ne hqt, sectors_setBytes_ne hqt,
              sectors_setByte_ne hqt, sectors_setSectorRaw_ne hqt,
              sectors_specAllocEffect_ne hqB]
          · rw [bamTest_of_BAM_eq (hB0 _ _ _ _ _),
              bamTest_specAllocEffect hL ht0 hs24 hq40 hq24, hqb]
            simp
      obtain ⟨hCst, hLst, hTst, hlistst, hcurst, hfirstst, hfrst⟩ := hinv
      constructor
      · unfold cssFinish
        rw [hlistst]
        simp only [List.foldl_cons, List.foldl_nil]
        exact hTst
      · intro p hp40 hp24 hpB hpb
        exact cssFinish_frame ⟨hCst, hLst, hTst, hlistst, hcurst, hfirstst, hfrst⟩
          hp40 hp24 hpB hpb
  · rw [hnone] at h
    exact absurd h (by simp)

theorem range_map_getD (l : List Nat) :
    (List.range l.length).map (fun k => l.getD k 0) = l := by
  apply List.ext_getElem
  · simp
  · intro k hk1 hk2
    simp only [List.getElem_map, List.getElem_range]
    rw [List.getD_eq_getElem?_getD, List.getElem?_eq_getElem hk2]
    rfl

theorem findEmptyDirectorySlot_slot0 (d : D64) (dirFuel : Nat)
    (hopen : entryClosed d DIRECTORY_TRACK DIRECTORY_SECTOR 0 = false) :
    findEmptyDirectorySlot d DIRECTORY_TRACK DIRECTORY_SECTOR (dirFuel + 1)
      = (.ok (some (DIRECTORY_TRACK, DIRECTORY_SECTOR, 0)), d) := by
  rw [findEmptyDirectorySlot]
  rw [if_neg (by decide)]
  rw [if_neg (by
    simp only [isValidTrackSector, not_not, Bool.and_eq_true, decide_eq_true_eq]
    have := TRACKS_pos d
    exact ⟨⟨by decide, by simp only [DIRECTORY_TRACK]; omega⟩, by decide⟩)]
  rw [show List.range FILES_PER_SECTOR = [0, 1, 2, 3, 4, 5, 6, 7] from rfl]
  rw [List.find?_cons_of_pos _ (by simp [hopen])]

theorem sectors_dirTail_ne (d5 : D64) (v21 g1 g2 g3 g4 c1 c2 : Nat) {p : Nat × Nat}
    (hp : p ≠ (DIRECTORY_TRACK, DIRECTORY_SECTOR)) :
    (setBytes (setBytes (setBytes
        (setByte d5 DIRECTORY_TRACK DIRECTORY_SECTOR (entryOff 0 + 21) v21)
        DIRECTORY_TRACK DIRECTORY_SECTOR (entryOff 0 + 19) [g1, g2])
        DIRECTORY_TRACK DIRECTORY_SECTOR (entryOff 0 + 26) [g3, g4])
        DIRECTORY_TRACK DIRECTORY_SECTOR (entryOff 0 + 28) [c1, c2]).sectors p
      = d5.sectors p := by
  rw [sectors_setBytes_ne hp, sectors_setBytes_ne hp, sectors_setBytes_ne hp,
    sectors_setByte_ne hp]

theorem getByte_dirTail (dbase d5 : D64)
    (hsec : d5.sectors (DIRECTORY_TRACK, DIRECTORY_SECTOR)
      = dbase.sectors (DIRECTORY_TRACK, DIRECTORY_SECTOR))
    (v21 g1 g2 g3 g4 c1 c2 : Nat) (k : Nat) (hk : k < 21) :
    getByte (setBytes (setBytes (setBytes
        (setByte d5 DIRECTORY_TRACK DIRECTORY_SECTOR (entryOff 0 + 21) v21)
        DIRECTORY_TRACK DIRECTORY_SECTOR (entryOff 0 + 19) [g1, g2])
        DIRECTORY_TRACK DIRECTORY_SECTOR (entryOff 0 + 26) [g3, g4])
        DIRECTORY_TRACK DIRECTORY_SECTOR (entryOff 0 + 28) [c1, c2])
        DIRECTORY_TRACK DIRECTORY_SECTOR k
      = getByte dbase DIRECTORY_TRACK DIRECTORY_SECTOR k := by
  rw [getByte_setBytes, if_neg (by
    rintro ⟨-, h2, -⟩
    simp only [entryOff] at h2
    omega)]
  rw [getByte_setBytes, if_neg (by
    rintro ⟨-, h2, -⟩
    simp only [entryOff] at h2
    omega)]
  rw [getByte_setBytes, if_neg (by
    rintro ⟨-, h2, -⟩
    simp only [entryOff] at h2
    omega)]
  rw [getByte_setByte, if_neg (by
    rintro ⟨-, h2, -⟩
    simp only [entryOff] at h2
    omega)]
  unfold getByte
  rw [hsec]

theorem length_dirTail (d5 : D64) (v21 g1 g2 g3 g4 c1 c2 : Nat) (p : Nat × Nat) :
    ((setBytes (setBytes (setBytes
        (setByte d5 DIRECTORY_TRACK DIRECTORY_SECTOR (entryOff 0 + 21) v21)
        DIRECTORY_TRACK DIRECTORY_SECTOR (entryOff 0 + 19) [g1, g2])
        DIRECTORY_TRACK DIRECTORY_SECTOR (entryOff 0 + 26) [g3, g4])
        DIRECTORY_TRACK DIRECTORY_SECTOR (entryOff 0 + 28) [c1, c2]).sectors p).length
      = (d5.sectors p).length := by
  rw [length_sectors_setBytes, length_sectors_setBytes, length_sectors_setBytes,
    length_sectors_setByte]

theorem sectors_dirEntry_ne (d2 : D64) (fn : List Nat) (tb : Nat) (start : Nat × Nat)
    {p : Nat × Nat} (hp : p ≠ (DIRECTORY_TRACK, DIRECTORY_SECTOR)) :
    (setBytes (setBytes (setByte d2 DIRECTORY_TRACK DIRECTORY_SECTOR (entryOff 0) tb)
        DIRECTORY_TRACK DIRECTORY_SECTOR (entryOff 0 + 1) [start.1, start.2])
        DIRECTORY_TRACK DIRECTORY_SECTOR (entryOff 0 + 3) (padName fn FILE_NAME_SZ)).sectors p
      = d2.sectors p := by
  rw [sectors_setBytes_ne hp, sectors_setBytes_ne hp, sectors_setByte_ne hp]

theorem length_dirEntry (d2 : D64) (fn : List Nat) (tb : Nat) (start : Nat × Nat)
    (p : Nat × Nat) :
    ((setBytes (setBytes (setByte d2 DIRECTORY_TRACK DIRECTORY_SECTOR (entryOff 0) tb)
        DIRECTORY_TRACK DIRECTORY_SECTOR (entryOff 0 + 1) [start.1, start.2])
        DIRECTORY_TRACK DIRECTORY_SECTOR (entryOff 0 + 3) (padName fn FILE_NAME_SZ)).sectors
        p).length
      = (d2.sectors p).length := by
  rw [length_sectors_setBytes, length_sectors_setBytes, length_sectors_setByte]

theorem getByte_dirEntry_2 (d2 : D64) (fn : List Nat) (tb : Nat) (start : Nat × Nat)
    (hlen : (d2.sectors (DIRECTORY_TRACK, DIRECTORY_SECTOR)).length = SECTOR_SIZE) :
    getByte (setBytes (setBytes (setByte d2 DIRECTORY_TRACK DIRECTORY_SECTOR (entryOff 0) tb)
        DIRECTORY_TRACK DIRECTORY_SECTOR (entryOff 0 + 1) [start.1, start.2])
        DIRECTORY_TRACK DIRECTORY_SECTOR (entryOff 0 + 3) (padName fn FILE_NAME_SZ))
        DIRECTORY_TRACK DIRECTORY_SECTOR 2
      = tb % 256 := by
  rw [getByte_setBytes, if_neg (by
    rintro ⟨-, h2, -⟩
    simp only [entryOff] at h2
    omega)]
  rw [getByte_setBytes, if_neg (by
    rintro ⟨-, h2, -⟩
    simp only [entryOff] at h2
    omega)]
  rw [getByte_setByte, if_pos ⟨rfl, rfl, by rw [hlen]; decide⟩]

theorem getByte_dirEntry_3 (d2 : D64) (fn : List Nat) (tb : Nat) (start : Nat × Nat)
    (hlen : (d2.sectors (DIRECTORY_TRACK, DIRECTORY_SECTOR)).length = SECTOR_SIZE) :
    getByte (setBytes (setBytes (setByte d2 DIRECTORY_TRACK DIRECTORY_SECTOR (entryOff 0) tb)
        DIRECTORY_TRACK DIRECTORY_SECTOR (entryOff 0 + 1) [start.1, start.2])
        DIRECTORY_TRACK DIRECTORY_SECTOR (entryOff 0 + 3) (padName fn FILE_NAME_SZ))
        DIRECTORY_TRACK DIRECTORY_SECTOR 3
      = start.1 % 256 := by
  rw [getByte_setBytes, if_neg (by
    rintro ⟨-, h2, -⟩
    simp only [entryOff] at h2
    omega)]
  rw [getByte_setBytes,
    if_pos ⟨rfl, by decide, by
      simp only [List.length_cons, List.length_nil, entryOff]
      omega, by rw [length_sectors_setByte, hlen]; decide⟩]
  rfl

theorem getByte_dirEntry_4 (d2 : D64) (fn : List Nat) (tb : Nat) (start : Nat × Nat)
    (hlen : (d2.sectors (DIRECTORY_TRACK, DIRECTORY_SECTOR)).length = SECTOR_SIZE) :
    getByte (setBytes (setBytes (setByte d2 DIRECTORY_TRACK DIRECTORY_SECTOR (entryOff 0) tb)
        DIRECTORY_TRACK DIRECTORY_SECTOR (entryOff 0 + 1) [start.1, start.2])
        DIRECTORY_TRACK DIRECTORY_SECTOR (entryOff 0 + 3) (padName fn FILE_NAME_SZ))
        DIRECTORY_TRACK DIRECTORY_SECTOR 4
      = start.2 % 256 := by
  rw [getByte_setBytes, if_neg (by
    rintro ⟨-, h2, -⟩
    simp only [entryOff] at h2
    omega)]
  rw [getByte_setBytes,
    if_pos ⟨rfl, by decide, by
      simp only [List.length_cons, List.length_nil, entryOff]
      omega, by rw [length_sectors_setByte, hlen]; decide⟩]
  rfl

theorem getByte_dirEntry_name (d2 : D64) (fn : List Nat) (tb : Nat) (start : Nat × Nat)
    (hlen : (d2.sectors (DIRECTORY_TRACK, DIRECTORY_SECTOR)).length = SECTOR_SIZE)
    (k : Nat) (hk : k < 16) :
    getByte (setBytes (setBytes (setByte d2 DIRECTORY_TRACK DIRECTORY_SECTOR (entryOff 0) tb)
        DIRECTORY_TRACK DIRECTORY_SECTOR (entryOff 0 + 1) [start.1, start.2])
        DIRECTORY_TRACK DIRECTORY_SECTOR (entryOff 0 + 3) (padName fn FILE_NAME_SZ))
        DIRECTORY_TRACK DIRECTORY_SECTOR (5 + k)
      = (padName fn FILE_NAME_SZ).getD k 0 % 256 := by
  rw [getByte_setBytes, if_pos ⟨rfl, by simp only [entryOff]; omega, by
      rw [padName_length]
      simp only [entryOff, FILE_NAME_SZ]
      omega, by
      rw [length_sectors_setBytes, length_sectors_setByte, hlen]
      simp only [SECTOR_SIZE]
      omega⟩]
  have hki : 5 + k - (entryOff 0 + 3) = k := by
    simp only [entryOff]
    omega
  rw [hki]

theorem createDirectoryEntry_slot0 (d2 : D64) (fn : List Nat) (tb : Nat)
    (start : Nat × Nat) (ss : List (Nat × Nat)) (rs dirFuel : Nat)
    (hC2 : bamConsistent d2) (hL2 : len180 d2)
    (hlen181 : (d2.sectors (DIRECTORY_TRACK, DIRECTORY_SECTOR)).length = SECTOR_SIZE)
    (hopen : entryClosed d2 DIRECTORY_TRACK DIRECTORY_SECTOR 0 = false) :
    match createDirectoryEntry d2 fn tb start ss rs (dirFuel + 1) with
    | (.threw _, _) => True
    | (.ok b, d8) =>
      b = true ∧
      TRACKS d8 = TRACKS d2 ∧
      getByte d8 DIRECTORY_TRACK DIRECTORY_SECTOR 2 = tb % 256 ∧
      getByte d8 DIRECTORY_TRACK DIRECTORY_SECTOR 3 = start.1 % 256 ∧
      getByte d8 DIRECTORY_TRACK DIRECTORY_SECTOR 4 = start.2 % 256 ∧
      (∀ k, k < 16 → getByte d8 DIRECTORY_TRACK DIRECTORY_SECTOR (5 + k)
          = (padName fn FILE_NAME_SZ).getD k 0 % 256) ∧
      (d8.sectors (DIRECTORY_TRACK, DIRECTORY_SECTOR)).length = SECTOR_SIZE ∧
      (∀ p : Nat × Nat, p.1 - 1 < 40 → p.2 < 24 →
          p ≠ (DIRECTORY_TRACK, BAM_SECTOR) → p ≠ (DIRECTORY_TRACK, DIRECTORY_SECTOR) →
          bamTest d2 (p.1 - 1) p.2 = false → d8.sectors p = d2.sectors p) := by
  unfold createDirectoryEntry
  rw [findEmptyDirectorySlot_slot0 d2 dirFuel hopen]
  dsimp only
  have hBne : ((DIRECTORY_TRACK, BAM_SECTOR) : Nat × Nat)
      ≠ (DIRECTORY_TRACK, DIRECTORY_SECTOR) := by decide
  by_cases hrel : tb % 16 = 4
  · rw [if_pos hrel]
    have hB5 := sectors_dirEntry_ne d2 fn tb start hBne
    have hC5 := bamConsistent_of_BAM_eq hB5 rfl hC2
    have hL5 := len180_of_BAM_eq hB5 hL2
    split
    · exact trivial
    · rename_i b d8 heq
      split at heq
      · exact absurd heq (by simp)
      · exact absurd heq (by simp)
      · rename_i ssl d5 hcss
        rw [if_pos hrel] at heq
        injection heq with h1 h2
        injection h1 with h1
        subst h1
        subst h2
        have hfr := createSideSectors_frame hcss hC5 hL5
        have h181 : d5.sectors (DIRECTORY_TRACK, DIRECTORY_SECTOR)
            = (setBytes (setBytes (setByte d2 DIRECTORY_TRACK DIRECTORY_SECTOR (entryOff 0) tb)
                DIRECTORY_TRACK DIRECTORY_SECTOR (entryOff 0 + 1) [start.1, start.2])
                DIRECTORY_TRACK DIRECTORY_SECTOR (entryOff 0 + 3)
                (padName fn FILE_NAME_SZ)).sectors (DIRECTORY_TRACK, DIRECTORY_SECTOR) :=
          hfr.2 (DIRECTORY_TRACK, DIRECTORY_SECTOR) (by decide) (by decide) (by decide)
            (by rw [bamTest_of_BAM_eq hB5]; exact hC2.2.2)
        refine ⟨rfl, ?_, ?_, ?_, ?_, ?_, ?_, ?_⟩
        · exact hfr.1
        · rw [getByte_dirTail _ _ h181 _ _ _ _ _ _ _ 2 (by decide)]
          exact getByte_dirEntry_2 d2 fn tb start hlen181
        · rw [getByte_dirTail _ _ h181 _ _ _ _ _ _ _ 3 (by decide)]
          exact getByte_dirEntry_3 d2 fn tb start hlen181
        · rw [getByte_dirTail _ _ h181 _ _ _ _ _ _ _ 4 (by decide)]
          exact getByte_dirEntry_4 d2 fn tb start hlen181
        · intro k hk
          rw [getByte_dirTail _ _ h181 _ _ _ _ _ _ _ (5 + k) (by omega)]
          exact getByte_dirEntry_name d2 fn tb start hlen181 k hk
        · rw [length_dirTail, h181, length_dirEntry]
          exact hlen181
        · intro p hp40 hp24 hpB hp181 hpb
          rw [sectors_dirTail_ne _ _ _ _ _ _ _ _ hp181]
          rw [hfr.2 p hp40 hp24 hpB (by rw [bamTest_of_BAM_eq hB5]; exact hpb)]
          exact sectors_dirEntry_ne d2 fn tb start hp181
  · rw [if_neg hrel]
    dsimp only
    rw [if_neg hrel]
    refine ⟨rfl, rfl, ?_, ?_, ?_, ?_, ?_, ?_⟩
    · rw [getByte_dirTail _ _ rfl _ _ _ _ _ _ _ 2 (by decide)]
      exact getByte_dirEntry_2 d2 fn tb start hlen181
    · rw [getByte_dirTail _ _ rfl _ _ _ _ _ _ _ 3 (by decide)]
      exact getByte_dirEntry_3 d2 fn tb start hlen181
    · rw [getByte_dirTail _ _ rfl _ _ _ _ _ _ _ 4 (by decide)]
      exact getByte_dirEntry_4 d2 fn tb start hlen181
    · intro k hk
      rw [getByte_dirTail _ _ rfl _ _ _ _ _ _ _ (5 + k) (by omega)]
      exact getByte_dirEntry_name d2 fn tb start hlen181 k hk
    · rw [length_dirTail, length_dirEntry]
      exact hlen181
    · intro p hp40 hp24 hpB hp181 hpb
      rw [sectors_dirTail_ne _ _ _ _ _ _ _ _ hp181]
      exact sectors_dirEntry_ne d2 fn tb start hp181

/-- C1: for every payload accepted by `add_file` (any type, including REL),
an immediate `read_file` of the same filename returns exactly the payload. -/
theorem C1_roundtrip (d : D64) (filename : List Nat) (typeByte : Nat) (P : List Nat)
    (recordSize dirFuel rdFuel chainFuel : Nat) (d' : D64)
    (hC : bamConsistent d) (hL : len180 d) (hS : secLen d)
    (hopen : entryClosed d DIRECTORY_TRACK DIRECTORY_SECTOR 0 = false)
    (hfn2 : filename.length ≤ FILE_NAME_SZ)
    (hfn3 : ∀ b ∈ filename, b < 256 ∧ b ≠ A0_VALUE)
    (hP2 : ∀ b ∈ P, b < 256)
    (htb1 : typeByte < 256) (htb2 : Nat.testBit typeByte 7 = true)
    (hfuel : P.length + 2 ≤ chainFuel)
    (hadd : addFile d filename typeByte P recordSize (dirFuel + 1) = (.ok true, d')) :
    readFile d' filename (rdFuel + 1) chainFuel = .ok P := by
  unfold addFile at hadd
  by_cases hemp : (filename.isEmpty || P.isEmpty) = true
  · rw [if_pos hemp] at hadd
    exact absurd hadd (by simp)
  · rw [if_neg hemp] at hadd
    have hP0 : 0 < P.length := by
      cases P with
      | nil => exact absurd (by simp) hemp
      | cons a Q => simp
    rcases findAlloc_step hC with ⟨t0, s0, hal, hbt, h1, h2, h3⟩ | ⟨hnone, -⟩
    · rw [hal] at hadd
      dsimp only at hadd
      have h40 := TRACKS_le d
      have ht00 : t0 - 1 < 40 := by omega
      have hs024 : s0 < 24 := by have := sptrack_le t0; omega
      have hne180 : (t0, s0) ≠ (DIRECTORY_TRACK, BAM_SECTOR) := by
        have h170 : bamTest d (DIRECTORY_TRACK - 1) BAM_SECTOR = false := hC.2.1
        intro hq
        injection hq with hq1 hq2
        rw [hq1, hq2, h170] at hbt
        exact Bool.noConfusion hbt
      have hne181 : (t0, s0) ≠ (DIRECTORY_TRACK, DIRECTORY_SECTOR) := by
        have h171 : bamTest d (DIRECTORY_TRACK - 1) DIRECTORY_SECTOR = false := hC.2.2
        intro hq
        injection hq with hq1 hq2
        rw [hq1, hq2, h171] at hbt
        exact Bool.noConfusion hbt
      have hprev := specAllocEffect_preserves hC hL h1 h2 h3 hbt
      have hbit1 : bamTest (specAllocEffect d t0 s0) (t0 - 1) s0 = false := by
        rw [bamTest_specAllocEffect hL ht00 hs024 ht00 hs024]
        simp
      have hw := writeChain_full P.length (specAllocEffect d t0 s0) t0 s0 P []
        hprev.1 hprev.2.1 (secLen_specAllocEffect hS t0 s0) h1 h2 h3 hbit1
        hne180 hne181 hP0
      unfold writeFileDataToSectors at hadd
      cases hwrite : writeChainLoop P.length (specAllocEffect d t0 s0) t0 s0 P [] with
      | mk res d2 =>
        rw [hwrite] at hadd hw
        cases res with
        | threw m => exact absurd hadd (by simp)
        | ok L =>
          dsimp only at hadd hw
          obtain ⟨chain, hL0, hhead, hcpos, hclen, hC2, hL2, hS2, hT2, hmembr, hframe,
            hcontent⟩ := hw
          -- the directory sector is untouched by allocation and the chain write
          have hb181 : bamTest (specAllocEffect d t0 s0) 17 1 = false := by
            rw [bamTest_specAllocEffect hL ht00 hs024 (by decide) (by decide)]
            rw [hC.2.2]
            simp
          have hfr181 := hframe (DIRECTORY_TRACK, DIRECTORY_SECTOR) (by decide) (by decide)
            hb181 (by decide) (fun hx => hne181 hx.symm)
          have hsec181 : d2.sectors (DIRECTORY_TRACK, DIRECTORY_SECTOR)
              = d.sectors (DIRECTORY_TRACK, DIRECTORY_SECTOR) := by
            rw [hfr181.1, sectors_specAllocEffect_ne (by decide)]
          have hopen2 : entryClosed d2 DIRECTORY_TRACK DIRECTORY_SECTOR 0 = false := by
            unfold entryClosed entryTypeByte getByte
            rw [hsec181]
            exact hopen
          have hlen181 : (d2.sectors (DIRECTORY_TRACK, DIRECTORY_SECTOR)).length
              = SECTOR_SIZE := hS2 (DIRECTORY_TRACK, DIRECTORY_SECTOR)
          have hcde := createDirectoryEntry_slot0 d2 filename typeByte (t0, s0) L
            recordSize dirFuel hC2 hL2 hlen181 hopen2
          rw [hadd] at hcde
          obtain ⟨-, hT8, hb2, hb3, hb4, hnm, hlen8, hfr8⟩ := hcde
          have hT' : TRACKS d' = TRACKS d := by
            rw [hT8, hT2]
            exact TRACKS_specAllocEffect d t0 s0
          -- the stored entry fields read back
          have hclosed : entryClosed d' DIRECTORY_TRACK DIRECTORY_SECTOR 0 = true := by
            unfold entryClosed entryTypeByte
            have he2 : getByte d' DIRECTORY_TRACK DIRECTORY_SECTOR (entryOff 0) = typeByte :=
              hb2.trans (Nat.mod_eq_of_lt htb1)
            rw [he2]
            exact htb2
          have hbound : ∀ b ∈ padName filename FILE_NAME_SZ, b < 256 := by
            intro b hb
            unfold padName at hb
            rw [List.mem_append] at hb
            rcases hb with hb | hb
            · exact (hfn3 b (List.mem_of_mem_take hb)).1
            · rw [List.eq_of_mem_replicate hb]
              decide
          have hnb : entryNameBytes d' DIRECTORY_TRACK DIRECTORY_SECTOR 0
              = padName filename FILE_NAME_SZ := by
            have hsl := slice_eq_of_getD (d'.sectors (DIRECTORY_TRACK, DIRECTORY_SECTOR)) 5 16
              (fun k => (padName filename FILE_NAME_SZ).getD k 0 % 256)
              (by rw [hlen8]; decide) (fun k hk => hnm k hk)
            show ((d'.sectors (DIRECTORY_TRACK, DIRECTORY_SECTOR)).drop 5).take 16
              = padName filename FILE_NAME_SZ
            rw [hsl]
            have hstep : (List.range 16).map
                (fun k => (padName filename FILE_NAME_SZ).getD k 0 % 256)
                = (List.range 16).map (fun k => (padName filename FILE_NAME_SZ).getD k 0) := by
              apply List.map_congr_left
              intro k hk
              apply Nat.mod_eq_of_lt
              have hklen : k < (padName filename FILE_NAME_SZ).length := by
                rw [padName_length]
                exact List.mem_range.mp hk
              rw [List.getD_eq_getElem?_getD, List.getElem?_eq_getElem hklen]
              exact hbound _ (List.getElem_mem _)
            rw [hstep]
            rw [show (16 : Nat) = (padName filename FILE_NAME_SZ).length from
              (padName_length filename FILE_NAME_SZ).symm]
            exact range_map_getD _
          have hffn : findFileName (entryNameBytes d' DIRECTORY_TRACK DIRECTORY_SECTOR 0)
              = filename := by
            rw [hnb]
            exact findFileName_padName filename hfn2 (fun b hb => (hfn3 b hb).2)
          have ht0lt : t0 < 256 := by omega
          have hs0lt : s0 < 256 := by omega
          have hstartpair : entryStart d' DIRECTORY_TRACK DIRECTORY_SECTOR 0 = (t0, s0) := by
            unfold entryStart
            have e3 : getByte d' DIRECTORY_TRACK DIRECTORY_SECTOR (entryOff 0 + 1) = t0 :=
              hb3.trans (Nat.mod_eq_of_lt ht0lt)
            have e4 : getByte d' DIRECTORY_TRACK DIRECTORY_SECTOR (entryOff 0 + 2) = s0 :=
              hb4.trans (Nat.mod_eq_of_lt hs0lt)
            rw [e3, e4]
          -- transport the chain content to the final state
          have hmemb' : ∀ q ∈ chain, 1 ≤ q.1 ∧ q.1 ≤ TRACKS d' ∧ q.2 < sptrack q.1 := by
            intro q hq
            obtain ⟨hq1, hq2, hq3, -, -, -⟩ := hmembr q hq
            rw [hT']
            exact ⟨hq1, hq2, hq3⟩
          have hcontent' : ∀ j, j < chain.length →
              d'.sectors (chain.getD j (0, 0)) =
                (if j + 1 = chain.length then [0, (P.length - 254 * j + 1) % 256]
                 else [(chain.getD (j + 1) (0, 0)).1, (chain.getD (j + 1) (0, 0)).2])
                ++ ((P.drop (254 * j)).take 254 ++
                    List.replicate (254 - min 254 (P.length - 254 * j)) 0).map (· % 256) := by
            intro j hj
            have hqmem : chain.getD j (0, 0) ∈ chain := by
              rw [List.getD_eq_getElem?_getD, List.getElem?_eq_getElem hj]
              exact List.getElem_mem _
            obtain ⟨hq1, hq2, hq3, hq4, hq4b, hq5⟩ := hmembr _ hqmem
            have hq40 : (chain.getD j (0, 0)).1 - 1 < 40 := by
              have := TRACKS_le (specAllocEffect d t0 s0)
              omega
            have hq24 : (chain.getD j (0, 0)).2 < 24 := by
              have := sptrack_le (chain.getD j (0, 0)).1
              omega
            rw [hfr8 _ hq40 hq24 hq4 hq4b hq5]
            exact hcontent j hj
          have hrc := readChain_content d' chain P hmemb' hclen hP0 hcontent'
            chain.length 0 (by omega) chainFuel (by rw [hclen]; omega) []
          have hgd1 : (chain.getD 0 (0, 0)).1 = t0 := by rw [hhead]
          have hgd2 : (chain.getD 0 (0, 0)).2 = s0 := by rw [hhead]
          rw [hgd1, hgd2] at hrc
          have hmap : P.map (· % 256) = P := by
            conv_rhs => rw [← List.map_id P]
            exact List.map_congr_left (fun b hb => Nat.mod_eq_of_lt (hP2 b hb))
          -- run the read
          unfold readFile findFile
          rw [findFileLoop]
          rw [if_neg (by decide)]
          rw [if_neg (by
            simp only [isValidTrackSector, not_not, Bool.and_eq_true, decide_eq_true_eq]
            refine ⟨⟨by decide, ?_⟩, by decide⟩
            rw [hT']
            have := TRACKS_pos d
            simp only [DIRECTORY_TRACK]
            omega)]
          rw [show List.range FILES_PER_SECTOR = [0, 1, 2, 3, 4, 5, 6, 7] from rfl]
          rw [List.find?_cons_of_pos _ (by
            show (entryClosed d' DIRECTORY_TRACK DIRECTORY_SECTOR 0 &&
              decide (findFileName (entryNameBytes d' DIRECTORY_TRACK DIRECTORY_SECTOR 0)
                = filename)) = true
            rw [hclosed, hffn]
            simp)]
          dsimp only
          rw [hstartpair]
          rw [hrc]
          rw [List.nil_append, List.drop_zero, hmap]
    · rw [hnone] at hadd
      exact absurd hadd (by simp)

theorem C1_roundtrip_witness :
    readFile (addFile (freshE diskType.thirty_five_track) [65] 130 [66, 67] 0 1).2
      [65] 1 4 = .ok [66, 67] :=
  C1_roundtrip (freshE diskType.thirty_five_track) [65] 130 [66, 67] 0 0 0 4
    (addFile (freshE diskType.thirty_five_track) [65] 130 [66, 67] 0 1).2
    (by decide) (by decide) (secLen_freshE diskType.thirty_five_track) (by decide)
    (by decide) (by decide) (by decide) (by decide) (by decide) (by decide)
    (Prod.ext (by decide) rfl)
